import Mathlib

/-!
# discord-logger: delivery pipeline, overflow storage and configuration

A shallow embedding of `src/core/DiscordWebhookService.js` (the request scheduler `log`
and `processQueue`, the retry loop `sendWithRetry`, the payload assembly `createPayload`
and `createEmbed`), of `src/core/GitHubStorageService.js` (path generation, upload,
routing of oversized content), of the validators and text helpers of
`src/utils/helpers.js`, and of `configure`, `healthCheck`, `log` and `batch` of
`src/core/LoggerService.js`; also the constructor, `configure` and `sendNotification` of
`DiscordWebhookService`.

* Times are milliseconds, as read by `Date.now()`, kept as rationals.
* JavaScript numbers are exact rationals; `NaN` is `none` in `Option ℚ`.
* What `createPayload`, `axios.post`, `Math.random` and the timers do is an input of the
  retry loop (`Attempt`, `Event`): every theorem on it quantifies over that input, and
  the payload assembly is tied to it by an equation where a claim needs both.
* What `axios.put`, `axios.get` and `new Date()` give is an input of the storage model
  (`StoreEnv`, `HealthEnv`, `DateReading`).
* A `Char` stands for one UTF-16 code unit.
* Synchronous code takes no time: clock readings made in one turn of the event loop
  are equal.
* The drain loop of `processQueue` is cut at `shift()`: one `resume` event carries the
  loop from one `shift()` to the next, and `log` calls may come between any two of them,
  also while an entry is in flight.
-/

namespace DiscordLogger

/-! ## JavaScript values -/

/-- JavaScript values without functions: what a caller can put in a log record
and what the sink can send back as `response.data`. -/
inductive JsVal where
  | undefined
  | null
  | bool (b : Bool)
  | number (n : ℚ)
  | string (s : String)
  | array (items : List JsVal)
  | object (props : List (String × JsVal))
  /-- An `Error` instance without enumerable own properties; `cause` is `undefined`
  when the error has none. -/
  | error (name message stack : String) (cause : JsVal)

/-- Property lookup in a property list (first binding of the key). -/
def lookupProp (name : String) : List (String × JsVal) → JsVal
  | [] => JsVal.undefined
  | (k, v) :: rest => if k = name then v else lookupProp name rest

/-- Reading `v.name` for one of the record keys used by `log`; primitives and
arrays have no such own property, so the read gives `undefined`. -/
def JsVal.getProp (v : JsVal) (name : String) : JsVal :=
  match v with
  | JsVal.object props => lookupProp name props
  | _ => JsVal.undefined

/-- Destructuring default `{ key = dflt }`: the default applies to `undefined` only. -/
def JsVal.orDefault (v dflt : JsVal) : JsVal :=
  match v with
  | JsVal.undefined => dflt
  | other => other

/-- The `error.response` part of a rejected sink call, as axios builds it. -/
structure ErrorResponse where
  /-- Field `error.response.status`. -/
  status : Nat
  /-- Field `error.response.headers['retry-after']`, `none` when the header is absent. -/
  retryAfterHeader : Option String

/-- A thrown value as the `catch` blocks read it. -/
structure JsError where
  /-- Field `error.response`, absent on network faults and on plain `Error`s. -/
  response : Option ErrorResponse
  /-- Field `error.code`. -/
  code : Option String
  /-- Field `error.message`, `none` when the thrown object has none. -/
  message : Option String

/-! ## `parseInt` -/

/-- Code points of `StrWhiteSpaceChar`, which `parseInt` skips at the start. -/
def isStrWhiteSpace (c : Char) : Bool :=
  c.toNat ∈ [0x09, 0x0A, 0x0B, 0x0C, 0x0D, 0x20, 0xA0, 0x1680, 0x2028, 0x2029,
    0x202F, 0x205F, 0x3000, 0xFEFF] || (0x2000 ≤ c.toNat && c.toNat ≤ 0x200A)

/-- Value of `c` as a digit in `radix` (10 or 16). -/
def digitValue (radix : Nat) (c : Char) : Option Nat :=
  let n := c.toNat
  let v : Option Nat :=
    if 48 ≤ n ∧ n ≤ 57 then some (n - 48)
    else if 97 ≤ n ∧ n ≤ 122 then some (n - 97 + 10)
    else if 65 ≤ n ∧ n ≤ 90 then some (n - 65 + 10)
    else none
  match v with
  | some d => if d < radix then some d else none
  | none => none

/-- Value of the longest prefix of digits, accumulated from the left. -/
def parseDigits (radix : Nat) : List Char → Nat → Nat
  | [], acc => acc
  | c :: cs, acc =>
    match digitValue radix c with
    | some d => parseDigits radix cs (acc * radix + d)
    | none => acc

/-- Sign handling of `parseInt`: an optional leading `+` or `-`. -/
def stripSign : List Char → Int × List Char
  | '-' :: rest => (-1, rest)
  | '+' :: rest => (1, rest)
  | cs => (1, cs)

/-- Radix detection of `parseInt` without a radix argument: `0x` / `0X` selects 16. -/
def stripRadix : List Char → Nat × List Char
  | '0' :: 'x' :: rest => (16, rest)
  | '0' :: 'X' :: rest => (16, rest)
  | cs => (10, cs)

/-- JavaScript `parseInt(s)`: `none` is `NaN`. The value is exact (no rounding of
integers above 2^53). -/
def parseInt (s : String) : Option Int :=
  let body := stripSign (s.toList.dropWhile isStrWhiteSpace)
  let digits := stripRadix body.2
  match digits.2 with
  | [] => none
  | c :: _ =>
    match digitValue digits.1 c with
    | none => none
    | some _ => some (body.1 * (parseDigits digits.1 digits.2 0 : Nat))

/-- JavaScript multiplication of a possibly-`NaN` integer by a finite number. -/
def jsMul (a : Option Int) (b : ℚ) : Option ℚ :=
  a.map (fun n => (n : ℚ) * b)

/-- JavaScript addition with `NaN` propagation. -/
def jsAdd (a : Option ℚ) (b : ℚ) : Option ℚ :=
  a.map (fun x => x + b)

/-! ## The service record and the environment -/

/-- A queued log record (`logEntry` in `log`). The completion handle `resolve` is
the index of the promise that `log` returned, in the order of the `log` calls. -/
structure LogEntry where
  /-- Clock reading at the `log` call (the source stores its ISO rendering). -/
  timestamp : ℚ
  /-- Field `level`, already upper-cased. -/
  level : String
  functionName : JsVal
  fileName : JsVal
  message : JsVal
  data : JsVal
  error : JsVal
  response : JsVal
  metadata : JsVal
  /-- Completion handle: index of the promise this entry settles. -/
  resolve : Nat

/-- The `limits` object of `DiscordWebhookService`, with the constructor defaults. -/
structure Limits where
  username : Nat := 80
  content : Nat := 2000
  embedTitle : Nat := 256
  embedDescription : Nat := 4096
  fieldName : Nat := 256
  fieldValue : Nat := 1024
  footerText : Nat := 2048
  totalCharacters : Nat := 6000
  maxEmbeds : Nat := 10
  maxFields : Nat := 25

/-- The fields of `DiscordWebhookService`; the appearance fields default to the values
the constructor gives them. -/
structure DiscordWebhookService where
  /-- Field `webhookUrl`: `none` when it is falsy (`null`; the constructor and
  `setWebhookUrl` never store an empty string). -/
  webhookUrl : Option String
  /-- Field `minInterval`, in ms. -/
  minInterval : ℚ
  maxRetries : Nat
  /-- Field `retryBackoff`: the string 'exponential' or 'fixed'. -/
  retryBackoff : String
  retryMultiplier : ℚ
  rateLimitQueue : List LogEntry
  isProcessingQueue : Bool
  lastRequestTime : ℚ
  serviceName : String := "Logger Service"
  avatarUrl : String := "https://cdn.discordapp.com/embed/avatars/0.png"
  limits : Limits := {}
  footerText : String := "Discord Logger • Cross-Platform"
  footerIconUrl : String :=
    "https://github.githubassets.com/images/modules/logos_page/GitHub-Mark.png"
  /-- Field `colors`: the keys of the object with their values. -/
  colors : List (String × Nat) :=
    [("ERROR", 15158332), ("WARN", 16776960), ("INFO", 3447003), ("DEBUG", 9807270),
      ("SUCCESS", 5763719)]
  /-- Field `icons`. -/
  icons : List (String × String) :=
    [("ERROR", "🚨"), ("WARN", "⚠️"), ("INFO", "📋"), ("DEBUG", "🔍"), ("SUCCESS", "✅")]
  /-- Field `serviceIcons`. -/
  serviceIcons : List (String × String) :=
    [("ERROR", "https://cdn-icons-png.flaticon.com/512/753/753345.png"),
      ("WARN", "https://cdn-icons-png.flaticon.com/512/595/595067.png"),
      ("INFO", "https://cdn-icons-png.flaticon.com/512/1827/1827933.png"),
      ("DEBUG", "https://cdn-icons-png.flaticon.com/512/2103/2103832.png"),
      ("SUCCESS", "https://cdn-icons-png.flaticon.com/512/845/845646.png")]

/-- What the environment does during one pass through the body of `sendWithRetry`
(one value of `retryCount`). Durations are in ms. -/
structure Attempt where
  /-- Outcome of `await this.createPayload(logEntry)`: the JSON document or a throw. -/
  payload : Except JsError JsVal
  /-- Time `createPayload` takes to settle. -/
  buildTime : ℚ
  /-- Outcome of `await axios.post(...)`: `response.data` or the rejection. -/
  reply : Except JsError JsVal
  /-- Time the sink call takes to settle. -/
  postTime : ℚ
  /-- The `Math.random()` draw of the 429 branch. -/
  random : ℚ
  /-- How much later than requested the retry timer fires. -/
  overrun : ℚ

/-- One call of `axios.post` by `sendWithRetry`. -/
structure Post where
  entry : LogEntry
  retryCount : Nat
  url : String
  payload : JsVal
  /-- Clock reading when the call is issued. -/
  time : ℚ

/-- Clock reading when `await Helpers.sleep(ms)` resumes, for a timer that fires
`overrun` later than requested: a `NaN` or negative delay requests no wait. -/
def sleepUntil (now : ℚ) (ms : Option ℚ) (overrun : ℚ) : ℚ :=
  now + max 0 (ms.getD 0) + overrun

/-! ## `sendWithRetry` -/

/-- The `retryAfter` constant of the 429 branch (lines 186-188):
`headers['retry-after'] ? parseInt(headers['retry-after']) * 1000 : Math.pow(2, retryCount) * 1000`. -/
def retryAfter (response : ErrorResponse) (retryCount : Nat) : Option ℚ :=
  match response.retryAfterHeader with
  | none => some ((2 : ℚ) ^ retryCount * 1000)
  | some h =>
    if h.toList.length = 0 then some ((2 : ℚ) ^ retryCount * 1000)
    else jsMul (parseInt h) 1000

/-- What the `catch` block of `sendWithRetry` decides. -/
inductive CatchAction where
  /-- Call `await Helpers.sleep(ms)`, then `sendWithRetry(logEntry, retryCount + 1)`. -/
  | sleepThenRetry (ms : Option ℚ)
  /-- Run `throw error`. -/
  | rethrow

/-- The second `if` of the `catch` block (lines 194-198): network faults. -/
def networkFaultBranch (svc : DiscordWebhookService) (error : JsError) (retryCount : Nat) :
    CatchAction :=
  if (error.code = some "ECONNRESET" ∨ error.code = some "ETIMEDOUT")
      ∧ retryCount < svc.maxRetries then
    CatchAction.sleepThenRetry (some ((2 : ℚ) ^ retryCount * 1000))
  else CatchAction.rethrow

/-- The `catch (error)` block of `sendWithRetry` (lines 184-201): the 429 branch
(lines 185-192), then the network-fault branch, then `throw error`. -/
def catchBlock (svc : DiscordWebhookService) (error : JsError) (retryCount : Nat)
    (random : ℚ) : CatchAction :=
  match error.response with
  | some response =>
    if response.status = 429 ∧ retryCount < svc.maxRetries then
      CatchAction.sleepThenRetry (jsAdd (retryAfter response retryCount) (random * 1000))
    else networkFaultBranch svc error retryCount
  | none => networkFaultBranch svc error retryCount

/-- The value `sendWithRetry` returns when no webhook URL is configured. -/
def disabledResult : JsVal :=
  JsVal.object [("disabled", JsVal.bool true),
    ("message", JsVal.string "Webhook URL not configured")]

/-- What the `try` block of `sendWithRetry` did. -/
structure TryResult where
  /-- The returned value, or the error that reached `catch`. -/
  outcome : Except JsError JsVal
  /-- The sink calls issued (none or one). -/
  posts : List Post
  /-- Clock reading when the block ends. -/
  finish : ℚ

/-- The `try` block of `sendWithRetry` (lines 171-183), started at clock reading `now`. -/
def tryBlock (svc : DiscordWebhookService) (a : Attempt) (logEntry : LogEntry)
    (retryCount : Nat) (now : ℚ) : TryResult :=
  match a.payload with
  | Except.error e => ⟨Except.error e, [], now + a.buildTime⟩
  | Except.ok payload =>
    match svc.webhookUrl with
    | none => ⟨Except.ok disabledResult, [], now + a.buildTime⟩
    | some url =>
      let post : Post := ⟨logEntry, retryCount, url, payload, now + a.buildTime⟩
      ⟨a.reply, [post], now + a.buildTime + a.postTime⟩

/-- What a call of `sendWithRetry` did, retries included. -/
structure SendResult where
  /-- The value the promise fulfils with, or the error it rejects with. -/
  outcome : Except JsError JsVal
  /-- The sink calls issued, in order. -/
  posts : List Post
  /-- The delays passed to `Helpers.sleep`, in order. -/
  sleeps : List (Option ℚ)
  /-- Clock reading when the promise settles. -/
  finish : ℚ

/-- The async function `sendWithRetry(logEntry, retryCount)` (lines 170-202), started
at clock reading `now`; `env k` is what the environment does when `retryCount = k`. -/
def sendWithRetry (svc : DiscordWebhookService) (env : Nat → Attempt) (logEntry : LogEntry)
    (retryCount : Nat) (now : ℚ) : SendResult :=
  let t := tryBlock svc (env retryCount) logEntry retryCount now
  match t.outcome with
  | Except.ok value => ⟨Except.ok value, t.posts, [], t.finish⟩
  | Except.error error =>
    match h : catchBlock svc error retryCount (env retryCount).random with
    | CatchAction.rethrow => ⟨Except.error error, t.posts, [], t.finish⟩
    | CatchAction.sleepThenRetry ms =>
      let r := sendWithRetry svc env logEntry (retryCount + 1)
        (sleepUntil t.finish ms (env retryCount).overrun)
      ⟨r.outcome, t.posts ++ r.posts, ms :: r.sleeps, r.finish⟩
termination_by svc.maxRetries - retryCount
decreasing_by
  have hlt : retryCount < svc.maxRetries := by
    unfold catchBlock networkFaultBranch at h
    split at h <;> split_ifs at h <;> exact And.right ‹_›
  omega

/-! ## The scheduler: `log` and `processQueue` -/

/-- The value a log promise is fulfilled with: `{ success: true, result }` or
`{ success: false, error }` where `error` is the `message` of the caught error. -/
inductive DeliveryResult where
  | success (result : JsVal)
  | failure (error : Option String)

/-- State of the promise returned by one call of `log`. -/
inductive PromiseState where
  | pending
  | fulfilled (value : DeliveryResult)
  | rejected (reason : JsError)

/-- A `TypeError` raised by the runtime. -/
def typeError (message : String) : JsError :=
  ⟨none, none, some message⟩

/-- The part of `log` that runs before the entry is pushed (lines 111-134): the
destructuring of `options` with its defaults and the construction of `logEntry`.
Destructuring `undefined` or `null` throws, and so does `level.toUpperCase()` when
`level` is not a string (`String.toUpper` agrees with `toUpperCase` on ASCII). -/
def mkLogEntry (options : JsVal) (now : ℚ) (resolve : Nat) : Except JsError LogEntry :=
  match options with
  | JsVal.undefined => Except.error (typeError "Cannot destructure options as it is undefined")
  | JsVal.null => Except.error (typeError "Cannot destructure options as it is null")
  | _ =>
    match (options.getProp "level").orDefault (JsVal.string "INFO") with
    | JsVal.string level =>
      Except.ok {
        timestamp := now
        level := level.toUpper
        functionName := (options.getProp "functionName").orDefault (JsVal.string "unknown")
        fileName := (options.getProp "fileName").orDefault (JsVal.string "unknown")
        message := (options.getProp "message").orDefault (JsVal.string "No message provided")
        data := (options.getProp "data").orDefault JsVal.null
        error := (options.getProp "error").orDefault JsVal.null
        response := (options.getProp "response").orDefault JsVal.null
        metadata := (options.getProp "metadata").orDefault (JsVal.object [])
        resolve := resolve }
    | _ => Except.error (typeError "level.toUpperCase is not a function")

/-- A scheduler instance with its observable history. -/
structure Scheduler where
  /-- The service object. -/
  svc : DiscordWebhookService
  /-- The entry the drain loop has shifted and is working on, with the `now` it read
  (line 150); `none` when no `processQueue` invocation is suspended in the loop. -/
  inflight : Option (LogEntry × ℚ)
  /-- The promises returned by the `log` calls so far, in call order. -/
  promises : List PromiseState
  /-- The `axios.post` calls so far, in call order. -/
  posts : List Post
  /-- Every entry pushed on `rateLimitQueue` so far, in push order. -/
  enqueued : List LogEntry

/-- A service right after its constructor ran, with no activity yet. -/
def Scheduler.start (svc : DiscordWebhookService) : Scheduler :=
  { svc := { svc with rateLimitQueue := [], isProcessingQueue := false, lastRequestTime := 0 }
    inflight := none
    promises := []
    posts := []
    enqueued := [] }

/-- Calling `resolve(value)` on promise `id`: only a pending promise changes. -/
def resolvePromise (promises : List PromiseState) (id : Nat) (value : DeliveryResult) :
    List PromiseState :=
  match promises[id]? with
  | some PromiseState.pending => promises.set id (PromiseState.fulfilled value)
  | _ => promises

/-- The loop test of `processQueue` (line 148) followed, when the queue is not empty,
by `shift()` and `Date.now()` (lines 149-150), and otherwise by
`isProcessingQueue = false` (line 167). -/
def loopHead (s : Scheduler) (now : ℚ) : Scheduler :=
  match s.svc.rateLimitQueue with
  | [] => { s with svc := { s.svc with isProcessingQueue := false }, inflight := none }
  | logEntry :: rest =>
    { s with svc := { s.svc with rateLimitQueue := rest }, inflight := some (logEntry, now) }

/-- The synchronous start of `processQueue()` (lines 142-150). -/
def processQueue (s : Scheduler) (now : ℚ) : Scheduler :=
  if s.svc.isProcessingQueue || s.svc.rateLimitQueue.length == 0 then s
  else loopHead { s with svc := { s.svc with isProcessingQueue := true } } now

/-- A call `log(options)` at clock reading `now` (lines 110-139). -/
def log (s : Scheduler) (options : JsVal) (now : ℚ) : Scheduler :=
  match mkLogEntry options now s.promises.length with
  | Except.error e => { s with promises := s.promises ++ [PromiseState.rejected e] }
  | Except.ok logEntry =>
    processQueue
      { s with
        svc := { s.svc with rateLimitQueue := s.svc.rateLimitQueue ++ [logEntry] }
        promises := s.promises ++ [PromiseState.pending]
        enqueued := s.enqueued ++ [logEntry] } now

/-- Clock reading at which `sendWithRetry` is called for an entry shifted at `now`
(lines 151-155): the pacing sleep runs only when `timeSinceLastRequest < minInterval`. -/
def dispatchStart (svc : DiscordWebhookService) (pacingOverrun : ℚ) (now : ℚ) : ℚ :=
  let timeSinceLastRequest := now - svc.lastRequestTime
  if timeSinceLastRequest < svc.minInterval then
    sleepUntil now (some (svc.minInterval - timeSinceLastRequest)) pacingOverrun
  else now

/-- The `try`/`catch` of the loop body (lines 157-162): the value passed to
`logEntry.resolve`. -/
def settlement (r : SendResult) : DeliveryResult :=
  match r.outcome with
  | Except.ok result => DeliveryResult.success result
  | Except.error error => DeliveryResult.failure error.message

/-- The body of the drain loop for the entry shifted at `now` (lines 151-162). -/
def dispatch (svc : DiscordWebhookService) (env : Nat → Attempt) (pacingOverrun : ℚ)
    (logEntry : LogEntry) (now : ℚ) : SendResult :=
  sendWithRetry svc env logEntry 0 (dispatchStart svc pacingOverrun now)

/-- The suspended drain loop runs to its next `shift()`: it finishes the loop body for
the in-flight entry (lines 151-164) and goes round the loop (line 148). -/
def resume (s : Scheduler) (env : Nat → Attempt) (pacingOverrun : ℚ) : Scheduler :=
  match s.inflight with
  | none => s
  | some (logEntry, now) =>
    let r := dispatch s.svc env pacingOverrun logEntry now
    loopHead
      { s with
        svc := { s.svc with lastRequestTime := r.finish }
        inflight := none
        promises := resolvePromise s.promises logEntry.resolve (settlement r)
        posts := s.posts ++ r.posts } r.finish

/-- What can happen to a scheduler: a producer calls `log`, or the environment lets
the drain loop finish its in-flight entry. -/
inductive Event where
  | log (options : JsVal) (now : ℚ)
  | resume (env : Nat → Attempt) (pacingOverrun : ℚ)

/-- One event. -/
def step (s : Scheduler) : Event → Scheduler
  | Event.log options now => log s options now
  | Event.resume env pacingOverrun => resume s env pacingOverrun

/-- A history of events, oldest first. -/
def run (s : Scheduler) (events : List Event) : Scheduler :=
  events.foldl step s

/-! ## Strings, `Helpers` and `JSON.stringify`

A `Char` stands for one UTF-16 code unit: `length` and `substring` of the source are
`String.length` and `List.take` here, which is exact for text of the Basic Multilingual
Plane. -/

/-- The backtick character. -/
def backtick : Char := Char.ofNat 96

/-- The backslash character. -/
def backslash : Char := Char.ofNat 92

/-- `Helpers.truncateText(text, maxLength)` on a string (helpers.js lines 14-17):
`if (!text || text.length <= maxLength) return text;` and otherwise
`text.substring(0, maxLength - 3) + '...'` (a negative end is read as 0). -/
def truncateText (text : String) (maxLength : Nat) : String :=
  if text.length = 0 ∨ text.length ≤ maxLength then text
  else String.mk (text.toList.take (maxLength - 3)) ++ "..."

/-- The global replacement of three backticks by three escaped backticks
(`.replace(/` + "```" + `/g, ...)`): `skip` counts the characters of a match still to
be passed over. -/
def replaceTripleBackticks : Nat → List Char → List Char
  | _, [] => []
  | skip + 1, _ :: rest => replaceTripleBackticks skip rest
  | 0, c :: rest =>
    if (c :: rest).take 3 = [backtick, backtick, backtick] then
      [backslash, backtick, backslash, backtick, backslash, backtick]
        ++ replaceTripleBackticks 2 rest
    else c :: replaceTripleBackticks 0 rest

/-- The global replacement of one character by its escaped form
(`.replace(/c/g, '\\c')`). -/
def escapeChar (target : Char) (text : List Char) : List Char :=
  text.flatMap (fun c => if c = target then [backslash, c] else [c])

/-- The chain of `replace` calls of `Helpers.sanitizeForDiscord` (helpers.js lines 74-80). -/
def escapeMarkdown (text : List Char) : List Char :=
  escapeChar '|' (escapeChar '~' (escapeChar '_' (escapeChar '*'
    (escapeChar backtick (replaceTripleBackticks 0 text)))))

/-- `Helpers.sanitizeForDiscord(text, maxLength)` on a string (helpers.js lines 70-83);
callers that omit `maxLength` pass 2000. -/
def sanitizeForDiscord (text : String) (maxLength : Nat) : String :=
  if text.length = 0 then ""
  else truncateText (String.mk (escapeMarkdown text.toList)) maxLength

/-- What the model takes from the platform: number formatting that needs floating
point, and the values `Helpers.processEnvironment()` reads. -/
structure Runtime where
  /-- `Number::toString` on numbers that are not integers. -/
  fractionToString : ℚ → String
  /-- `Helpers.formatFileSize(bytes)`, which goes through `Math.log` and `toFixed`;
  its result is only interpolated into messages. -/
  formatFileSize : Nat → String
  /-- `Helpers.isNode()`. -/
  isNode : Bool
  /-- Field `platform` of `Helpers.processEnvironment()`. -/
  platform : String
  /-- Field `nodeVersion`. -/
  nodeVersion : String
  /-- Field `memory`, as interpolated. -/
  memory : String
  /-- Field `uptime`, as interpolated. -/
  uptime : String

/-- `String(n)` for a number: decimal digits for integers (exact below 10^21). -/
def numberToString (rt : Runtime) (n : ℚ) : String :=
  if n.den = 1 then toString n.num else rt.fractionToString n

/-- Whether `typeof v === 'object'`. -/
def typeofObject : JsVal → Bool
  | JsVal.null => true
  | JsVal.array _ => true
  | JsVal.object _ => true
  | JsVal.error _ _ _ _ => true
  | _ => false

/-- Truthiness of a value (`!v` is its negation). -/
def JsVal.truthy : JsVal → Bool
  | JsVal.undefined => false
  | JsVal.null => false
  | JsVal.bool b => b
  | JsVal.number n => n ≠ 0
  | JsVal.string s => s.length ≠ 0
  | _ => true

/-- Truthiness of a field that holds `null` or a string. -/
def truthyText : Option String → Bool
  | none => false
  | some s => s.length ≠ 0

mutual
/-- `String(v)`. -/
def jsToString (rt : Runtime) : JsVal → String
  | JsVal.undefined => "undefined"
  | JsVal.null => "null"
  | JsVal.bool b => if b then "true" else "false"
  | JsVal.number n => numberToString rt n
  | JsVal.string s => s
  | JsVal.array items => String.intercalate "," (jsToStringItems rt items)
  | JsVal.object _ => "[object Object]"
  | JsVal.error name message _ _ =>
    if name.length = 0 then message
    else if message.length = 0 then name
    else name ++ ": " ++ message
/-- The pieces `Array.prototype.join` puts together: `null` and `undefined` give the
empty string. -/
def jsToStringItems (rt : Runtime) : List JsVal → List String
  | [] => []
  | JsVal.undefined :: rest => "" :: jsToStringItems rt rest
  | JsVal.null :: rest => "" :: jsToStringItems rt rest
  | v :: rest => jsToString rt v :: jsToStringItems rt rest
end

/-- Hexadecimal digit of a value below 16, lower case. -/
def hexDigit (n : Nat) : Char :=
  if n < 10 then Char.ofNat (48 + n) else Char.ofNat (87 + n)

/-- The escape of one character in `QuoteJSONString`. -/
def quoteJsonChar (c : Char) : List Char :=
  if c = '"' then [backslash, '"']
  else if c = backslash then [backslash, backslash]
  else if c.toNat = 8 then [backslash, 'b']
  else if c.toNat = 12 then [backslash, 'f']
  else if c.toNat = 10 then [backslash, 'n']
  else if c.toNat = 13 then [backslash, 'r']
  else if c.toNat = 9 then [backslash, 't']
  else if c.toNat < 32 then
    [backslash, 'u', '0', '0', hexDigit (c.toNat / 16), hexDigit (c.toNat % 16)]
  else [c]

/-- `QuoteJSONString`: the JSON string literal of a text. -/
def quoteJsonString (s : String) : String :=
  String.mk ('"' :: s.toList.flatMap quoteJsonChar ++ ['"'])

mutual
/-- `SerializeJSONProperty` with a gap of two spaces at indentation `indent`: `none`
is `undefined` (the value is left out). Property lists are in enumeration order. -/
def serializeJson (rt : Runtime) (indent : String) : JsVal → Option String
  | JsVal.undefined => none
  | JsVal.null => some "null"
  | JsVal.bool b => some (if b then "true" else "false")
  | JsVal.number n => some (numberToString rt n)
  | JsVal.string s => some (quoteJsonString s)
  | JsVal.array items =>
    match serializeJsonItems rt (indent ++ "  ") items with
    | [] => some "[]"
    | parts =>
      some ("[\n" ++ indent ++ "  " ++ String.intercalate (",\n" ++ indent ++ "  ") parts
        ++ "\n" ++ indent ++ "]")
  | JsVal.object props =>
    match serializeJsonProps rt (indent ++ "  ") props with
    | [] => some "\x7b\x7d"
    | parts =>
      some ("\x7b\n" ++ indent ++ "  " ++ String.intercalate (",\n" ++ indent ++ "  ") parts
        ++ "\n" ++ indent ++ "\x7d")
  | JsVal.error _ _ _ _ => some "\x7b\x7d"
/-- The elements of an array: `undefined` is written `null`. -/
def serializeJsonItems (rt : Runtime) (indent : String) : List JsVal → List String
  | [] => []
  | v :: rest => (serializeJson rt indent v).getD "null" :: serializeJsonItems rt indent rest
/-- The members of an object: properties whose value is `undefined` are left out. -/
def serializeJsonProps (rt : Runtime) (indent : String) : List (String × JsVal) → List String
  | [] => []
  | (key, v) :: rest =>
    match serializeJson rt indent v with
    | none => serializeJsonProps rt indent rest
    | some text => (quoteJsonString key ++ ": " ++ text) :: serializeJsonProps rt indent rest
end

/-- `JSON.stringify(v, null, 2)` for a value with `typeof v === 'object'` (the result is
then always a string). -/
def jsonStringify (rt : Runtime) (v : JsVal) : String :=
  (serializeJson rt "" v).getD "null"

/-- The text of a content value (`typeof content === 'object' ?
JSON.stringify(content, null, 2) : String(content)`). -/
def contentText (rt : Runtime) (content : JsVal) : String :=
  if typeofObject content then jsonStringify rt content else jsToString rt content

/-! ## Regular expressions and the two validators of `Helpers` -/

/-- Regular expressions without captures, as far as the source uses them. -/
inductive Regex where
  /-- Matches no text. -/
  | never
  /-- Matches the empty text. -/
  | eps
  /-- One character of a class. -/
  | sym (p : Char → Bool)
  | seq (r s : Regex)
  | alt (r s : Regex)
  | star (r : Regex)

/-- Whether the expression matches the empty text. -/
def Regex.nullable : Regex → Bool
  | Regex.never => false
  | Regex.eps => true
  | Regex.sym _ => false
  | Regex.seq r s => r.nullable && s.nullable
  | Regex.alt r s => r.nullable || s.nullable
  | Regex.star _ => true

/-- The expression for what may follow a first character `c`. -/
def Regex.deriv (c : Char) : Regex → Regex
  | Regex.never => Regex.never
  | Regex.eps => Regex.never
  | Regex.sym p => if p c then Regex.eps else Regex.never
  | Regex.seq r s =>
    if r.nullable then Regex.alt (Regex.seq (r.deriv c) s) (s.deriv c)
    else Regex.seq (r.deriv c) s
  | Regex.alt r s => Regex.alt (r.deriv c) (s.deriv c)
  | Regex.star r => Regex.seq (r.deriv c) (Regex.star r)

/-- The verdict of `/^r$/.test(text)`: the whole text matches `r`. -/
def Regex.test (r : Regex) : List Char → Bool
  | [] => r.nullable
  | c :: rest => (r.deriv c).test rest

/-- A literal text. -/
def Regex.lit (text : String) : Regex :=
  text.toList.foldr (fun c r => Regex.seq (Regex.sym (fun x => x == c)) r) Regex.eps

/-- One or more repetitions (`r+`). -/
def Regex.plus (r : Regex) : Regex :=
  Regex.seq r (Regex.star r)

/-- The class `\d`. -/
def classDigit (c : Char) : Bool :=
  48 ≤ c.toNat && c.toNat ≤ 57

/-- The class `\w`: letters, digits and the underscore. -/
def classWord (c : Char) : Bool :=
  (97 ≤ c.toNat && c.toNat ≤ 122) || (65 ≤ c.toNat && c.toNat ≤ 90)
    || (48 ≤ c.toNat && c.toNat ≤ 57) || c.toNat == 95

/-- The pattern of `validateWebhookUrl` (helpers.js line 95), between `^` and `$`:
`https:\/\/(discord\.com|discordapp\.com)\/api\/webhooks\/\d+\/[\w-]+`. -/
def webhookRegex : Regex :=
  Regex.seq (Regex.lit "https://")
    (Regex.seq (Regex.alt (Regex.lit "discord.com") (Regex.lit "discordapp.com"))
      (Regex.seq (Regex.lit "/api/webhooks/")
        (Regex.seq (Regex.plus (Regex.sym classDigit))
          (Regex.seq (Regex.lit "/")
            (Regex.plus (Regex.sym (fun c => classWord c || c == '-')))))))

/-- `Helpers.validateWebhookUrl(url)` on a string (helpers.js lines 93-97). -/
def validateWebhookUrl (url : String) : Bool :=
  if url.length = 0 then false else webhookRegex.test url.toList

/-- The pattern of `validateGitHubToken` (helpers.js line 102), between `^` and `$`:
`(ghp_|gho_|ghu_|ghs_|ghr_|github_pat_)[a-zA-Z0-9_]+`. -/
def tokenRegex : Regex :=
  Regex.seq
    (Regex.alt (Regex.lit "ghp_") (Regex.alt (Regex.lit "gho_") (Regex.alt (Regex.lit "ghu_")
      (Regex.alt (Regex.lit "ghs_") (Regex.alt (Regex.lit "ghr_") (Regex.lit "github_pat_"))))))
    (Regex.plus (Regex.sym classWord))

/-- `Helpers.validateGitHubToken(token)` on a string (helpers.js lines 99-104). -/
def validateGitHubToken (token : String) : Bool :=
  if token.length = 0 then false else tokenRegex.test token.toList

/-! ## `GitHubStorageService` -/

/-- The fields of `GitHubStorageService`, with the constructor defaults; a field that
holds `null` is `none`. -/
structure GitHubStorageService where
  githubToken : Option String := none
  repoOwner : Option String := none
  repoName : Option String := none
  branch : String := "main"
  baseApiUrl : String := "https://api.github.com"
  baseRawUrl : String := "https://raw.githubusercontent.com"
  /-- Field `maxFileSize` (the source comments it as 25MB). -/
  maxFileSize : Nat := 25 * 1024 * 1024
  /-- Field `contentThreshold`: characters before upload. -/
  contentThreshold : Nat := 1800
  useTimestampFolders : Bool := true
  folderFormat : String := "YYYY-MM-DD"
  fileExtension : String := "json"
  commitMessageTemplate : String := "Add log file: \x7bfilename\x7d [\x7bfolder\x7d]"
  requestTimeout : Nat := 30000

/-- What one `new Date()` shows to the code that reads it. -/
structure DateReading where
  /-- Result of `getFullYear()`. -/
  fullYear : Nat
  /-- Result of `getMonth()`: 0 for January. -/
  month : Nat
  /-- Result of `getDate()`: the day of the month. -/
  date : Nat
  /-- Result of `toISOString()`. -/
  isoString : String

/-- `text.padStart(targetLength, fill)` for a one-character `fill`. -/
def padStart (text : String) (targetLength : Nat) (fill : Char) : String :=
  String.mk (List.replicate (targetLength - text.length) fill) ++ text

/-- `generateDailyFolder()` (GitHubStorageService.js lines 67-95), for the date `now`
that `new Date()` gives. -/
def generateDailyFolder (g : GitHubStorageService) (now : DateReading) : String :=
  if !g.useTimestampFolders then "logs"
  else
    let year := toString now.fullYear
    let month := padStart (toString (now.month + 1)) 2 '0'
    let day := padStart (toString now.date) 2 '0'
    if g.folderFormat = "YYYY-MM-DD" then year ++ "-" ++ month ++ "-" ++ day
    else if g.folderFormat = "YYYY/MM/DD" then year ++ "/" ++ month ++ "/" ++ day
    else if g.folderFormat = "YYYY-MM" then year ++ "-" ++ month
    else year ++ "-" ++ month ++ "-" ++ day

/-- The class `[a-zA-Z0-9_-]`. -/
def classFunctionName (c : Char) : Bool :=
  classWord c || c == '-'

/-- The class `[a-zA-Z0-9_.-]`. -/
def classFileName (c : Char) : Bool :=
  classWord c || c == '.' || c == '-'

/-- The global replacement `.replace(/[^...]/g, '_')` for a character class `keep`. -/
def replaceOutside (keep : Char → Bool) (text : String) : String :=
  String.mk (text.toList.map (fun c => if keep c then c else '_'))

/-- The global replacement `.replace(/[:.]/g, '-')`. -/
def replaceColonDot (text : String) : String :=
  String.mk (text.toList.map (fun c => if c = ':' ∨ c = '.' then '-' else c))

/-- `generateFileName(functionName, fileName, extension)` (lines 97-103) on strings, for
the date `now` that `new Date()` gives; `extension` is `none` for `null`. -/
def generateFileName (g : GitHubStorageService) (functionName fileName : String)
    (extension : Option String) (now : DateReading) : String :=
  let timestamp := replaceColonDot now.isoString
  let cleanFunctionName := replaceOutside classFunctionName functionName
  let cleanFileName := replaceOutside classFileName fileName
  let ext := if truthyText extension then extension.getD "" else g.fileExtension
  cleanFunctionName ++ "-" ++ cleanFileName ++ "-" ++ timestamp ++ "." ++ ext

/-- Whether `text` begins with `pattern`. -/
def startsWith : List Char → List Char → Bool
  | [], _ => true
  | _ :: _, [] => false
  | p :: ps, c :: cs => p == c && startsWith ps cs

/-- Replacement of the first occurrence of `pattern`, on characters. -/
def replaceFirstChars (pattern replacement : List Char) : List Char → List Char
  | [] => if pattern.length = 0 then replacement else []
  | c :: rest =>
    if startsWith pattern (c :: rest) then replacement ++ (c :: rest).drop pattern.length
    else c :: replaceFirstChars pattern replacement rest

/-- `text.replace(pattern, replacement)` for a string pattern and a replacement without
`$` patterns: the first occurrence is replaced. -/
def replaceFirst (text pattern replacement : String) : String :=
  String.mk (replaceFirstChars pattern.toList replacement.toList text.toList)

/-- A rejection of a request to the GitHub API, as the `catch` blocks read it. -/
structure StoreError where
  /-- Field `error.response?.data?.message`. -/
  responseMessage : Option String
  /-- Field `error.message`. -/
  message : Option String

/-- The part `response.data.content` of the answer to the upload. -/
structure PutContent where
  html_url : String
  sha : String

/-- One call of `axios.put` by `uploadToGitHub`. -/
structure PutRequest where
  url : String
  /-- Body field `message`. -/
  message : String
  /-- The text whose base64 encoding is the body field `content`. -/
  content : String
  branch : String
  timeout : Nat
  /-- The bearer token of the `Authorization` header. -/
  token : String

/-- What the environment does during one call of `uploadToGitHub`. -/
structure StoreEnv where
  /-- The `new Date()` of `generateDailyFolder`. -/
  folderDate : DateReading
  /-- The `new Date()` of `generateFileName`. -/
  fileDate : DateReading
  /-- The `new Date()` of the commit message. -/
  commitDate : DateReading
  /-- Outcome of `await axios.put(...)`: the rejection, or `response.data.content`
  (`none` when the answer has none). -/
  put : Except StoreError (Option PutContent)
  /-- The `new Date()` of `uploadedAt`. -/
  uploadedDate : DateReading

/-- The object `uploadToGitHub` returns. -/
structure UploadResult where
  filename : String
  filePath : String
  rawUrl : String
  webUrl : String
  sha : String
  size : String
  uploadedAt : String

/-- `new Error(message)`. -/
def mkError (message : String) : JsError :=
  ⟨none, none, some message⟩

/-- The value of `error.response?.data?.message || error.message` interpolated in a
template. -/
def StoreError.text (e : StoreError) : String :=
  if truthyText e.responseMessage then e.responseMessage.getD ""
  else e.message.getD "undefined"

/-- What a call of `uploadToGitHub` did. -/
structure UploadOutcome where
  /-- The returned object, or the error thrown. -/
  result : Except JsError UploadResult
  /-- The `axios.put` calls issued (none or one). -/
  requests : List PutRequest

/-- The `try` block of `uploadToGitHub` (lines 114-172): the returned object or the
message of the error that reaches `catch`, and the requests issued. A `functionName` or
`fileName` that is not a string makes `.replace` throw. -/
def uploadAttempt (rt : Runtime) (g : GitHubStorageService) (env : StoreEnv) (content : JsVal)
    (functionName fileName : JsVal) (directory : String) :
    Except String UploadResult × List PutRequest :=
  let dailyFolder := generateDailyFolder g env.folderDate
  match functionName, fileName with
  | JsVal.string fn, JsVal.string file =>
    let filename := generateFileName g fn file none env.fileDate
    let filePath := directory ++ "/" ++ dailyFolder ++ "/" ++ filename
    let jsonContent := contentText rt content
    if jsonContent.length > g.maxFileSize then
      (Except.error ("Content size (" ++ rt.formatFileSize jsonContent.length
        ++ ") exceeds maximum allowed size (" ++ rt.formatFileSize g.maxFileSize ++ ")"), [])
    else
      let commitMessage :=
        replaceFirst (replaceFirst (replaceFirst (replaceFirst g.commitMessageTemplate
          "\x7bfilename\x7d" filename) "\x7bfolder\x7d" dailyFolder)
          "\x7bdirectory\x7d" directory) "\x7btimestamp\x7d" env.commitDate.isoString
      let uploadUrl := g.baseApiUrl ++ "/repos/" ++ g.repoOwner.getD "" ++ "/"
        ++ g.repoName.getD "" ++ "/contents/" ++ filePath
      let request : PutRequest :=
        ⟨uploadUrl, commitMessage, jsonContent, g.branch, g.requestTimeout,
          g.githubToken.getD ""⟩
      match env.put with
      | Except.error e => (Except.error e.text, [request])
      | Except.ok none =>
        (Except.error "Cannot read properties of undefined (reading html_url)", [request])
      | Except.ok (some answer) =>
        let rawUrl := g.baseRawUrl ++ "/" ++ g.repoOwner.getD "" ++ "/" ++ g.repoName.getD ""
          ++ "/" ++ g.branch ++ "/" ++ filePath
        (Except.ok ⟨filename, filePath, rawUrl, answer.html_url, answer.sha,
          rt.formatFileSize jsonContent.length, env.uploadedDate.isoString⟩, [request])
  | JsVal.string _, _ => (Except.error "fileName.replace is not a function", [])
  | _, _ => (Except.error "functionName.replace is not a function", [])

/-- `uploadToGitHub(content, functionName, fileName, directory)` (lines 105-176). -/
def uploadToGitHub (rt : Runtime) (g : GitHubStorageService) (env : StoreEnv) (content : JsVal)
    (functionName fileName : JsVal) (directory : String) : UploadOutcome :=
  if !truthyText g.githubToken then
    ⟨Except.error (mkError "GitHub token not configured"), []⟩
  else if !truthyText g.repoOwner || !truthyText g.repoName then
    ⟨Except.error (mkError "GitHub repository owner and name must be configured"), []⟩
  else
    match uploadAttempt rt g env content functionName fileName directory with
    | (Except.ok result, requests) => ⟨Except.ok result, requests⟩
    | (Except.error message, requests) =>
      ⟨Except.error (mkError ("GitHub upload failed: " ++ message)), requests⟩

/-- `shouldUploadToGitHub(content, maxLength)` (lines 178-189); `maxLength` is `none`
for `null`. -/
def shouldUploadToGitHub (rt : Runtime) (g : GitHubStorageService) (content : JsVal)
    (maxLength : Option Nat) : Bool :=
  let threshold :=
    match maxLength with
    | some n => if n = 0 then g.contentThreshold else n
    | none => g.contentThreshold
  match content with
  | JsVal.string text => decide (text.length > threshold)
  | other =>
    if typeofObject other then decide ((jsonStringify rt other).length > threshold)
    else decide ((jsToString rt other).length > threshold)

/-- The object `processContentForDiscord` and `processContentField` return. -/
structure ContentDecision where
  inline : Bool
  text : String
  /-- Field `length`, absent from the answer for empty content. -/
  length : Option Nat
  /-- Field `uploadResult` of a successful upload. -/
  uploadResult : Option UploadResult
  /-- Field `uploadError`: the message of the failed upload. -/
  uploadError : Option (Option String)

/-- One call of `uploadToGitHub`. -/
structure UploadCall where
  content : JsVal
  functionName : JsVal
  fileName : JsVal
  directory : String

/-- What routing one field did: the decision, the calls of `uploadToGitHub` made and
the `axios.put` calls issued. -/
structure Routed where
  decision : ContentDecision
  uploadCalls : List UploadCall
  requests : List PutRequest

/-- The marker the `catch` block of `processContentForDiscord` appends. -/
def failureMarker : String := "[TRUNCATED - Upload failed]"

/-- `processContentForDiscord(content, functionName, fileName, type)` (lines 191-239). -/
def processContentForDiscord (rt : Runtime) (g : GitHubStorageService) (env : StoreEnv)
    (content functionName fileName : JsVal) (type : String) : Routed :=
  if !content.truthy then ⟨⟨true, "No content provided", none, none, none⟩, [], []⟩
  else
    let textContent := contentText rt content
    if !shouldUploadToGitHub rt g (JsVal.string textContent) none then
      if typeofObject content then
        ⟨⟨true, "```json\n" ++ truncateText textContent 1000 ++ "\n```",
          some textContent.length, none, none⟩, [], []⟩
      else
        ⟨⟨true, sanitizeForDiscord textContent 1000, some textContent.length, none, none⟩,
          [], []⟩
    else
      let upload := uploadToGitHub rt g env content functionName fileName type
      match upload.result with
      | Except.ok uploadResult =>
        ⟨⟨false, "📁 Content too large for Discord (" ++ rt.formatFileSize textContent.length
            ++ ")\n🔗 **View on GitHub:** [" ++ uploadResult.filename ++ "]("
            ++ uploadResult.rawUrl ++ ")",
          some textContent.length, some uploadResult, none⟩,
          [⟨content, functionName, fileName, type⟩], upload.requests⟩
      | Except.error error =>
        let truncatedContent :=
          if typeofObject content then
            String.mk ((jsonStringify rt content).toList.take 1500) ++ "\n... " ++ failureMarker
          else String.mk ((jsToString rt content).toList.take 1500) ++ "... " ++ failureMarker
        ⟨⟨true, sanitizeForDiscord truncatedContent 2000, some truncatedContent.length, none,
            some error.message⟩,
          [⟨content, functionName, fileName, type⟩], upload.requests⟩

/-- `setToken(token)` of `GitHubStorageService` (lines 35-40), on a string. -/
def GitHubStorageService.setToken (g : GitHubStorageService) (token : String) :
    Except JsError GitHubStorageService :=
  if !validateGitHubToken token then Except.error (mkError "Invalid GitHub token format")
  else Except.ok { g with githubToken := some token }

/-- The three values of the `status` field of a health report. -/
inductive HealthStatus where
  | healthy
  | error
  | disabled
  deriving DecidableEq

/-- The object a `healthCheck` of one backend returns. -/
structure HealthReport where
  status : HealthStatus
  /-- Field `message`; `none` when the error had no message. -/
  message : Option String
  /-- Field `repo` of a healthy GitHub report. -/
  repo : Option String
  timestamp : String

/-- What a backend `healthCheck` did: the report and the URLs it sent a GET to. -/
structure HealthOutcome where
  report : HealthReport
  requests : List String

/-- `healthCheck()` of `GitHubStorageService` (lines 241-279): `get` is the outcome of
`axios.get` (the repository `full_name` of the answer) and `now` the `new Date()` read. -/
def GitHubStorageService.healthCheck (g : GitHubStorageService)
    (get : Except StoreError (Option String)) (now : DateReading) : HealthOutcome :=
  if !truthyText g.githubToken then
    ⟨⟨HealthStatus.disabled, some "GitHub token not configured", none, now.isoString⟩, []⟩
  else if !truthyText g.repoOwner || !truthyText g.repoName then
    ⟨⟨HealthStatus.disabled, some "GitHub repository owner and name not configured", none,
      now.isoString⟩, []⟩
  else
    let url := g.baseApiUrl ++ "/repos/" ++ g.repoOwner.getD "" ++ "/" ++ g.repoName.getD ""
    match get with
    | Except.ok fullName =>
      ⟨⟨HealthStatus.healthy, some "GitHub API accessible", fullName, now.isoString⟩, [url]⟩
    | Except.error e =>
      ⟨⟨HealthStatus.error,
        if truthyText e.responseMessage then e.responseMessage else e.message, none,
        now.isoString⟩, [url]⟩

/-! ## Payload assembly and health check of `DiscordWebhookService` -/

/-- `setWebhookUrl(url)` (DiscordWebhookService.js lines 74-79), on a string. -/
def DiscordWebhookService.setWebhookUrl (svc : DiscordWebhookService) (url : String) :
    Except JsError DiscordWebhookService :=
  if !validateWebhookUrl url then Except.error (mkError "Invalid Discord webhook URL format")
  else Except.ok { svc with webhookUrl := some url }

/-- `healthCheck()` of `DiscordWebhookService` (lines 424-443): `get` is the outcome of
`axios.get(this.webhookUrl)`. -/
def DiscordWebhookService.healthCheck (svc : DiscordWebhookService)
    (get : Except JsError Unit) (now : DateReading) : HealthOutcome :=
  if !truthyText svc.webhookUrl then
    ⟨⟨HealthStatus.disabled, some "Webhook URL not configured", none, now.isoString⟩, []⟩
  else
    match get with
    | Except.ok _ =>
      ⟨⟨HealthStatus.healthy, some "Webhook accessible", none, now.isoString⟩,
        [svc.webhookUrl.getD ""]⟩
    | Except.error e =>
      if e.response.map (fun r => r.status) = some 405 then
        ⟨⟨HealthStatus.healthy, some "Webhook exists", none, now.isoString⟩,
          [svc.webhookUrl.getD ""]⟩
      else
        ⟨⟨HealthStatus.error, e.message, none, now.isoString⟩, [svc.webhookUrl.getD ""]⟩

/-- `Helpers.truncateText(text, maxLength)` on any value, as `createEmbed` applies it to
`logEntry.message`: a falsy value is returned as it is, an array is compared by its
`length`, and any other value that is not a string makes `text.substring` throw. An
object is first compared by its `length` property, which `<=` coerces to a number: a
number as it is, `null` as 0, `true` as 1 and `false` as 0, while `undefined` gives `NaN`
and the comparison fails. A `length` that is a string, an array or an object is coerced
by the code as well; the model does not follow that coercion and throws there. -/
def truncateTextVal (text : JsVal) (maxLength : Nat) : Except JsError JsVal :=
  if !text.truthy then Except.ok text
  else
    match text with
    | JsVal.string s => Except.ok (JsVal.string (truncateText s maxLength))
    | JsVal.array items =>
      if items.length ≤ maxLength then Except.ok text
      else Except.error (typeError "text.substring is not a function")
    | JsVal.object props =>
      match lookupProp "length" props with
      | JsVal.number n =>
        if n ≤ maxLength then Except.ok text
        else Except.error (typeError "text.substring is not a function")
      | JsVal.null => Except.ok text
      | JsVal.bool b =>
        if (if b then 1 else 0) ≤ maxLength then Except.ok text
        else Except.error (typeError "text.substring is not a function")
      | _ => Except.error (typeError "text.substring is not a function")
    | _ => Except.error (typeError "text.substring is not a function")

/-- Lookup of a key in one of the option objects of the service. -/
def lookupKey {α : Type} (key : String) : List (String × α) → Option α
  | [] => none
  | (k, v) :: rest => if k = key then some v else lookupKey key rest

/-- `getColorByLevel(level)`: `this.colors[level] || this.colors['INFO']`; `none` is
`undefined`. -/
def getColorByLevel (svc : DiscordWebhookService) (level : String) : Option Nat :=
  match lookupKey level svc.colors with
  | some color => if color = 0 then lookupKey "INFO" svc.colors else some color
  | none => lookupKey "INFO" svc.colors

/-- `getIconByLevel(level)`: `this.icons[level] || '📝'`. -/
def getIconByLevel (svc : DiscordWebhookService) (level : String) : String :=
  match lookupKey level svc.icons with
  | some icon => if icon.length = 0 then "📝" else icon
  | none => "📝"

/-- `getServiceIcon(level)`: `this.serviceIcons[level] || null`. -/
def getServiceIcon (svc : DiscordWebhookService) (level : String) : Option String :=
  match lookupKey level svc.serviceIcons with
  | some icon => if icon.length = 0 then none else some icon
  | none => none

/-- `processContentField(content, functionName, fileName, type)` (lines 318-349);
`storage` is the object `this.githubStorage` points to, `none` for `null`. -/
def processContentField (rt : Runtime) (storage : Option GitHubStorageService)
    (env : StoreEnv) (content functionName fileName : JsVal) (type : String) : Routed :=
  match storage with
  | some g => processContentForDiscord rt g env content functionName fileName type
  | none =>
    let textContent := contentText rt content
    if textContent.length ≤ 1000 then
      if typeofObject content then
        ⟨⟨true, "```json\n" ++ textContent ++ "\n```", some textContent.length, none, none⟩,
          [], []⟩
      else
        ⟨⟨true, sanitizeForDiscord textContent 2000, some textContent.length, none, none⟩,
          [], []⟩
    else
      ⟨⟨true, "Content too large (" ++ rt.formatFileSize textContent.length
          ++ ") - GitHub storage not configured", some textContent.length, none, none⟩,
        [], []⟩

/-- The record `processError` builds from the error value (lines 352-365). -/
def errorData (rt : Runtime) (error : JsVal) : JsVal :=
  match error with
  | JsVal.error name message stack cause =>
    JsVal.object [("name", JsVal.string name), ("message", JsVal.string message),
      ("stack", JsVal.string stack), ("cause", cause)]
  | other =>
    if typeofObject other then other
    else JsVal.object [("message", JsVal.string (jsToString rt other))]

/-- `processError(error, functionName, fileName)` (lines 351-368). -/
def processError (rt : Runtime) (storage : Option GitHubStorageService) (env : StoreEnv)
    (error functionName fileName : JsVal) : Routed :=
  processContentField rt storage env (errorData rt error) functionName fileName "error"

/-- One element of `embed.fields`. -/
structure EmbedField where
  name : String
  value : String
  inline : Bool

/-- The embed object `createEmbed` builds. -/
structure Embed where
  /-- Field `author.name`. -/
  authorName : String
  /-- Field `author.icon_url`. -/
  authorIconUrl : Option String
  title : String
  description : JsVal
  color : Option Nat
  timestamp : ℚ
  /-- Field `footer.text`. -/
  footerText : String
  /-- Field `footer.icon_url`. -/
  footerIconUrl : String
  fields : List EmbedField

/-- Whether a value is `null` or `undefined`. -/
def isNullish : JsVal → Bool
  | JsVal.null => true
  | JsVal.undefined => true
  | _ => false

/-- The value of `Object.keys(v).length` for a truthy `v`. -/
def keyCount : JsVal → Nat
  | JsVal.array items => items.length
  | JsVal.object props => props.length
  | JsVal.string s => s.length
  | _ => 0

/-- The field pushed for a routed content: `name` when inline, `remoteName` otherwise,
and the text truncated to `limits.fieldValue`. -/
def contentField (svc : DiscordWebhookService) (name remoteName : String) (r : Routed) :
    EmbedField :=
  ⟨if r.decision.inline then name else remoteName,
    truncateText r.decision.text svc.limits.fieldValue, false⟩

/-- The text of the environment field (lines 299-306). -/
def environmentText (rt : Runtime) : String :=
  "**Platform:** " ++ rt.platform ++
    (if rt.isNode then
      "\n**Node:** " ++ rt.nodeVersion ++ "\n**Memory:** " ++ rt.memory ++ "MB\n**Uptime:** "
        ++ rt.uptime ++ "s"
    else "\n**Memory:** " ++ rt.memory ++ "MB\n**Uptime:** " ++ rt.uptime ++ "s")

/-- What `createEmbed` or `createPayload` did: the value or the error thrown, the
calls of `uploadToGitHub` and the `axios.put` calls, in order. -/
structure Assembly (α : Type) where
  result : Except JsError α
  uploadCalls : List UploadCall
  requests : List PutRequest

/-- `createEmbed(logEntry)` (lines 214-316); `stores` gives, for each field type, what
the environment does during the upload of that field. -/
def createEmbed (rt : Runtime) (svc : DiscordWebhookService)
    (storage : Option GitHubStorageService) (stores : String → StoreEnv)
    (logEntry : LogEntry) : Assembly Embed :=
  let title := truncateText (getIconByLevel svc logEntry.level ++ " " ++ logEntry.level
    ++ " - " ++ jsToString rt logEntry.functionName ++ "()") svc.limits.embedTitle
  match truncateTextVal logEntry.message svc.limits.embedDescription with
  | Except.error e => ⟨Except.error e, [], []⟩
  | Except.ok description =>
    let metadata : List Routed :=
      if logEntry.metadata.truthy && decide (keyCount logEntry.metadata > 0) then
        [processContentField rt storage (stores "metadata") logEntry.metadata
          logEntry.functionName logEntry.fileName "metadata"]
      else []
    let data : List Routed :=
      if !isNullish logEntry.data then
        [processContentField rt storage (stores "data") logEntry.data
          logEntry.functionName logEntry.fileName "data"]
      else []
    let response : List Routed :=
      if !isNullish logEntry.response then
        [processContentField rt storage (stores "response") logEntry.response
          logEntry.functionName logEntry.fileName "response"]
      else []
    let error : List Routed :=
      if !isNullish logEntry.error then
        [processError rt storage (stores "error") logEntry.error
          logEntry.functionName logEntry.fileName]
      else []
    let environment : List EmbedField :=
      if logEntry.level = "ERROR" ∨ logEntry.level = "WARN" then
        [⟨"🔧 Environment", environmentText rt, true⟩]
      else []
    let routed := metadata ++ data ++ response ++ error
    ⟨Except.ok
      { authorName := jsToString rt logEntry.fileName
        authorIconUrl := getServiceIcon svc logEntry.level
        title := title
        description := description
        color := getColorByLevel svc logEntry.level
        timestamp := logEntry.timestamp
        footerText := svc.footerText
        footerIconUrl := svc.footerIconUrl
        fields :=
          metadata.map (contentField svc "📋 Metadata" "📋 Metadata")
            ++ data.map (contentField svc "📊 Data" "📊 Data (GitHub)")
            ++ response.map (contentField svc "📤 Response" "📤 Response (GitHub)")
            ++ error.map (contentField svc "❌ Error" "❌ Error (GitHub)")
            ++ environment },
      routed.flatMap (fun r => r.uploadCalls), routed.flatMap (fun r => r.requests)⟩

/-- The document `createPayload` builds. -/
structure Payload where
  username : String
  avatar_url : String
  embeds : List Embed
  /-- Field `allowed_mentions.parse`. -/
  allowedMentionsParse : List String

/-- `createPayload(logEntry)` (lines 204-212). -/
def createPayload (rt : Runtime) (svc : DiscordWebhookService)
    (storage : Option GitHubStorageService) (stores : String → StoreEnv)
    (logEntry : LogEntry) : Assembly Payload :=
  let embed := createEmbed rt svc storage stores logEntry
  match embed.result with
  | Except.error e => ⟨Except.error e, embed.uploadCalls, embed.requests⟩
  | Except.ok value =>
    ⟨Except.ok ⟨truncateText svc.serviceName svc.limits.username, svc.avatarUrl, [value], []⟩,
      embed.uploadCalls, embed.requests⟩

/-- The JSON value of an optional text: `null` when absent. -/
def optionalText : Option String → JsVal
  | some text => JsVal.string text
  | none => JsVal.null

/-- The embed as the JSON value that is posted (the timestamp is the clock reading,
where the source has its ISO rendering). -/
def Embed.toJson (e : Embed) : JsVal :=
  JsVal.object
    [("author", JsVal.object [("name", JsVal.string e.authorName),
        ("icon_url", optionalText e.authorIconUrl)]),
      ("title", JsVal.string e.title),
      ("description", e.description),
      ("color", match e.color with
        | some c => JsVal.number c
        | none => JsVal.undefined),
      ("timestamp", JsVal.number e.timestamp),
      ("footer", JsVal.object [("text", JsVal.string e.footerText),
        ("icon_url", JsVal.string e.footerIconUrl)]),
      ("fields", JsVal.array (e.fields.map (fun f =>
        JsVal.object [("name", JsVal.string f.name), ("value", JsVal.string f.value),
          ("inline", JsVal.bool f.inline)])))]

/-- The payload as the JSON value handed to `axios.post`. -/
def Payload.toJson (p : Payload) : JsVal :=
  JsVal.object
    [("username", JsVal.string p.username),
      ("avatar_url", JsVal.string p.avatar_url),
      ("embeds", JsVal.array (p.embeds.map Embed.toJson)),
      ("allowed_mentions", JsVal.object
        [("parse", JsVal.array (p.allowedMentionsParse.map JsVal.string))])]

/-! ## `LoggerService` -/

/-- A logger: the two services it owns; `discord.githubStorage` points to `github`. -/
structure LoggerService where
  discord : DiscordWebhookService
  github : GitHubStorageService

/-- A `config` object that carries only the two backward-compatibility keys of
`LoggerService.configure` (no `discord` or `github` sub-object); `none` is `null` or an
absent key. -/
structure LegacyConfig where
  discordWebhookUrl : Option String
  githubToken : Option String

/-- `configure(config)` of `LoggerService` (lines 20-39) for such a `config`: the logger
after the call, and the error thrown if any (the assignments made before the throw
stay). -/
def LoggerService.configure (l : LoggerService) (config : LegacyConfig) :
    LoggerService × Option JsError :=
  let afterUrl : Except JsError LoggerService :=
    if truthyText config.discordWebhookUrl then
      match l.discord.setWebhookUrl (config.discordWebhookUrl.getD "") with
      | Except.ok discord => Except.ok { l with discord := discord }
      | Except.error e => Except.error e
    else Except.ok l
  match afterUrl with
  | Except.error e => (l, some e)
  | Except.ok l1 =>
    if truthyText config.githubToken then
      match l1.github.setToken (config.githubToken.getD "") with
      | Except.ok github => ({ l1 with github := github }, none)
      | Except.error e => (l1, some e)
    else (l1, none)

/-- The aggregate of `LoggerService.healthCheck` (lines 195-203). -/
def overallStatus (discord github : HealthStatus) : HealthStatus :=
  let hasError := discord = HealthStatus.error ∨ github = HealthStatus.error
  let hasDisabled := discord = HealthStatus.disabled ∧ github = HealthStatus.disabled
  if hasError then HealthStatus.error
  else if hasDisabled then HealthStatus.disabled
  else HealthStatus.healthy

/-- What the environment does during one `LoggerService.healthCheck`. -/
structure HealthEnv where
  /-- Outcome of the GET on the webhook URL, if it is sent. -/
  discordGet : Except JsError Unit
  /-- Outcome of the GET on the repository, if it is sent. -/
  githubGet : Except StoreError (Option String)
  discordDate : DateReading
  githubDate : DateReading
  overallDate : DateReading

/-- The object `LoggerService.healthCheck` returns, with the GET requests sent. -/
structure OverallHealth where
  discord : HealthReport
  github : HealthReport
  /-- Field `overall.status`. -/
  overall : HealthStatus
  /-- Field `overall.timestamp`. -/
  timestamp : String
  requests : List String

/-- `healthCheck()` of `LoggerService` (lines 191-213). -/
def LoggerService.healthCheck (l : LoggerService) (env : HealthEnv) : OverallHealth :=
  let discord := l.discord.healthCheck env.discordGet env.discordDate
  let github := l.github.healthCheck env.githubGet env.githubDate
  ⟨discord.report, github.report, overallStatus discord.report.status github.report.status,
    env.overallDate.isoString, discord.requests ++ github.requests⟩

/-! ## Notifications, construction and batches -/

/-- One element of `data.fields` of a notification (`NotificationField`); `inline` is
`none` when the key is absent. -/
structure NotificationField where
  name : String
  value : String
  inline : Option Bool

/-- The argument of `sendNotification` (`NotificationData`): an absent key is `none`. -/
structure NotificationData where
  title : Option String := none
  description : Option String := none
  fields : Option (List NotificationField) := none
  color : Option Nat := none
  username : Option String := none
  avatarUrl : Option String := none

/-- The `embed` object of `sendNotification` (DiscordWebhookService.js lines 392-406);
`now` is the `new Date()` of its timestamp. -/
def notificationEmbed (svc : DiscordWebhookService) (data : NotificationData)
    (now : DateReading) : JsVal :=
  JsVal.object
    [("title", JsVal.string
        (truncateText (data.title.getD "🔄 System Notification") svc.limits.embedTitle)),
      ("description", JsVal.string
        (truncateText (data.description.getD "") svc.limits.embedDescription)),
      ("color", JsVal.number ((data.color.getD 5814783 : Nat) : ℚ)),
      ("fields", JsVal.array ((data.fields.getD []).map (fun field =>
        JsVal.object
          [("name", JsVal.string (truncateText field.name svc.limits.fieldName)),
            ("value", JsVal.string (truncateText field.value svc.limits.fieldValue)),
            ("inline", JsVal.bool (field.inline.getD false))]))),
      ("timestamp", JsVal.string now.isoString),
      ("footer", JsVal.object [("text", JsVal.string svc.footerText),
        ("icon_url", JsVal.string svc.footerIconUrl)])]

/-- The `payload` object of `sendNotification` (lines 408-412). -/
def notificationPayload (svc : DiscordWebhookService) (data : NotificationData)
    (now : DateReading) : JsVal :=
  JsVal.object
    [("username", JsVal.string
        (truncateText (data.username.getD svc.serviceName) svc.limits.username)),
      ("avatar_url", JsVal.string (data.avatarUrl.getD svc.avatarUrl)),
      ("embeds", JsVal.array [notificationEmbed svc data now])]

/-- What a call of `sendNotification` did: the value returned or the rejection, and the
`axios.post` calls as pairs of URL and document. -/
structure NotificationOutcome where
  outcome : Except JsError JsVal
  posts : List (String × JsVal)

/-- `sendNotification(data)` (lines 382-422); `reply` is the outcome of `axios.post`,
`response.data` or the rejection, which is not caught. -/
def sendNotification (svc : DiscordWebhookService) (data : NotificationData)
    (now : DateReading) (reply : Except JsError JsVal) : NotificationOutcome :=
  let payload := notificationPayload svc data now
  match svc.webhookUrl with
  | none => ⟨Except.ok disabledResult, []⟩
  | some url => ⟨reply, [(url, payload)]⟩

/-- The `rateLimit` object of a `config`: an absent key is `none`. -/
structure RateLimitOptions where
  minInterval : Option ℚ := none
  maxRetries : Option Nat := none
  retryBackoff : Option String := none
  retryMultiplier : Option ℚ := none

/-- The `config` of the constructor and the `options` of `configure`, without the keys
`limits`, `colors`, `icons`, `serviceIcons` and `githubStorage`; an absent key is
`none`. -/
structure DiscordConfig where
  webhookUrl : Option String := none
  serviceName : Option String := none
  avatarUrl : Option String := none
  rateLimit : Option RateLimitOptions := none
  footerText : Option String := none
  footerIconUrl : Option String := none

/-- The value of `v || fallback` for an optional string. -/
def orText (v : Option String) (fallback : String) : String :=
  if truthyText v then v.getD "" else fallback

/-- The value of `v || fallback` for an optional number: 0 is falsy. -/
def orNumber (v : Option ℚ) (fallback : ℚ) : ℚ :=
  match v with
  | some n => if n = 0 then fallback else n
  | none => fallback

/-- The value of `v || fallback` for an optional count: 0 is falsy. -/
def orCount (v : Option Nat) (fallback : Nat) : Nat :=
  match v with
  | some n => if n = 0 then fallback else n
  | none => fallback

/-- The constructor of `DiscordWebhookService` (lines 6-72) for such a `config`; the
objects `limits`, `colors`, `icons` and `serviceIcons` get their defaults. -/
def DiscordWebhookService.constructor (config : DiscordConfig) : DiscordWebhookService :=
  { webhookUrl := if truthyText config.webhookUrl then config.webhookUrl else none
    serviceName := orText config.serviceName "Logger Service"
    avatarUrl := orText config.avatarUrl "https://cdn.discordapp.com/embed/avatars/0.png"
    minInterval := orNumber (config.rateLimit.bind (fun r => r.minInterval)) 500
    maxRetries := orCount (config.rateLimit.bind (fun r => r.maxRetries)) 3
    retryBackoff := orText (config.rateLimit.bind (fun r => r.retryBackoff)) "exponential"
    retryMultiplier := orNumber (config.rateLimit.bind (fun r => r.retryMultiplier)) 2
    footerText := orText config.footerText "Discord Logger • Cross-Platform"
    footerIconUrl := orText config.footerIconUrl
      "https://github.githubassets.com/images/modules/logos_page/GitHub-Mark.png"
    rateLimitQueue := []
    isProcessingQueue := false
    lastRequestTime := 0 }

/-- `configure(options)` of `DiscordWebhookService` (lines 85-108) for such `options`:
each `if (options.x) this.x = options.x` keeps the field when the option is falsy. A
throw of `setWebhookUrl` comes before any assignment. -/
def DiscordWebhookService.configure (svc : DiscordWebhookService) (options : DiscordConfig) :
    Except JsError DiscordWebhookService :=
  let afterUrl :=
    if truthyText options.webhookUrl then svc.setWebhookUrl (options.webhookUrl.getD "")
    else Except.ok svc
  match afterUrl with
  | Except.error e => Except.error e
  | Except.ok s1 =>
    let s2 : DiscordWebhookService :=
      { s1 with
        serviceName := orText options.serviceName s1.serviceName
        avatarUrl := orText options.avatarUrl s1.avatarUrl
        footerText := orText options.footerText s1.footerText
        footerIconUrl := orText options.footerIconUrl s1.footerIconUrl }
    match options.rateLimit with
    | none => Except.ok s2
    | some r =>
      Except.ok
        { s2 with
          minInterval := orNumber r.minInterval s2.minInterval
          maxRetries := orCount r.maxRetries s2.maxRetries
          retryBackoff := orText r.retryBackoff s2.retryBackoff
          retryMultiplier := orNumber r.retryMultiplier s2.retryMultiplier }

/-- The own enumerable properties an object spread `{...v}` copies, in enumeration
order. -/
def spreadProps : JsVal → List (String × JsVal)
  | JsVal.object props => props
  | JsVal.array items => items.enum.map (fun p => (toString p.1, p.2))
  | JsVal.string s => s.toList.enum.map (fun p => (toString p.1, JsVal.string (String.mk [p.2])))
  | _ => []

/-- Writing the property `key` of an object whose keys are not integers: the value of an
existing key is replaced in place, a new key comes last. -/
def setProp (key : String) (v : JsVal) : List (String × JsVal) → List (String × JsVal)
  | [] => [(key, v)]
  | (k, w) :: rest => if k = key then (k, v) :: rest else (k, w) :: setProp key v rest

/-- The object `{...commonMetadata, batch_id, batch_index, batch_total}` that `batch`
builds for the item at `index` (LoggerService.js lines 133-138), as a property list. -/
def batchMetadata (commonMetadata : List (String × JsVal)) (batchId : String)
    (index total : Nat) : List (String × JsVal) :=
  setProp "batch_total" (JsVal.number total)
    (setProp "batch_index" (JsVal.number index)
      (setProp "batch_id" (JsVal.string batchId) commonMetadata))

/-- What `Helpers.getCaller()` reads off the stack. -/
structure Caller where
  function : String
  file : String

/-- `log(options)` of `LoggerService` (lines 98-105) for an object `options` given by
its properties, on the scheduler of `this.discord`: a falsy `functionName` or `fileName`
is filled in from `caller`, the result of `Helpers.getCaller()`. -/
def LoggerService.log (s : Scheduler) (caller : Caller) (options : List (String × JsVal))
    (now : ℚ) : Scheduler :=
  let functionName := lookupProp "functionName" options
  let fileName := lookupProp "fileName" options
  let filled :=
    if !functionName.truthy || !fileName.truthy then
      setProp "fileName" (if fileName.truthy then fileName else JsVal.string caller.file)
        (setProp "functionName"
          (if functionName.truthy then functionName else JsVal.string caller.function)
          options)
    else options
  DiscordLogger.log s (JsVal.object filled) now

/-- The `options` object `{ ...logItem, metadata }` that `batch` passes to `log` for the
item at `index` (line 139). -/
def batchOptions (commonMetadata : List (String × JsVal)) (batchId : String)
    (total : Nat) (logItem : JsVal) (index : Nat) : List (String × JsVal) :=
  setProp "metadata" (JsVal.object (batchMetadata commonMetadata batchId index total))
    (spreadProps logItem)

/-- The calls of `logs.map(...)` in `batch` from the item at `index` on: the scheduler
after them and the promises they returned, in order. -/
def batchFrom (caller : Caller) (commonMetadata : List (String × JsVal)) (batchId : String)
    (total : Nat) (now : ℚ) : Scheduler → Nat → List JsVal → Scheduler × List Nat
  | s, _, [] => (s, [])
  | s, index, logItem :: rest =>
    let next := LoggerService.log s caller
      (batchOptions commonMetadata batchId total logItem index) now
    let r := batchFrom caller commonMetadata batchId total now next (index + 1) rest
    (r.1, s.promises.length :: r.2)

/-- `batch(logs, commonMetadata)` of `LoggerService` (lines 130-142), up to the call of
`Promise.all`: `batchId` is the result of `Helpers.generateId()`, and the callbacks of
`logs.map` run in one turn, at clock reading `now`. The second component lists the
promises handed to `Promise.all`. -/
def LoggerService.batch (s : Scheduler) (caller : Caller) (logs : List JsVal)
    (commonMetadata : List (String × JsVal)) (batchId : String) (now : ℚ) :
    Scheduler × List Nat :=
  batchFrom caller commonMetadata batchId logs.length now s 0 logs

/-! ## Vocabulary of the statements -/

/-- The sink answered HTTP 429: the rejection carries a response with that status. -/
def JsError.isRateLimited (e : JsError) : Prop :=
  ∃ response, e.response = some response ∧ response.status = 429

/-- The error is one of the two network faults the `catch` block names. -/
def JsError.isNetworkFault (e : JsError) : Prop :=
  e.code = some "ECONNRESET" ∨ e.code = some "ETIMEDOUT"

/-- Runs of attempts: `counts[i]` copies of `entries[i]`, in the order of `entries`. -/
def attemptsInOrder (entries : List LogEntry) (counts : List Nat) : List LogEntry :=
  (List.zipWith (fun e c => List.replicate c e) entries counts).flatten

/-- The entries accepted by `log` and not yet settled: the in-flight one, then the queue. -/
def waiting (s : Scheduler) : List LogEntry :=
  (s.inflight.map Prod.fst).toList ++ s.svc.rateLimitQueue

/-- The flag `isProcessingQueue` is set exactly while the drain loop holds an entry, and
an idle scheduler has an empty queue. -/
structure Consistent (s : Scheduler) : Prop where
  flag : s.svc.isProcessingQueue = s.inflight.isSome
  idle : s.inflight = none → s.svc.rateLimitQueue = []

/-- The sink calls so far are runs of attempts for the entries already taken off the
waiting list, in the order they were pushed. -/
def FifoInv (s : Scheduler) : Prop :=
  ∃ (done : List LogEntry) (counts : List Nat),
    s.enqueued = done ++ waiting s ∧ counts.length = done.length ∧
    s.posts.map Post.entry = attemptsInOrder done counts

/-- The completion handles of the pushed entries increase strictly in push order and
each names a promise that exists, so distinct pushes give distinct entries. -/
structure HandleInv (s : Scheduler) : Prop where
  increasing : (s.enqueued.map LogEntry.resolve).Pairwise (fun a b => a < b)
  bounded : ∀ e ∈ s.enqueued, e.resolve < s.promises.length

/-- The environment of one entry respects the clock: latencies and timer overruns are
not negative (the clock is monotonic and `sleep(ms)` waits at least `ms`). -/
def envWellTimed (env : Nat → Attempt) : Prop :=
  ∀ i, 0 ≤ (env i).buildTime ∧ 0 ≤ (env i).postTime ∧ 0 ≤ (env i).overrun

/-- An event respects the clock in state `s`: a `log` call does not read a clock value
below the last recorded one, and a drain step has a well-timed environment. -/
def Event.wellTimedAt (s : Scheduler) : Event → Prop
  | Event.log _ now => s.svc.lastRequestTime ≤ now
  | Event.resume env pacingOverrun => 0 ≤ pacingOverrun ∧ envWellTimed env

/-- A history respects the clock from state `s` on. -/
def wellTimed : Scheduler → List Event → Prop
  | _, [] => True
  | s, ev :: rest => ev.wellTimedAt s ∧ wellTimed (step s ev) rest

/-- Two sink calls in call order: they are in time order, and calls for different
entries are at least `minInterval` apart. -/
def pacedPair (minInterval : ℚ) (p q : Post) : Prop :=
  p.time ≤ q.time ∧ (p.entry ≠ q.entry → p.time + minInterval ≤ q.time)

/-- Timing invariant of the scheduler for the interval `m`. -/
structure PacingInv (m : ℚ) (s : Scheduler) : Prop where
  interval : s.svc.minInterval = m
  past : ∀ p ∈ s.posts, p.time ≤ s.svc.lastRequestTime
  shifted : ∀ e now, s.inflight = some (e, now) → s.svc.lastRequestTime ≤ now
  paced : s.posts.Pairwise (pacedPair m)

/-- The pacing C4 states: any two consecutive sink calls at least `minInterval` apart. -/
def consecutivePaced (minInterval : ℚ) (posts : List Post) : Prop :=
  List.Chain' (fun p q => p.time + minInterval ≤ q.time) posts

/-- The declared type of `options` (`LogOptions`): an object whose `level` is absent
or a string. -/
def isLogOptions : JsVal → Bool
  | JsVal.object props =>
    match lookupProp "level" props with
    | JsVal.undefined => true
    | JsVal.string _ => true
    | _ => false
  | _ => false

/-- Whether the event is a drain step. -/
def Event.isResume : Event → Bool
  | Event.resume _ _ => true
  | Event.log _ _ => false

/-- Number of drain steps in a history. -/
def resumeCount (events : List Event) : Nat :=
  (events.filter Event.isResume).length

/-- The waiting entries hold distinct completion handles, all still pending. -/
structure PromiseInv (s : Scheduler) : Prop where
  nodup : ((waiting s).map LogEntry.resolve).Nodup
  pending : ∀ e ∈ waiting s, s.promises[e.resolve]? = some PromiseState.pending

/-- The texts a regular expression matches as a whole. -/
inductive Regex.Matches : Regex → List Char → Prop
  | eps : Regex.Matches Regex.eps []
  | sym (p : Char → Bool) (c : Char) (h : p c = true) : Regex.Matches (Regex.sym p) [c]
  | seq (r s : Regex) (a b : List Char) (hr : Regex.Matches r a) (hs : Regex.Matches s b) :
      Regex.Matches (Regex.seq r s) (a ++ b)
  | altLeft (r s : Regex) (a : List Char) (hr : Regex.Matches r a) :
      Regex.Matches (Regex.alt r s) a
  | altRight (r s : Regex) (a : List Char) (hs : Regex.Matches s a) :
      Regex.Matches (Regex.alt r s) a
  | starNil (r : Regex) : Regex.Matches (Regex.star r) []
  | starCons (r : Regex) (a b : List Char) (hr : Regex.Matches r a)
      (hs : Regex.Matches (Regex.star r) b) : Regex.Matches (Regex.star r) (a ++ b)

/-- The form of a webhook URL in words: `https://`, one of the two hosts,
`/api/webhooks/`, one or more digits, a slash, one or more word characters or hyphens. -/
def IsWebhookUrlForm (url : String) : Prop :=
  ∃ (host id token : String),
    (host = "discord.com" ∨ host = "discordapp.com") ∧
    id.length ≠ 0 ∧ (∀ c ∈ id.toList, c.isDigit = true) ∧
    token.length ≠ 0 ∧
    (∀ c ∈ token.toList, c.isAlphanum = true ∨ c = '_' ∨ c = '-') ∧
    url = "https://" ++ host ++ "/api/webhooks/" ++ id ++ "/" ++ token

/-- Text that `sanitizeForDiscord` leaves as it is: it has none of the characters the
chain of `replace` calls escapes. -/
def markdownFree (text : List Char) : Prop :=
  ∀ c ∈ text, c ≠ backtick ∧ c ≠ '*' ∧ c ≠ '_' ∧ c ≠ '~' ∧ c ≠ '|'

/-- A number written with two digits, zero-padded, as the claim on the storage path words
it. -/
def twoDigits (n : Nat) : String :=
  if n < 10 then "0" ++ toString n else toString n

/-- The folder as the claim on the storage path words it: 'logs' when timestamp folders
are disabled, otherwise the date in the listed `folderFormat`; `none` for a format the
claim does not list. -/
def folderInWords (g : GitHubStorageService) (now : DateReading) : Option String :=
  if g.useTimestampFolders = false then some "logs"
  else if g.folderFormat = "YYYY-MM-DD" then
    some (toString now.fullYear ++ "-" ++ twoDigits (now.month + 1) ++ "-"
      ++ twoDigits now.date)
  else if g.folderFormat = "YYYY/MM/DD" then
    some (toString now.fullYear ++ "/" ++ twoDigits (now.month + 1) ++ "/"
      ++ twoDigits now.date)
  else if g.folderFormat = "YYYY-MM" then
    some (toString now.fullYear ++ "-" ++ twoDigits (now.month + 1))
  else none

/-- The file name as the claim on the storage path words it. -/
def fileNameInWords (g : GitHubStorageService) (functionName fileName : String)
    (now : DateReading) : String :=
  String.mk (functionName.toList.map
      (fun c => if c.isAlphanum = true ∨ c = '_' ∨ c = '-' then c else '_'))
    ++ "-"
    ++ String.mk (fileName.toList.map
      (fun c => if c.isAlphanum = true ∨ c = '_' ∨ c = '.' ∨ c = '-' then c else '_'))
    ++ "-"
    ++ String.mk (now.isoString.toList.map (fun c => if c = ':' ∨ c = '.' then '-' else c))
    ++ "." ++ g.fileExtension

/-- The escaping the claim on `sanitizeForDiscord` words: each markdown character is
prefixed by one backslash, every other character is unchanged. -/
def escapeInWords (text : List Char) : List Char :=
  text.flatMap (fun c =>
    if c = backtick ∨ c = '*' ∨ c = '_' ∨ c = '~' ∨ c = '|' then [backslash, c] else [c])

/-- Number of characters of a description: that of a string, 0 for another value. -/
def textLength : JsVal → Nat
  | JsVal.string s => s.length
  | _ => 0

/-- The characters Discord counts against the total of an embed: title, description,
field names and values, footer text and author name. -/
def Embed.totalCharacters (e : Embed) : Nat :=
  e.title.length + textLength e.description
    + (e.fields.map (fun f => f.name.length + f.value.length)).sum
    + e.footerText.length + e.authorName.length

/-- Every pushed entry that is no longer waiting has its promise fulfilled: the pushed
entries are the settled ones followed by the waiting ones. -/
def SettledInv (s : Scheduler) : Prop :=
  ∃ done : List LogEntry, s.enqueued = done ++ waiting s ∧
    ∀ e ∈ done, ∃ v, s.promises[e.resolve]? = some (PromiseState.fulfilled v)

/-! ## Concrete inputs -/

/-- A service configured with a webhook URL and the constructor defaults. -/
def sampleService : DiscordWebhookService :=
  { webhookUrl := some "https://discord.com/api/webhooks/1/t"
    minInterval := 500
    maxRetries := 3
    retryBackoff := "exponential"
    retryMultiplier := 2
    rateLimitQueue := []
    isProcessingQueue := false
    lastRequestTime := 0 }

/-- The entry `log` builds for `options = {}` as its first call, at clock reading 0. -/
def sampleEntry : LogEntry :=
  { timestamp := 0
    level := "INFO"
    functionName := JsVal.string "unknown"
    fileName := JsVal.string "unknown"
    message := JsVal.string "No message provided"
    data := JsVal.null
    error := JsVal.null
    response := JsVal.null
    metadata := JsVal.object []
    resolve := 0 }

/-- A rejection with HTTP status `status` and the given `retry-after` header. -/
def httpError (status : Nat) (retryAfterHeader : Option String) : JsError :=
  { response := some ⟨status, retryAfterHeader⟩
    code := some "ERR_BAD_REQUEST"
    message := some "Request failed" }

/-- An attempt whose payload builds and whose sink call settles with `reply`, with no
latency, a zero random draw and punctual timers. -/
def instantAttempt (reply : Except JsError JsVal) : Attempt :=
  { payload := Except.ok (JsVal.object [])
    buildTime := 0
    reply := reply
    postTime := 0
    random := 0
    overrun := 0 }

/-- A sink that rejects with `e` the first `k` calls for an entry and then accepts. -/
def failsThenAccepts (k : Nat) (e : JsError) : Nat → Attempt :=
  fun i => if i < k then instantAttempt (Except.error e)
    else instantAttempt (Except.ok (JsVal.string "ok"))

/-- A sink that rejects every call with `e`. -/
def alwaysFails (e : JsError) : Nat → Attempt :=
  fun _ => instantAttempt (Except.error e)

/-- The error axios raises when the request exceeds its `timeout` option. -/
def timeoutError : JsError :=
  { response := none
    code := some "ECONNABORTED"
    message := some "timeout of 15000ms exceeded" }

/-- A sink that answers the first call for an entry with 429 and `retry-after: 0`, and
accepts the second; the jitter draw of the retry is 1/4. -/
def quickRetry : Nat → Attempt :=
  fun i => if i < 1 then { instantAttempt (Except.error (httpError 429 (some "0"))) with
      random := 1 / 4 }
    else instantAttempt (Except.ok (JsVal.string "ok"))

/-- One `log({})` at clock reading 1000, then the drain of that entry against `quickRetry`. -/
def retryHistory : List Event :=
  [Event.log (JsVal.object []) 1000, Event.resume quickRetry 0]

/-- Two `log({})` calls at clock reading 1000, then the drain of both entries against a
sink that accepts every call. -/
def twoEntryHistory : List Event :=
  [Event.log (JsVal.object []) 1000, Event.log (JsVal.object []) 1000,
    Event.resume (failsThenAccepts 0 (httpError 429 none)) 0,
    Event.resume (failsThenAccepts 0 (httpError 429 none)) 0]

/-- A `log` call whose `level` is the number 42. -/
def badLevelOptions : JsVal :=
  JsVal.object [("level", JsVal.number 42)]

/-- A rejection with the network-fault code `code` and no response. -/
def networkError (code : String) : JsError :=
  { response := none
    code := some code
    message := some "socket hang up" }

/-- A storage service with a small threshold and no credentials. -/
def smallThresholdStorage : GitHubStorageService :=
  { contentThreshold := 2 }

/-- A date reading: 5 March 2024. -/
def sampleDate : DateReading :=
  { fullYear := 2024
    month := 2
    date := 5
    isoString := "2024-03-05T10:20:30.456Z" }

/-- A runtime on Node. -/
def sampleRuntime : Runtime :=
  { fractionToString := fun _ => "0.5"
    formatFileSize := fun n => toString n ++ " Bytes"
    isNode := true
    platform := "linux"
    nodeVersion := "v18.0.0"
    memory := "10"
    uptime := "5" }

/-- An upload environment in which the store accepts the object. -/
def acceptingStore : StoreEnv :=
  { folderDate := sampleDate
    fileDate := sampleDate
    commitDate := sampleDate
    put := Except.ok (some ⟨"https://github.com/o/r/blob/main/f", "abc"⟩)
    uploadedDate := sampleDate }

/-- The webhook URL of the test suite (`TestUtils.MOCK_WEBHOOK_URL`). -/
def mockWebhookUrl : String :=
  "https://discord.com/api/webhooks/123456789/mock_webhook_token"

/-- A logger as `new LoggerService()` builds it, with no configuration. -/
def freshLogger : LoggerService :=
  { discord := { sampleService with webhookUrl := none }
    github := {} }

/-- A logger whose webhook URL has been configured. -/
def configuredLogger : LoggerService :=
  { discord := { sampleService with webhookUrl := some mockWebhookUrl }
    github := {} }

/-- The `config` of the reset in the test suite: both keys `null`. -/
def resetConfig : LegacyConfig :=
  { discordWebhookUrl := none
    githubToken := none }

/-- A text of 1801 letters: one more than the default `contentThreshold`. -/
@[irreducible]
def longText : String :=
  String.mk (List.replicate 1801 'a')

/-- The sample entry with `longText` as its `data`. -/
def longDataEntry : LogEntry :=
  { sampleEntry with data := JsVal.string longText }

/-- A storage service as the constructor builds it without options: no token, no
repository. -/
def defaultStorage : GitHubStorageService := {}

/-- An environment whose first attempt builds the payload of `longDataEntry` through
`createPayload`, with a storage service that has no credentials, and whose sink call is
accepted. -/
def builtAttempt : Nat → Attempt :=
  fun _ =>
    { payload :=
        (createPayload sampleRuntime sampleService (some defaultStorage)
          (fun _ => acceptingStore) longDataEntry).result.map Payload.toJson
      buildTime := 0
      reply := Except.ok JsVal.null
      postTime := 0
      random := 0
      overrun := 0 }

/-- A storage service with token and repository configured. -/
def configuredStorage : GitHubStorageService :=
  { githubToken := some "ghp_mock_github_token_for_testing"
    repoOwner := some "owner"
    repoName := some "repo" }

/-- The same with a maximum file size of 4. -/
def tinyStorage : GitHubStorageService :=
  { configuredStorage with maxFileSize := 4 }

/-- An error with a cause: `new Error('outer', { cause: new Error('inner') })`. -/
def nestedError : JsVal :=
  JsVal.error "Error" "outer" "Error: outer\n    at f"
    (JsVal.error "Error" "inner" "Error: inner\n    at g" JsVal.undefined)

/-- The sample entry with the number 0 as its `data`. -/
def zeroDataEntry : LogEntry :=
  { sampleEntry with data := JsVal.number 0 }

/-- A service built by the constructor with a webhook URL and `rateLimit.maxRetries: 0`. -/
def zeroRetriesService : DiscordWebhookService :=
  DiscordWebhookService.constructor
    { webhookUrl := some mockWebhookUrl
      rateLimit := some { maxRetries := some 0 } }

/-- A message of 4096 letters. -/
@[irreducible]
def fullMessage : String :=
  String.mk (List.replicate 4096 'm')

/-- A text of 1000 letters. -/
@[irreducible]
def thousandText : String :=
  String.mk (List.replicate 1000 'a')

/-- A text of 1010 letters: above 1000, within the default `limits.fieldValue`. -/
@[irreducible]
def borderText : String :=
  String.mk (List.replicate 1010 'a')

/-- The sample entry with a message of 4096 letters and 1000 letters as `data` and as
`response`. -/
def crowdedEntry : LogEntry :=
  { sampleEntry with
    message := JsVal.string fullMessage
    data := JsVal.string thousandText
    response := JsVal.string thousandText }

/-- The sample entry with `borderText` as its `data`. -/
def borderDataEntry : LogEntry :=
  { sampleEntry with data := JsVal.string borderText }

/-- The sample entry with the text 'a*b' as its `data`. -/
def starDataEntry : LogEntry :=
  { sampleEntry with data := JsVal.string "a*b" }

/-- The sample entry with the text 'abc' as its `data`. -/
def plainDataEntry : LogEntry :=
  { sampleEntry with data := JsVal.string "abc" }

/-- The sample service without webhook URL. -/
def unconfiguredService : DiscordWebhookService :=
  { sampleService with webhookUrl := none }

/-- An environment whose first attempt builds the payload of `longDataEntry` through
`createPayload` on the service without webhook URL, with a storage service that has
token and repository. -/
def builtUnconfigured : Nat → Attempt :=
  fun _ =>
    { payload :=
        (createPayload sampleRuntime unconfiguredService (some configuredStorage)
          (fun _ => acceptingStore) longDataEntry).result.map Payload.toJson
      buildTime := 0
      reply := Except.ok JsVal.null
      postTime := 0
      random := 0
      overrun := 0 }

/-- The three items of the batch in the test suite. -/
def batchItems : List JsVal :=
  [JsVal.object [("level", JsVal.string "info"), ("message", JsVal.string "Batch item 1"),
      ("data", JsVal.object [("id", JsVal.number 1)])],
    JsVal.object [("level", JsVal.string "warn"), ("message", JsVal.string "Batch item 2"),
      ("data", JsVal.object [("id", JsVal.number 2)])],
    JsVal.object [("level", JsVal.string "success"), ("message", JsVal.string "Batch item 3"),
      ("data", JsVal.object [("id", JsVal.number 3)])]]

/-- The caller `Helpers.getCaller()` finds for the test. -/
def testCaller : Caller :=
  { function := "anonymous"
    file := "logger.test" }

/-! ## Unfolding `sendWithRetry` -/

theorem sendWithRetry_ok (svc : DiscordWebhookService) (env : Nat → Attempt)
    (logEntry : LogEntry) (retryCount : Nat) (now : ℚ) (value : JsVal)
    (h : (tryBlock svc (env retryCount) logEntry retryCount now).outcome = Except.ok value) :
    sendWithRetry svc env logEntry retryCount now =
      ⟨Except.ok value, (tryBlock svc (env retryCount) logEntry retryCount now).posts, [],
        (tryBlock svc (env retryCount) logEntry retryCount now).finish⟩ := by
  rw [sendWithRetry]
  simp only []
  split
  · rename_i v hv
    rw [h] at hv
    cases hv
    rfl
  · rename_i e he
    rw [h] at he
    cases he

theorem sendWithRetry_rethrow (svc : DiscordWebhookService) (env : Nat → Attempt)
    (logEntry : LogEntry) (retryCount : Nat) (now : ℚ) (error : JsError)
    (h : (tryBlock svc (env retryCount) logEntry retryCount now).outcome = Except.error error)
    (hc : catchBlock svc error retryCount (env retryCount).random = CatchAction.rethrow) :
    sendWithRetry svc env logEntry retryCount now =
      ⟨Except.error error, (tryBlock svc (env retryCount) logEntry retryCount now).posts, [],
        (tryBlock svc (env retryCount) logEntry retryCount now).finish⟩ := by
  rw [sendWithRetry]
  simp only []
  split
  · rename_i v hv
    rw [h] at hv
    cases hv
  · rename_i e he
    rw [h] at he
    cases he
    split
    · rfl
    · rename_i ms hms
      rw [hc] at hms
      cases hms

theorem sendWithRetry_retry (svc : DiscordWebhookService) (env : Nat → Attempt)
    (logEntry : LogEntry) (retryCount : Nat) (now : ℚ) (error : JsError) (ms : Option ℚ)
    (h : (tryBlock svc (env retryCount) logEntry retryCount now).outcome = Except.error error)
    (hc : catchBlock svc error retryCount (env retryCount).random
      = CatchAction.sleepThenRetry ms) :
    sendWithRetry svc env logEntry retryCount now =
      ⟨(sendWithRetry svc env logEntry (retryCount + 1)
          (sleepUntil (tryBlock svc (env retryCount) logEntry retryCount now).finish ms
            (env retryCount).overrun)).outcome,
        (tryBlock svc (env retryCount) logEntry retryCount now).posts ++
          (sendWithRetry svc env logEntry (retryCount + 1)
            (sleepUntil (tryBlock svc (env retryCount) logEntry retryCount now).finish ms
              (env retryCount).overrun)).posts,
        ms :: (sendWithRetry svc env logEntry (retryCount + 1)
            (sleepUntil (tryBlock svc (env retryCount) logEntry retryCount now).finish ms
              (env retryCount).overrun)).sleeps,
        (sendWithRetry svc env logEntry (retryCount + 1)
            (sleepUntil (tryBlock svc (env retryCount) logEntry retryCount now).finish ms
              (env retryCount).overrun)).finish⟩ := by
  rw [sendWithRetry]
  simp only []
  split
  · rename_i v hv
    rw [h] at hv
    cases hv
  · rename_i e he
    rw [h] at he
    cases he
    split
    · rename_i hr
      rw [hc] at hr
      cases hr
    · rename_i ms2 hms
      rw [hc] at hms
      cases hms
      rfl

/-! ## The `try` and `catch` blocks -/

theorem tryBlock_posted (svc : DiscordWebhookService) (a : Attempt) (logEntry : LogEntry)
    (retryCount : Nat) (now : ℚ) (url : String) (payload : JsVal)
    (hurl : svc.webhookUrl = some url) (hp : a.payload = Except.ok payload) :
    tryBlock svc a logEntry retryCount now =
      ⟨a.reply, [⟨logEntry, retryCount, url, payload, now + a.buildTime⟩],
        now + a.buildTime + a.postTime⟩ := by
  simp [tryBlock, hurl, hp]

theorem catchBlock_rateLimited (svc : DiscordWebhookService) (error : JsError)
    (response : ErrorResponse) (retryCount : Nat) (random : ℚ)
    (hr : error.response = some response) (hs : response.status = 429)
    (hlt : retryCount < svc.maxRetries) :
    catchBlock svc error retryCount random =
      CatchAction.sleepThenRetry (jsAdd (retryAfter response retryCount) (random * 1000)) := by
  simp [catchBlock, hr, hs, hlt]

theorem catchBlock_exhausted (svc : DiscordWebhookService) (error : JsError)
    (retryCount : Nat) (random : ℚ) (hge : svc.maxRetries ≤ retryCount) :
    catchBlock svc error retryCount random = CatchAction.rethrow := by
  have hn : ¬ retryCount < svc.maxRetries := by omega
  unfold catchBlock networkFaultBranch
  split <;> simp [hn]

theorem catchBlock_terminal (svc : DiscordWebhookService) (error : JsError)
    (retryCount : Nat) (random : ℚ) (h429 : ¬ error.isRateLimited)
    (hnet : ¬ error.isNetworkFault) :
    catchBlock svc error retryCount random = CatchAction.rethrow := by
  unfold JsError.isNetworkFault at hnet
  unfold catchBlock networkFaultBranch
  split
  · rename_i response hr
    have hs : response.status ≠ 429 := fun hs => h429 ⟨response, hr, hs⟩
    simp [hs, hnet]
  · simp [hnet]

/-! ## Retries after HTTP 429 -/

theorem sendWithRetry_rateLimited_then_ok (svc : DiscordWebhookService)
    (env : Nat → Attempt) (logEntry : LogEntry) (url : String) (data : JsVal)
    (hurl : svc.webhookUrl = some url) :
    ∀ (k retryCount : Nat) (now : ℚ), retryCount + k < svc.maxRetries →
      (∀ i, retryCount ≤ i → i ≤ retryCount + k → ∃ p, (env i).payload = Except.ok p) →
      (∀ i, retryCount ≤ i → i < retryCount + k →
        ∃ e, (env i).reply = Except.error e ∧ e.isRateLimited) →
      (env (retryCount + k)).reply = Except.ok data →
      (sendWithRetry svc env logEntry retryCount now).outcome = Except.ok data ∧
      (sendWithRetry svc env logEntry retryCount now).posts.length = k + 1 := by
  intro k
  induction k with
  | zero =>
    intro retryCount now _ hp _ hok
    obtain ⟨p, hp⟩ := hp retryCount (le_refl _) (by omega)
    have ht := tryBlock_posted svc (env retryCount) logEntry retryCount now url p hurl hp
    have hout : (tryBlock svc (env retryCount) logEntry retryCount now).outcome
        = Except.ok data := by
      rw [ht]; simpa using hok
    rw [sendWithRetry_ok svc env logEntry retryCount now data hout, ht]
    simp
  | succ k ih =>
    intro retryCount now hlt hp h429 hok
    obtain ⟨p, hp0⟩ := hp retryCount (le_refl _) (by omega)
    obtain ⟨e, he, response, hr, hs⟩ := h429 retryCount (le_refl _) (by omega)
    have ht := tryBlock_posted svc (env retryCount) logEntry retryCount now url p hurl hp0
    have hout : (tryBlock svc (env retryCount) logEntry retryCount now).outcome
        = Except.error e := by
      rw [ht]; exact he
    have hc := catchBlock_rateLimited svc e response retryCount (env retryCount).random
      hr hs (by omega)
    rw [sendWithRetry_retry svc env logEntry retryCount now e _ hout hc]
    have hstep : retryCount + 1 + k = retryCount + (k + 1) := by omega
    obtain ⟨h1, h2⟩ := ih (retryCount + 1)
      (sleepUntil (tryBlock svc (env retryCount) logEntry retryCount now).finish
        (jsAdd (retryAfter response retryCount) ((env retryCount).random * 1000))
        (env retryCount).overrun)
      (by omega)
      (fun i hi1 hi2 => hp i (by omega) (by omega))
      (fun i hi1 hi2 => h429 i (by omega) (by omega))
      (by rw [hstep]; exact hok)
    refine ⟨h1, ?_⟩
    show ((tryBlock svc (env retryCount) logEntry retryCount now).posts ++ _).length = _
    rw [List.length_append, h2, ht]
    simp only [List.length_singleton]
    omega

theorem sendWithRetry_always_rateLimited (svc : DiscordWebhookService)
    (env : Nat → Attempt) (logEntry : LogEntry) (url : String)
    (hurl : svc.webhookUrl = some url)
    (hp : ∀ i, ∃ p, (env i).payload = Except.ok p)
    (h429 : ∀ i, ∃ e, (env i).reply = Except.error e ∧ e.isRateLimited) :
    ∀ (n retryCount : Nat) (now : ℚ), retryCount + n = svc.maxRetries →
      (sendWithRetry svc env logEntry retryCount now).outcome = (env svc.maxRetries).reply ∧
      (sendWithRetry svc env logEntry retryCount now).posts.length = n + 1 := by
  intro n
  induction n with
  | zero =>
    intro retryCount now hn
    obtain ⟨p, hp0⟩ := hp retryCount
    obtain ⟨e, he, _⟩ := h429 retryCount
    have ht := tryBlock_posted svc (env retryCount) logEntry retryCount now url p hurl hp0
    have hout : (tryBlock svc (env retryCount) logEntry retryCount now).outcome
        = Except.error e := by
      rw [ht]; exact he
    have hc := catchBlock_exhausted svc e retryCount (env retryCount).random (by omega)
    rw [sendWithRetry_rethrow svc env logEntry retryCount now e hout hc, ht]
    have hrc : retryCount = svc.maxRetries := by omega
    subst hrc
    simp [he]
  | succ n ih =>
    intro retryCount now hn
    obtain ⟨p, hp0⟩ := hp retryCount
    obtain ⟨e, he, response, hr, hs⟩ := h429 retryCount
    have ht := tryBlock_posted svc (env retryCount) logEntry retryCount now url p hurl hp0
    have hout : (tryBlock svc (env retryCount) logEntry retryCount now).outcome
        = Except.error e := by
      rw [ht]; exact he
    have hc := catchBlock_rateLimited svc e response retryCount (env retryCount).random
      hr hs (by omega)
    rw [sendWithRetry_retry svc env logEntry retryCount now e _ hout hc]
    obtain ⟨h1, h2⟩ := ih (retryCount + 1)
      (sleepUntil (tryBlock svc (env retryCount) logEntry retryCount now).finish
        (jsAdd (retryAfter response retryCount) ((env retryCount).random * 1000))
        (env retryCount).overrun)
      (by omega)
    refine ⟨h1, ?_⟩
    show ((tryBlock svc (env retryCount) logEntry retryCount now).posts ++ _).length = _
    rw [List.length_append, h2, ht]
    simp only [List.length_singleton]
    omega

theorem dispatch_terminal (svc : DiscordWebhookService) (env : Nat → Attempt)
    (pacingOverrun : ℚ) (logEntry : LogEntry) (now : ℚ) (url : String) (payload : JsVal)
    (e : JsError) (hurl : svc.webhookUrl = some url)
    (hp : (env 0).payload = Except.ok payload) (he : (env 0).reply = Except.error e)
    (hc : catchBlock svc e 0 (env 0).random = CatchAction.rethrow) :
    (dispatch svc env pacingOverrun logEntry now).posts.length = 1 ∧
    settlement (dispatch svc env pacingOverrun logEntry now)
      = DeliveryResult.failure e.message := by
  have ht := tryBlock_posted svc (env 0) logEntry 0 (dispatchStart svc pacingOverrun now)
    url payload hurl hp
  have hout : (tryBlock svc (env 0) logEntry 0 (dispatchStart svc pacingOverrun now)).outcome
      = Except.error e := by
    rw [ht]; exact he
  unfold settlement dispatch
  rw [sendWithRetry_rethrow svc env logEntry 0 _ e hout hc, ht]
  simp

/-! ## Claims on the retry loop -/

/-- C5: for every k below `maxRetries`, when the sink answers HTTP 429 to the first k
calls for an entry and accepts the next one, the entry resolves with `success: true`
and the sink has been called exactly k + 1 times for it. -/
theorem retry_bound_rateLimited_then_success (svc : DiscordWebhookService)
    (env : Nat → Attempt) (pacingOverrun : ℚ) (logEntry : LogEntry) (now : ℚ)
    (url : String) (data : JsVal) (k : Nat)
    (hurl : svc.webhookUrl = some url) (hk : k < svc.maxRetries)
    (hp : ∀ i, i ≤ k → ∃ p, (env i).payload = Except.ok p)
    (h429 : ∀ i, i < k → ∃ e, (env i).reply = Except.error e ∧ e.isRateLimited)
    (hok : (env k).reply = Except.ok data) :
    settlement (dispatch svc env pacingOverrun logEntry now) = DeliveryResult.success data ∧
    (dispatch svc env pacingOverrun logEntry now).posts.length = k + 1 := by
  obtain ⟨h1, h2⟩ := sendWithRetry_rateLimited_then_ok svc env logEntry url data hurl k 0
    (dispatchStart svc pacingOverrun now) (by omega)
    (fun i _ hi => hp i (by omega)) (fun i _ hi => h429 i (by omega))
    (by simpa using hok)
  refine ⟨?_, h2⟩
  unfold settlement dispatch
  rw [h1]

/-- Witness for C5: two 429 answers, then success, with `maxRetries = 3`. -/
theorem retry_bound_rateLimited_then_success_witness :
    settlement (dispatch sampleService (failsThenAccepts 2 (httpError 429 (some "1"))) 0
        sampleEntry 0) = DeliveryResult.success (JsVal.string "ok") ∧
    (dispatch sampleService (failsThenAccepts 2 (httpError 429 (some "1"))) 0
        sampleEntry 0).posts.length = 2 + 1 :=
  retry_bound_rateLimited_then_success sampleService
    (failsThenAccepts 2 (httpError 429 (some "1"))) 0 sampleEntry 0
    "https://discord.com/api/webhooks/1/t" (JsVal.string "ok") 2 rfl (by decide)
    (fun i _ => ⟨JsVal.object [], by unfold failsThenAccepts; split <;> rfl⟩)
    (fun i hi => ⟨httpError 429 (some "1"), by simp [failsThenAccepts, instantAttempt, hi],
      ⟨429, some "1"⟩, rfl, rfl⟩)
    rfl

/-- C6: when the sink answers HTTP 429 to every call, the entry resolves with
`success: false` (carrying the message of the last rejection) after exactly
`maxRetries + 1` sink calls; the call ends there, so no further call is made. -/
theorem retry_exhaustion_always_rateLimited (svc : DiscordWebhookService)
    (env : Nat → Attempt) (pacingOverrun : ℚ) (logEntry : LogEntry) (now : ℚ)
    (url : String) (hurl : svc.webhookUrl = some url)
    (hp : ∀ i, ∃ p, (env i).payload = Except.ok p)
    (h429 : ∀ i, ∃ e, (env i).reply = Except.error e ∧ e.isRateLimited) :
    ∃ e, (env svc.maxRetries).reply = Except.error e ∧
      settlement (dispatch svc env pacingOverrun logEntry now)
        = DeliveryResult.failure e.message ∧
      (dispatch svc env pacingOverrun logEntry now).posts.length = svc.maxRetries + 1 := by
  obtain ⟨h1, h2⟩ := sendWithRetry_always_rateLimited svc env logEntry url hurl hp h429
    svc.maxRetries 0 (dispatchStart svc pacingOverrun now) (by omega)
  obtain ⟨e, he, _⟩ := h429 svc.maxRetries
  refine ⟨e, he, ?_, h2⟩
  unfold settlement dispatch
  rw [h1, he]

/-- Witness for C6: a sink that always answers 429, with `maxRetries = 3`. -/
theorem retry_exhaustion_always_rateLimited_witness :
    ∃ e, (alwaysFails (httpError 429 none) sampleService.maxRetries).reply = Except.error e ∧
      settlement (dispatch sampleService (alwaysFails (httpError 429 none)) 0 sampleEntry 0)
        = DeliveryResult.failure e.message ∧
      (dispatch sampleService (alwaysFails (httpError 429 none)) 0 sampleEntry 0).posts.length
        = sampleService.maxRetries + 1 :=
  retry_exhaustion_always_rateLimited sampleService (alwaysFails (httpError 429 none)) 0
    sampleEntry 0 "https://discord.com/api/webhooks/1/t" rfl
    (fun _ => ⟨JsVal.object [], rfl⟩)
    (fun _ => ⟨httpError 429 none, rfl, ⟨429, none⟩, rfl, rfl⟩)

/-- C7: when the sink rejects the first call with an error that is neither HTTP 429 nor
one of the network faults ECONNRESET / ETIMEDOUT, the sink is called exactly once for the
entry and the entry resolves with `success: false` and the message of that error. -/
theorem terminal_error_single_call (svc : DiscordWebhookService) (env : Nat → Attempt)
    (pacingOverrun : ℚ) (logEntry : LogEntry) (now : ℚ) (url : String) (payload : JsVal)
    (e : JsError) (hurl : svc.webhookUrl = some url)
    (hp : (env 0).payload = Except.ok payload) (he : (env 0).reply = Except.error e)
    (h429 : ¬ e.isRateLimited) (hnet : ¬ e.isNetworkFault) :
    (dispatch svc env pacingOverrun logEntry now).posts.length = 1 ∧
    settlement (dispatch svc env pacingOverrun logEntry now)
      = DeliveryResult.failure e.message :=
  dispatch_terminal svc env pacingOverrun logEntry now url payload e hurl hp he
    (catchBlock_terminal svc e 0 (env 0).random h429 hnet)

/-- Witness for C7: a sink answering HTTP 500. -/
theorem terminal_error_single_call_witness :
    (dispatch sampleService (alwaysFails (httpError 500 none)) 0 sampleEntry 0).posts.length
      = 1 ∧
    settlement (dispatch sampleService (alwaysFails (httpError 500 none)) 0 sampleEntry 0)
      = DeliveryResult.failure (httpError 500 none).message :=
  terminal_error_single_call sampleService (alwaysFails (httpError 500 none)) 0 sampleEntry 0
    "https://discord.com/api/webhooks/1/t" (JsVal.object []) (httpError 500 none) rfl rfl rfl
    (by rintro ⟨response, hr, hs⟩; cases hr; revert hs; decide)
    (by unfold JsError.isNetworkFault; decide)

/-- C8 (the code departs from it): an elapsed request timeout, which axios reports with
code ECONNABORTED, is rethrown by the `catch` block at every attempt and for every
`maxRetries`; with `maxRetries = 3` the sink is called once and the entry fails. -/
theorem request_timeout_not_retried :
    (∀ (svc : DiscordWebhookService) (retryCount : Nat) (random : ℚ),
      catchBlock svc timeoutError retryCount random = CatchAction.rethrow) ∧
    (dispatch sampleService (alwaysFails timeoutError) 0 sampleEntry 0).posts.length = 1 ∧
    settlement (dispatch sampleService (alwaysFails timeoutError) 0 sampleEntry 0)
      = DeliveryResult.failure (some "timeout of 15000ms exceeded") := by
  have hc : ∀ (svc : DiscordWebhookService) (retryCount : Nat) (random : ℚ),
      catchBlock svc timeoutError retryCount random = CatchAction.rethrow := by
    intro svc retryCount random
    apply catchBlock_terminal
    · rintro ⟨response, hr, _⟩
      cases hr
    · unfold JsError.isNetworkFault
      decide
  exact ⟨hc, dispatch_terminal sampleService (alwaysFails timeoutError) 0 sampleEntry 0
    "https://discord.com/api/webhooks/1/t" (JsVal.object []) timeoutError rfl rfl rfl
    (hc sampleService 0 _)⟩

/-! ## `parseInt` on decimal renderings -/

theorem digitValue_digitChar (d : Nat) (h : d < 10) :
    digitValue 10 (Nat.digitChar d) = some d := by
  interval_cases d <;> rfl

theorem digitChar_toNat (d : Nat) (h : d < 10) :
    48 ≤ (Nat.digitChar d).toNat ∧ (Nat.digitChar d).toNat ≤ 57 := by
  interval_cases d <;> decide

theorem parseDigits_toDigitsCore (fuel : Nat) :
    ∀ (n : Nat) (ds : List Char), n < fuel →
      parseDigits 10 (Nat.toDigitsCore 10 fuel n ds) 0 = parseDigits 10 ds n := by
  induction fuel with
  | zero => intro n ds h; omega
  | succ fuel ih =>
    intro n ds h
    have hd := digitValue_digitChar (n % 10) (Nat.mod_lt _ (by decide))
    simp only [Nat.toDigitsCore]
    split_ifs with h0
    · simp only [parseDigits, hd]
      congr 1
      omega
    · rw [ih (n / 10) _ (by omega)]
      simp only [parseDigits, hd]
      congr 1
      omega

theorem toDigitsCore_digits (fuel : Nat) :
    ∀ (n : Nat) (ds : List Char), (∀ c ∈ ds, 48 ≤ c.toNat ∧ c.toNat ≤ 57) →
      ∀ c ∈ Nat.toDigitsCore 10 fuel n ds, 48 ≤ c.toNat ∧ c.toNat ≤ 57 := by
  induction fuel with
  | zero => intro n ds h; simpa [Nat.toDigitsCore] using h
  | succ fuel ih =>
    intro n ds h
    have hd := digitChar_toNat (n % 10) (Nat.mod_lt _ (by decide))
    have hcons : ∀ c ∈ Nat.digitChar (n % 10) :: ds, 48 ≤ c.toNat ∧ c.toNat ≤ 57 := by
      intro c hc
      rcases List.mem_cons.mp hc with rfl | hc
      · exact hd
      · exact h c hc
    simp only [Nat.toDigitsCore]
    split_ifs with h0
    · exact hcons
    · exact ih _ _ hcons

theorem toDigitsCore_ne_nil (fuel : Nat) :
    ∀ (n : Nat) (ds : List Char), ds ≠ [] ∨ 0 < fuel → Nat.toDigitsCore 10 fuel n ds ≠ [] := by
  induction fuel with
  | zero =>
    intro n ds h
    rcases h with h | h
    · simpa [Nat.toDigitsCore] using h
    · omega
  | succ fuel ih =>
    intro n ds _
    simp only [Nat.toDigitsCore]
    split_ifs with h0
    · exact List.cons_ne_nil _ _
    · exact ih _ _ (Or.inl (List.cons_ne_nil _ _))

theorem parseInt_digits (c : Char) (cs : List Char)
    (h : ∀ x ∈ c :: cs, 48 ≤ x.toNat ∧ x.toNat ≤ 57) :
    parseInt (String.mk (c :: cs)) = some ((parseDigits 10 (c :: cs) 0 : Nat) : Int) := by
  have hc := h c (List.mem_cons_self _ _)
  have hws : isStrWhiteSpace c = false := by
    simp only [isStrWhiteSpace, Bool.or_eq_false_iff, decide_eq_false_iff_not,
      Bool.and_eq_false_iff, List.mem_cons, List.mem_singleton, List.not_mem_nil, or_false]
    exact ⟨by omega, Or.inl (by omega)⟩
  have hsign : stripSign (c :: cs) = (1, c :: cs) := by
    unfold stripSign
    split
    · rename_i heq
      have : c = '-' := (List.cons.inj heq).1
      subst this
      exact absurd hc (by decide)
    · rename_i heq
      have : c = '+' := (List.cons.inj heq).1
      subst this
      exact absurd hc (by decide)
    · rfl
  have hradix : stripRadix (c :: cs) = (10, c :: cs) := by
    unfold stripRadix
    split
    · rename_i rest heq
      have h2 : cs = 'x' :: rest := (List.cons.inj heq).2
      have := h 'x' (by rw [h2]; simp)
      exact absurd this (by decide)
    · rename_i rest heq
      have h2 : cs = 'X' :: rest := (List.cons.inj heq).2
      have := h 'X' (by rw [h2]; simp)
      exact absurd this (by decide)
    · rfl
  have hdv : ∃ d, digitValue 10 c = some d := by
    unfold digitValue
    simp only [hc, and_self, if_true]
    refine ⟨c.toNat - 48, ?_⟩
    have : c.toNat - 48 < 10 := by omega
    simp [this]
  obtain ⟨d, hd⟩ := hdv
  unfold parseInt
  simp only [String.toList, List.dropWhile, hws, hsign, hradix, hd]
  simp

theorem parseInt_toString (n : Nat) : parseInt (toString n) = some (n : Int) := by
  have hne := toDigitsCore_ne_nil (n + 1) n [] (Or.inr (Nat.succ_pos n))
  have hdig := toDigitsCore_digits (n + 1) n [] (by simp)
  have hval := parseDigits_toDigitsCore (n + 1) n [] (Nat.lt_succ_self n)
  show parseInt (String.mk (Nat.toDigitsCore 10 (n + 1) n [])) = some (n : Int)
  cases hl : Nat.toDigitsCore 10 (n + 1) n [] with
  | nil => exact absurd hl hne
  | cons c cs =>
    rw [hl] at hdig hval
    rw [parseInt_digits c cs hdig, hval]
    simp [parseDigits]

theorem toString_toList_ne_nil (n : Nat) : (toString n).toList.length ≠ 0 := by
  have hne := toDigitsCore_ne_nil (n + 1) n [] (Or.inr (Nat.succ_pos n))
  show (Nat.toDigitsCore 10 (n + 1) n []).length ≠ 0
  intro h
  exact hne (List.length_eq_zero.mp h)

/-! ## Claims on the retry delay -/

/-- C9: for a 429 answer whose `retry-after` header is the decimal rendering of n, with a
retry left and a random draw in [0, 1), the delay passed to `Helpers.sleep` before the
next attempt is a number between n * 1000 (included) and n * 1000 + 1000 (excluded),
whatever the attempt number. -/
theorem retry_after_wait_bounds (svc : DiscordWebhookService) (error : JsError)
    (response : ErrorResponse) (n retryCount : Nat) (random : ℚ)
    (hr : error.response = some response) (hs : response.status = 429)
    (hh : response.retryAfterHeader = some (toString n))
    (hlt : retryCount < svc.maxRetries) (h0 : 0 ≤ random) (h1 : random < 1) :
    ∃ ms : ℚ, catchBlock svc error retryCount random = CatchAction.sleepThenRetry (some ms) ∧
      (n : ℚ) * 1000 ≤ ms ∧ ms < (n : ℚ) * 1000 + 1000 := by
  refine ⟨(n : ℚ) * 1000 + random * 1000, ?_, by linarith, by linarith⟩
  rw [catchBlock_rateLimited svc error response retryCount random hr hs hlt]
  have hra : retryAfter response retryCount = some ((n : ℚ) * 1000) := by
    unfold retryAfter
    rw [hh]
    simp only [toString_toList_ne_nil n, if_false, parseInt_toString, jsMul, Option.map_some']
    simp
  rw [hra]
  rfl

/-- Witness for C9: header "7" at the second attempt, draw 1/2. -/
theorem retry_after_wait_bounds_witness :
    ∃ ms : ℚ, catchBlock sampleService (httpError 429 (some (toString 7))) 1 (1 / 2)
        = CatchAction.sleepThenRetry (some ms) ∧
      ((7 : Nat) : ℚ) * 1000 ≤ ms ∧ ms < ((7 : Nat) : ℚ) * 1000 + 1000 :=
  retry_after_wait_bounds sampleService (httpError 429 (some (toString 7)))
    ⟨429, some (toString 7)⟩ 7 1 (1 / 2) rfl rfl rfl (by decide) (by norm_num) (by norm_num)

/-- C10 (the code departs from it): without a `retry-after` header the base delay is
`2 ^ retryCount * 1000` whatever `retryBackoff` and `retryMultiplier` are set to: the
`catch` block gives the same answer after any change of these two fields, so with
`retryMultiplier = 3` the base at `retryCount = 2` is 4000 (not 3 ^ 2 * 1000 = 9000), and
under `retryBackoff = fixed` the base grows from 1000 to 2000 between the first two
retries. -/
theorem backoff_configuration_ignored :
    (∀ (svc : DiscordWebhookService) (backoff : String) (multiplier : ℚ) (error : JsError)
        (retryCount : Nat) (random : ℚ),
      catchBlock { svc with retryBackoff := backoff, retryMultiplier := multiplier }
        error retryCount random = catchBlock svc error retryCount random) ∧
    (∀ (status retryCount : Nat),
      retryAfter ⟨status, none⟩ retryCount = some ((2 : ℚ) ^ retryCount * 1000)) ∧
    catchBlock { sampleService with retryMultiplier := 3 } (httpError 429 none) 2 0
      = CatchAction.sleepThenRetry (some 4000) ∧
    catchBlock { sampleService with retryBackoff := "fixed" } (httpError 429 none) 0 0
      = CatchAction.sleepThenRetry (some 1000) ∧
    catchBlock { sampleService with retryBackoff := "fixed" } (httpError 429 none) 1 0
      = CatchAction.sleepThenRetry (some 2000) := by
  refine ⟨fun _ _ _ _ _ _ => rfl, fun _ _ => rfl, ?_, ?_, ?_⟩
  · rw [catchBlock_rateLimited _ _ ⟨429, none⟩ 2 0 rfl rfl (by decide)]
    simp only [retryAfter, jsAdd, Option.map_some']
    norm_num
  · rw [catchBlock_rateLimited _ _ ⟨429, none⟩ 0 0 rfl rfl (by decide)]
    simp only [retryAfter, jsAdd, Option.map_some']
    norm_num
  · rw [catchBlock_rateLimited _ _ ⟨429, none⟩ 1 0 rfl rfl (by decide)]
    simp only [retryAfter, jsAdd, Option.map_some']
    norm_num

/-! ## The scheduler, step by step -/

theorem sendWithRetry_cases (svc : DiscordWebhookService) (env : Nat → Attempt)
    (logEntry : LogEntry) (retryCount : Nat) (now : ℚ) :
    sendWithRetry svc env logEntry retryCount now =
      ⟨(tryBlock svc (env retryCount) logEntry retryCount now).outcome,
        (tryBlock svc (env retryCount) logEntry retryCount now).posts, [],
        (tryBlock svc (env retryCount) logEntry retryCount now).finish⟩ ∨
    ∃ ms, retryCount < svc.maxRetries ∧
      sendWithRetry svc env logEntry retryCount now =
        ⟨(sendWithRetry svc env logEntry (retryCount + 1)
            (sleepUntil (tryBlock svc (env retryCount) logEntry retryCount now).finish ms
              (env retryCount).overrun)).outcome,
          (tryBlock svc (env retryCount) logEntry retryCount now).posts ++
            (sendWithRetry svc env logEntry (retryCount + 1)
              (sleepUntil (tryBlock svc (env retryCount) logEntry retryCount now).finish ms
                (env retryCount).overrun)).posts,
          ms :: (sendWithRetry svc env logEntry (retryCount + 1)
              (sleepUntil (tryBlock svc (env retryCount) logEntry retryCount now).finish ms
                (env retryCount).overrun)).sleeps,
          (sendWithRetry svc env logEntry (retryCount + 1)
              (sleepUntil (tryBlock svc (env retryCount) logEntry retryCount now).finish ms
                (env retryCount).overrun)).finish⟩ := by
  cases hout : (tryBlock svc (env retryCount) logEntry retryCount now).outcome with
  | ok value =>
    left
    rw [sendWithRetry_ok svc env logEntry retryCount now value hout]
  | error error =>
    cases hc : catchBlock svc error retryCount (env retryCount).random with
    | rethrow =>
      left
      rw [sendWithRetry_rethrow svc env logEntry retryCount now error hout hc]
    | sleepThenRetry ms =>
      right
      refine ⟨ms, ?_, sendWithRetry_retry svc env logEntry retryCount now error ms hout hc⟩
      by_contra hge
      rw [catchBlock_exhausted svc error retryCount _ (by omega)] at hc
      cases hc

theorem tryBlock_posts_entry (svc : DiscordWebhookService) (a : Attempt)
    (logEntry : LogEntry) (retryCount : Nat) (now : ℚ) :
    ∀ p ∈ (tryBlock svc a logEntry retryCount now).posts, p.entry = logEntry := by
  unfold tryBlock
  split
  · simp
  · split <;> simp

theorem sendWithRetry_posts_entry (svc : DiscordWebhookService) (env : Nat → Attempt)
    (logEntry : LogEntry) :
    ∀ (n retryCount : Nat) (now : ℚ), svc.maxRetries - retryCount ≤ n →
      ∀ p ∈ (sendWithRetry svc env logEntry retryCount now).posts, p.entry = logEntry := by
  intro n
  induction n with
  | zero =>
    intro retryCount now hn p hp
    rcases sendWithRetry_cases svc env logEntry retryCount now with h | ⟨ms, hlt, _⟩
    · rw [h] at hp
      exact tryBlock_posts_entry svc _ logEntry retryCount now p hp
    · omega
  | succ n ih =>
    intro retryCount now hn p hp
    rcases sendWithRetry_cases svc env logEntry retryCount now with h | ⟨ms, hlt, h⟩
    · rw [h] at hp
      exact tryBlock_posts_entry svc _ logEntry retryCount now p hp
    · rw [h] at hp
      rcases List.mem_append.mp hp with hp | hp
      · exact tryBlock_posts_entry svc _ logEntry retryCount now p hp
      · exact ih (retryCount + 1) _ (by omega) p hp

theorem dispatch_posts_entry (svc : DiscordWebhookService) (env : Nat → Attempt)
    (pacingOverrun : ℚ) (logEntry : LogEntry) (now : ℚ) :
    (dispatch svc env pacingOverrun logEntry now).posts.map Post.entry =
      List.replicate (dispatch svc env pacingOverrun logEntry now).posts.length logEntry := by
  rw [List.eq_replicate_iff]
  refine ⟨by simp, ?_⟩
  intro e he
  obtain ⟨p, hp, rfl⟩ := List.mem_map.mp he
  exact sendWithRetry_posts_entry svc env logEntry _ 0 _ (le_refl _) p hp

theorem mkLogEntry_resolve (options : JsVal) (now : ℚ) (id : Nat) (logEntry : LogEntry)
    (h : mkLogEntry options now id = Except.ok logEntry) : logEntry.resolve = id := by
  unfold mkLogEntry at h
  split at h
  · cases h
  · cases h
  · split at h
    · cases h
      rfl
    · cases h

theorem log_rejected (s : Scheduler) (options : JsVal) (now : ℚ) (e : JsError)
    (h : mkLogEntry options now s.promises.length = Except.error e) :
    log s options now = { s with promises := s.promises ++ [PromiseState.rejected e] } := by
  simp [log, h]

theorem log_busy (s : Scheduler) (options : JsVal) (now : ℚ) (logEntry : LogEntry)
    (hc : Consistent s) (h : mkLogEntry options now s.promises.length = Except.ok logEntry)
    (hb : s.inflight ≠ none) :
    log s options now =
      { s with
        svc := { s.svc with rateLimitQueue := s.svc.rateLimitQueue ++ [logEntry] }
        promises := s.promises ++ [PromiseState.pending]
        enqueued := s.enqueued ++ [logEntry] } := by
  have hf : s.svc.isProcessingQueue = true := by
    rw [hc.flag]
    cases hi : s.inflight with
    | none => exact absurd hi hb
    | some x => rfl
  simp [log, h, processQueue, hf]

theorem log_idle (s : Scheduler) (options : JsVal) (now : ℚ) (logEntry : LogEntry)
    (hc : Consistent s) (h : mkLogEntry options now s.promises.length = Except.ok logEntry)
    (hi : s.inflight = none) :
    log s options now =
      { s with
        svc := { s.svc with rateLimitQueue := [], isProcessingQueue := true }
        inflight := some (logEntry, now)
        promises := s.promises ++ [PromiseState.pending]
        enqueued := s.enqueued ++ [logEntry] } := by
  have hf : s.svc.isProcessingQueue = false := by
    rw [hc.flag, hi]
    rfl
  have hq := hc.idle hi
  simp [log, h, processQueue, hf, hq, loopHead]

theorem resume_idle (s : Scheduler) (env : Nat → Attempt) (pacingOverrun : ℚ)
    (hi : s.inflight = none) : resume s env pacingOverrun = s := by
  simp [resume, hi]

theorem resume_last (s : Scheduler) (env : Nat → Attempt) (pacingOverrun : ℚ)
    (logEntry : LogEntry) (now : ℚ) (hi : s.inflight = some (logEntry, now))
    (hq : s.svc.rateLimitQueue = []) :
    resume s env pacingOverrun =
      { s with
        svc := { s.svc with
          lastRequestTime := (dispatch s.svc env pacingOverrun logEntry now).finish
          isProcessingQueue := false }
        inflight := none
        promises := resolvePromise s.promises logEntry.resolve
          (settlement (dispatch s.svc env pacingOverrun logEntry now))
        posts := s.posts ++ (dispatch s.svc env pacingOverrun logEntry now).posts } := by
  simp [resume, hi, loopHead, hq]

theorem resume_next (s : Scheduler) (env : Nat → Attempt) (pacingOverrun : ℚ)
    (logEntry : LogEntry) (now : ℚ) (next : LogEntry) (rest : List LogEntry)
    (hi : s.inflight = some (logEntry, now))
    (hq : s.svc.rateLimitQueue = next :: rest) :
    resume s env pacingOverrun =
      { s with
        svc := { s.svc with
          lastRequestTime := (dispatch s.svc env pacingOverrun logEntry now).finish
          rateLimitQueue := rest }
        inflight := some (next, (dispatch s.svc env pacingOverrun logEntry now).finish)
        promises := resolvePromise s.promises logEntry.resolve
          (settlement (dispatch s.svc env pacingOverrun logEntry now))
        posts := s.posts ++ (dispatch s.svc env pacingOverrun logEntry now).posts } := by
  simp [resume, hi, loopHead, hq]

theorem consistent_start (svc : DiscordWebhookService) : Consistent (Scheduler.start svc) :=
  ⟨rfl, fun _ => rfl⟩

theorem consistent_step (s : Scheduler) (ev : Event) (hc : Consistent s) :
    Consistent (step s ev) := by
  cases ev with
  | log options now =>
    show Consistent (log s options now)
    cases h : mkLogEntry options now s.promises.length with
    | error e =>
      rw [log_rejected s options now e h]
      exact ⟨hc.flag, hc.idle⟩
    | ok logEntry =>
      cases hi : s.inflight with
      | none =>
        rw [log_idle s options now logEntry hc h hi]
        exact ⟨rfl, fun h => by cases h⟩
      | some x =>
        rw [log_busy s options now logEntry hc h (by rw [hi]; simp)]
        refine ⟨hc.flag, fun h => ?_⟩
        rw [hi] at h
        cases h
  | resume env pacingOverrun =>
    show Consistent (resume s env pacingOverrun)
    cases hi : s.inflight with
    | none =>
      rw [resume_idle s env pacingOverrun hi]
      exact hc
    | some x =>
      obtain ⟨logEntry, now⟩ := x
      cases hq : s.svc.rateLimitQueue with
      | nil =>
        rw [resume_last s env pacingOverrun logEntry now hi hq]
        exact ⟨rfl, fun _ => hq⟩
      | cons next rest =>
        rw [resume_next s env pacingOverrun logEntry now next rest hi hq]
        refine ⟨?_, fun h => by cases h⟩
        show s.svc.isProcessingQueue = true
        rw [hc.flag, hi]
        rfl

theorem run_cons (s : Scheduler) (ev : Event) (rest : List Event) :
    run s (ev :: rest) = run (step s ev) rest := rfl

theorem consistent_run (events : List Event) :
    ∀ s : Scheduler, Consistent s → Consistent (run s events) := by
  induction events with
  | nil => intro s h; exact h
  | cons ev rest ih =>
    intro s h
    rw [run_cons]
    exact ih _ (consistent_step s ev h)

/-! ## FIFO order of the sink calls -/

theorem attemptsInOrder_snoc (done : List LogEntry) :
    ∀ (counts : List Nat) (e : LogEntry) (c : Nat), counts.length = done.length →
      attemptsInOrder (done ++ [e]) (counts ++ [c])
        = attemptsInOrder done counts ++ List.replicate c e := by
  induction done with
  | nil =>
    intro counts e c h
    have : counts = [] := List.length_eq_zero.mp h
    subst this
    simp [attemptsInOrder]
  | cons d done ih =>
    intro counts e c h
    cases counts with
    | nil => simp at h
    | cons k counts =>
      have h2 : counts.length = done.length := by simpa using h
      have := ih counts e c h2
      simp only [attemptsInOrder, List.cons_append, List.zipWith_cons_cons,
        List.flatten_cons, List.append_assoc] at this ⊢
      rw [this]

theorem attemptsInOrder_append_left (done : List LogEntry) :
    ∀ (counts : List Nat) (rest : List LogEntry), counts.length = done.length →
      attemptsInOrder (done ++ rest) counts = attemptsInOrder done counts := by
  induction done with
  | nil =>
    intro counts rest h
    have : counts = [] := List.length_eq_zero.mp h
    subst this
    simp [attemptsInOrder]
  | cons d done ih =>
    intro counts rest h
    cases counts with
    | nil => simp at h
    | cons k counts =>
      have h2 : counts.length = done.length := by simpa using h
      have := ih counts rest h2
      simp only [attemptsInOrder, List.cons_append, List.zipWith_cons_cons,
        List.flatten_cons] at this ⊢
      rw [this]

theorem fifoInv_step (s : Scheduler) (ev : Event) (hc : Consistent s) (h : FifoInv s) :
    FifoInv (step s ev) := by
  obtain ⟨done, counts, henq, hlen, hposts⟩ := h
  cases ev with
  | log options now =>
    show FifoInv (log s options now)
    cases h : mkLogEntry options now s.promises.length with
    | error e =>
      rw [log_rejected s options now e h]
      exact ⟨done, counts, henq, hlen, hposts⟩
    | ok logEntry =>
      cases hi : s.inflight with
      | none =>
        rw [log_idle s options now logEntry hc h hi]
        refine ⟨done, counts, ?_, hlen, hposts⟩
        have hq := hc.idle hi
        simp only [waiting, hi, hq] at henq
        simp [waiting, henq]
      | some x =>
        rw [log_busy s options now logEntry hc h (by rw [hi]; simp)]
        refine ⟨done, counts, ?_, hlen, hposts⟩
        simp only [waiting, hi] at henq
        simp [waiting, hi, henq]
  | resume env pacingOverrun =>
    show FifoInv (resume s env pacingOverrun)
    cases hi : s.inflight with
    | none =>
      rw [resume_idle s env pacingOverrun hi]
      exact ⟨done, counts, henq, hlen, hposts⟩
    | some x =>
      obtain ⟨logEntry, now⟩ := x
      have hd := dispatch_posts_entry s.svc env pacingOverrun logEntry now
      cases hq : s.svc.rateLimitQueue with
      | nil =>
        rw [resume_last s env pacingOverrun logEntry now hi hq]
        refine ⟨done ++ [logEntry],
          counts ++ [(dispatch s.svc env pacingOverrun logEntry now).posts.length], ?_, ?_, ?_⟩
        · simp only [waiting, hi, hq] at henq
          simp [waiting, henq, hq]
        · simp [hlen]
        · rw [attemptsInOrder_snoc done counts _ _ hlen]
          simp only [List.map_append, hposts, hd]
      | cons next rest =>
        rw [resume_next s env pacingOverrun logEntry now next rest hi hq]
        refine ⟨done ++ [logEntry],
          counts ++ [(dispatch s.svc env pacingOverrun logEntry now).posts.length], ?_, ?_, ?_⟩
        · simp only [waiting, hi, hq] at henq
          simp [waiting, henq, hq]
        · simp [hlen]
        · rw [attemptsInOrder_snoc done counts _ _ hlen]
          simp only [List.map_append, hposts, hd]

theorem fifoInv_run (events : List Event) :
    ∀ s : Scheduler, Consistent s → FifoInv s → FifoInv (run s events) := by
  induction events with
  | nil => intro s _ h; exact h
  | cons ev rest ih =>
    intro s hc h
    rw [run_cons]
    exact ih _ (consistent_step s ev hc) (fifoInv_step s ev hc h)

theorem resolvePromise_length (promises : List PromiseState) (id : Nat)
    (value : DeliveryResult) : (resolvePromise promises id value).length = promises.length := by
  unfold resolvePromise
  split <;> simp

theorem handleInv_push (s : Scheduler) (logEntry : LogEntry) (h : HandleInv s)
    (hres : logEntry.resolve = s.promises.length) :
    ((s.enqueued ++ [logEntry]).map LogEntry.resolve).Pairwise (fun a b => a < b) ∧
    ∀ e ∈ s.enqueued ++ [logEntry], e.resolve < (s.promises ++ [PromiseState.pending]).length := by
  constructor
  · rw [List.map_append, List.pairwise_append]
    refine ⟨h.increasing, by simp, ?_⟩
    intro a ha b hb
    simp only [List.map_cons, List.map_nil, List.mem_singleton] at hb
    obtain ⟨x, hx, rfl⟩ := List.mem_map.mp ha
    have := h.bounded x hx
    omega
  · intro e he
    rw [List.length_append, List.length_singleton]
    rcases List.mem_append.mp he with he | he
    · have := h.bounded e he
      omega
    · simp only [List.mem_singleton] at he
      subst he
      omega

theorem handleInv_step (s : Scheduler) (ev : Event) (hc : Consistent s) (h : HandleInv s) :
    HandleInv (step s ev) := by
  cases ev with
  | log options now =>
    show HandleInv (log s options now)
    cases hl : mkLogEntry options now s.promises.length with
    | error e =>
      rw [log_rejected s options now e hl]
      refine ⟨h.increasing, ?_⟩
      intro x hx
      have := h.bounded x hx
      show x.resolve < (s.promises ++ [PromiseState.rejected e]).length
      rw [List.length_append, List.length_singleton]
      omega
    | ok logEntry =>
      have hres := mkLogEntry_resolve options now _ logEntry hl
      obtain ⟨p1, p2⟩ := handleInv_push s logEntry h hres
      cases hi : s.inflight with
      | none =>
        rw [log_idle s options now logEntry hc hl hi]
        exact ⟨p1, p2⟩
      | some x =>
        rw [log_busy s options now logEntry hc hl (by rw [hi]; simp)]
        exact ⟨p1, p2⟩
  | resume env pacingOverrun =>
    show HandleInv (resume s env pacingOverrun)
    cases hi : s.inflight with
    | none =>
      rw [resume_idle s env pacingOverrun hi]
      exact h
    | some x =>
      obtain ⟨logEntry, now⟩ := x
      have hb : ∀ e ∈ s.enqueued, e.resolve < (resolvePromise s.promises logEntry.resolve
          (settlement (dispatch s.svc env pacingOverrun logEntry now))).length := by
        intro e he
        rw [resolvePromise_length]
        exact h.bounded e he
      cases hq : s.svc.rateLimitQueue with
      | nil =>
        rw [resume_last s env pacingOverrun logEntry now hi hq]
        exact ⟨h.increasing, hb⟩
      | cons next rest =>
        rw [resume_next s env pacingOverrun logEntry now next rest hi hq]
        exact ⟨h.increasing, hb⟩

theorem handleInv_run (events : List Event) :
    ∀ s : Scheduler, Consistent s → HandleInv s → HandleInv (run s events) := by
  induction events with
  | nil => intro s _ h; exact h
  | cons ev rest ih =>
    intro s hc h
    rw [run_cons]
    exact ih _ (consistent_step s ev hc) (handleInv_step s ev hc h)

/-- C1: after any history of `log` calls and drain progress on one service, whatever
the sink answers, the entries of the sink calls, in call order, are runs of attempts
laid out in the order the entries were pushed: `counts[i]` consecutive calls for the
i-th pushed entry (entries still waiting have no call yet). The pushed entries are
pairwise distinct: their completion handles increase strictly. -/
theorem fifo_sink_calls (svc : DiscordWebhookService) (events : List Event) :
    (∃ counts : List Nat,
      counts.length ≤ (run (Scheduler.start svc) events).enqueued.length ∧
      (run (Scheduler.start svc) events).posts.map Post.entry
        = attemptsInOrder (run (Scheduler.start svc) events).enqueued counts) ∧
    ((run (Scheduler.start svc) events).enqueued.map LogEntry.resolve).Pairwise
      (fun a b => a < b) := by
  obtain ⟨done, counts, henq, hlen, hposts⟩ :=
    fifoInv_run events (Scheduler.start svc) (consistent_start svc)
      ⟨[], [], rfl, rfl, rfl⟩
  have hh := handleInv_run events (Scheduler.start svc) (consistent_start svc)
    ⟨List.Pairwise.nil, (fun e he => by cases he)⟩
  refine ⟨⟨counts, ?_, ?_⟩, hh.increasing⟩
  · rw [henq, List.length_append, hlen]
    omega
  · rw [hposts, henq, attemptsInOrder_append_left done counts _ hlen]

/-! ## Pacing -/

theorem sleepUntil_ge (now : ℚ) (ms : Option ℚ) (overrun : ℚ) (h : 0 ≤ overrun) :
    now ≤ sleepUntil now ms overrun := by
  unfold sleepUntil
  have := le_max_left (0 : ℚ) (ms.getD 0)
  linarith

theorem tryBlock_times (svc : DiscordWebhookService) (a : Attempt) (logEntry : LogEntry)
    (retryCount : Nat) (now : ℚ) (hb : 0 ≤ a.buildTime) (hp : 0 ≤ a.postTime) :
    now ≤ (tryBlock svc a logEntry retryCount now).finish ∧
    ∀ p ∈ (tryBlock svc a logEntry retryCount now).posts,
      now ≤ p.time ∧ p.time ≤ (tryBlock svc a logEntry retryCount now).finish := by
  unfold tryBlock
  split
  · simp only [List.not_mem_nil, false_implies, implies_true, and_true]
    linarith
  · split
    · simp only [List.not_mem_nil, false_implies, implies_true, and_true]
      linarith
    · simp only [List.mem_singleton, forall_eq]
      refine ⟨by linarith, by linarith, by linarith⟩

theorem tryBlock_posts_pairwise (svc : DiscordWebhookService) (a : Attempt)
    (logEntry : LogEntry) (retryCount : Nat) (now : ℚ) :
    (tryBlock svc a logEntry retryCount now).posts.Pairwise (fun p q => p.time ≤ q.time) := by
  unfold tryBlock
  split
  · simp
  · split <;> simp

theorem sendWithRetry_times (svc : DiscordWebhookService) (env : Nat → Attempt)
    (logEntry : LogEntry) (hw : envWellTimed env) :
    ∀ (n retryCount : Nat) (now : ℚ), svc.maxRetries - retryCount ≤ n →
      now ≤ (sendWithRetry svc env logEntry retryCount now).finish ∧
      (∀ p ∈ (sendWithRetry svc env logEntry retryCount now).posts,
        now ≤ p.time ∧ p.time ≤ (sendWithRetry svc env logEntry retryCount now).finish) ∧
      (sendWithRetry svc env logEntry retryCount now).posts.Pairwise
        (fun p q => p.time ≤ q.time) := by
  intro n
  induction n with
  | zero =>
    intro retryCount now hn
    obtain ⟨hb, hp, _⟩ := hw retryCount
    have ht := tryBlock_times svc (env retryCount) logEntry retryCount now hb hp
    rcases sendWithRetry_cases svc env logEntry retryCount now with h | ⟨ms, hlt, _⟩
    · rw [h]
      exact ⟨ht.1, ht.2, tryBlock_posts_pairwise svc _ logEntry retryCount now⟩
    · omega
  | succ n ih =>
    intro retryCount now hn
    obtain ⟨hb, hp, ho⟩ := hw retryCount
    have ht := tryBlock_times svc (env retryCount) logEntry retryCount now hb hp
    rcases sendWithRetry_cases svc env logEntry retryCount now with h | ⟨ms, hlt, h⟩
    · rw [h]
      exact ⟨ht.1, ht.2, tryBlock_posts_pairwise svc _ logEntry retryCount now⟩
    · have hs := sleepUntil_ge (tryBlock svc (env retryCount) logEntry retryCount now).finish
        ms (env retryCount).overrun ho
      obtain ⟨i1, i2, i3⟩ := ih (retryCount + 1)
        (sleepUntil (tryBlock svc (env retryCount) logEntry retryCount now).finish ms
          (env retryCount).overrun) (by omega)
      rw [h]
      refine ⟨by linarith [ht.1], ?_, ?_⟩
      · intro p hp
        rcases List.mem_append.mp hp with hp | hp
        · have := ht.2 p hp
          exact ⟨this.1, by linarith⟩
        · have := i2 p hp
          exact ⟨by linarith [ht.1], this.2⟩
      · rw [List.pairwise_append]
        refine ⟨tryBlock_posts_pairwise svc _ logEntry retryCount now, i3, ?_⟩
        intro p hp q hq
        have h1 := (ht.2 p hp).2
        have h2 := (i2 q hq).1
        linarith

theorem dispatchStart_ge (svc : DiscordWebhookService) (pacingOverrun : ℚ) (now : ℚ)
    (h : 0 ≤ pacingOverrun) :
    now ≤ dispatchStart svc pacingOverrun now ∧
    svc.lastRequestTime + svc.minInterval ≤ dispatchStart svc pacingOverrun now := by
  unfold dispatchStart
  simp only []
  split_ifs with hlt
  · have h1 := sleepUntil_ge now (some (svc.minInterval - (now - svc.lastRequestTime)))
      pacingOverrun h
    refine ⟨h1, ?_⟩
    unfold sleepUntil
    have := le_max_right (0 : ℚ) ((some (svc.minInterval - (now - svc.lastRequestTime))).getD 0)
    simp only [Option.getD_some] at this ⊢
    linarith
  · exact ⟨le_refl _, by linarith⟩

theorem dispatch_times (svc : DiscordWebhookService) (env : Nat → Attempt)
    (pacingOverrun : ℚ) (logEntry : LogEntry) (now : ℚ) (hw : envWellTimed env)
    (ho : 0 ≤ pacingOverrun) :
    now ≤ (dispatch svc env pacingOverrun logEntry now).finish ∧
    (∀ p ∈ (dispatch svc env pacingOverrun logEntry now).posts,
      now ≤ p.time ∧ svc.lastRequestTime + svc.minInterval ≤ p.time ∧
      p.time ≤ (dispatch svc env pacingOverrun logEntry now).finish) ∧
    (dispatch svc env pacingOverrun logEntry now).posts.Pairwise
      (fun p q => p.time ≤ q.time) := by
  obtain ⟨h1, h2, h3⟩ := sendWithRetry_times svc env logEntry hw svc.maxRetries 0
    (dispatchStart svc pacingOverrun now) (by omega)
  obtain ⟨g1, g2⟩ := dispatchStart_ge svc pacingOverrun now ho
  refine ⟨by unfold dispatch; linarith, ?_, h3⟩
  intro p hp
  have := h2 p hp
  exact ⟨by linarith, by linarith, this.2⟩

theorem pacingInv_resume (m : ℚ) (s : Scheduler) (env : Nat → Attempt) (pacingOverrun : ℚ)
    (logEntry : LogEntry) (now : ℚ) (h : PacingInv m s)
    (hi : s.inflight = some (logEntry, now)) (hw : envWellTimed env)
    (ho : 0 ≤ pacingOverrun) :
    (∀ p ∈ s.posts ++ (dispatch s.svc env pacingOverrun logEntry now).posts,
      p.time ≤ (dispatch s.svc env pacingOverrun logEntry now).finish) ∧
    (s.posts ++ (dispatch s.svc env pacingOverrun logEntry now).posts).Pairwise
      (pacedPair m) := by
  obtain ⟨d1, d2, d3⟩ := dispatch_times s.svc env pacingOverrun logEntry now hw ho
  have hnow := h.shifted logEntry now hi
  have hent := sendWithRetry_posts_entry s.svc env logEntry s.svc.maxRetries 0
    (dispatchStart s.svc pacingOverrun now) (by omega)
  constructor
  · intro p hp
    rcases List.mem_append.mp hp with hp | hp
    · have := h.past p hp
      linarith
    · exact (d2 p hp).2.2
  · rw [List.pairwise_append]
    refine ⟨h.paced, ?_, ?_⟩
    · have hmem : ∀ p ∈ (dispatch s.svc env pacingOverrun logEntry now).posts,
          p.entry = logEntry := hent
      refine (List.Pairwise.and_mem.mp d3).imp ?_
      intro p q ⟨hp, hq, hle⟩
      exact ⟨hle, fun hne => absurd ((hmem p hp).trans (hmem q hq).symm) hne⟩
    · intro p hp q hq
      have h1 := h.past p hp
      have h2 := d2 q hq
      have hm := h.interval
      exact ⟨by linarith, fun _ => by rw [← hm]; linarith⟩

theorem pacingInv_step (m : ℚ) (s : Scheduler) (ev : Event) (hc : Consistent s)
    (h : PacingInv m s) (hw : ev.wellTimedAt s) : PacingInv m (step s ev) := by
  cases ev with
  | log options now =>
    show PacingInv m (log s options now)
    cases hl : mkLogEntry options now s.promises.length with
    | error e =>
      rw [log_rejected s options now e hl]
      exact ⟨h.interval, h.past, h.shifted, h.paced⟩
    | ok logEntry =>
      cases hi : s.inflight with
      | none =>
        rw [log_idle s options now logEntry hc hl hi]
        refine ⟨h.interval, h.past, ?_, h.paced⟩
        intro e t ht
        simp only [Option.some.injEq, Prod.mk.injEq] at ht
        rw [← ht.2]
        exact hw
      | some x =>
        rw [log_busy s options now logEntry hc hl (by rw [hi]; simp)]
        exact ⟨h.interval, h.past, h.shifted, h.paced⟩
  | resume env pacingOverrun =>
    show PacingInv m (resume s env pacingOverrun)
    cases hi : s.inflight with
    | none =>
      rw [resume_idle s env pacingOverrun hi]
      exact h
    | some x =>
      obtain ⟨logEntry, now⟩ := x
      obtain ⟨r1, r2⟩ := pacingInv_resume m s env pacingOverrun logEntry now h hi hw.2 hw.1
      cases hq : s.svc.rateLimitQueue with
      | nil =>
        rw [resume_last s env pacingOverrun logEntry now hi hq]
        exact ⟨h.interval, r1, (fun e t ht => by cases ht), r2⟩
      | cons next rest =>
        rw [resume_next s env pacingOverrun logEntry now next rest hi hq]
        refine ⟨h.interval, r1, ?_, r2⟩
        intro e t ht
        simp only [Option.some.injEq, Prod.mk.injEq] at ht
        rw [← ht.2]

theorem pacingInv_run (m : ℚ) (events : List Event) :
    ∀ s : Scheduler, Consistent s → PacingInv m s → wellTimed s events →
      PacingInv m (run s events) := by
  induction events with
  | nil => intro s _ h _; exact h
  | cons ev rest ih =>
    intro s hc h hw
    rw [run_cons]
    exact ih _ (consistent_step s ev hc) (pacingInv_step m s ev hc h hw.1) hw.2

theorem pacingInv_start (svc : DiscordWebhookService) :
    PacingInv svc.minInterval (Scheduler.start svc) :=
  ⟨rfl, (fun p hp => by cases hp), (fun e now h => by cases h), List.Pairwise.nil⟩

/-- C3: with `minInterval = 500`, on a monotonic clock with timers that wait at least
the requested time, every sink call for an entry happens at least 500 ms after every
earlier sink call made for another entry of the same scheduler. -/
theorem pacing_500_between_entries (svc : DiscordWebhookService) (events : List Event)
    (hmin : svc.minInterval = 500) (hw : wellTimed (Scheduler.start svc) events) :
    (run (Scheduler.start svc) events).posts.Pairwise
      (fun p q => p.entry ≠ q.entry → p.time + 500 ≤ q.time) := by
  have h := pacingInv_run svc.minInterval events (Scheduler.start svc) (consistent_start svc)
    (pacingInv_start svc) hw
  refine h.paced.imp ?_
  intro p q hpq hne
  have := hpq.2 hne
  rw [hmin] at this
  exact this

/-- C4, amended: on a monotonic clock with timers that wait at least the requested
time, for every `minInterval` and every answer of the sink, sink calls are made in time
order and any two calls made for different entries are at least `minInterval` apart. -/
theorem pacing_between_entries (svc : DiscordWebhookService) (events : List Event)
    (hw : wellTimed (Scheduler.start svc) events) :
    (run (Scheduler.start svc) events).posts.Pairwise (pacedPair svc.minInterval) :=
  (pacingInv_run svc.minInterval events (Scheduler.start svc) (consistent_start svc)
    (pacingInv_start svc) hw).paced

theorem envWellTimed_failsThenAccepts (k : Nat) (e : JsError) :
    envWellTimed (failsThenAccepts k e) := by
  intro i
  unfold failsThenAccepts
  split <;> simp [instantAttempt]

theorem mkLogEntry_empty (now : ℚ) (resolve : Nat) :
    ∃ logEntry, mkLogEntry (JsVal.object []) now resolve = Except.ok logEntry :=
  ⟨_, rfl⟩

theorem quickRetry_times (svc : DiscordWebhookService) (logEntry : LogEntry) (url : String)
    (hurl : svc.webhookUrl = some url) (hmax : 0 < svc.maxRetries)
    (hlast : svc.lastRequestTime = 0) (hmin : svc.minInterval = 500) :
    (dispatch svc quickRetry 0 logEntry 1000).posts.map Post.time = [1000, 1250] := by
  have hstart : dispatchStart svc 0 1000 = 1000 := by
    unfold dispatchStart
    simp only [hlast, hmin]
    norm_num
  have ht0 := tryBlock_posted svc (quickRetry 0) logEntry 0 1000 url (JsVal.object [])
    hurl rfl
  have hout0 : (tryBlock svc (quickRetry 0) logEntry 0 1000).outcome
      = Except.error (httpError 429 (some "0")) := by
    rw [ht0]; rfl
  have hc0 := catchBlock_rateLimited svc (httpError 429 (some "0")) ⟨429, some "0"⟩ 0
    (quickRetry 0).random rfl rfl hmax
  have hp : parseInt "0" = some 0 := parseInt_toString 0
  have hms : jsAdd (retryAfter ⟨429, some "0"⟩ 0) ((quickRetry 0).random * 1000)
      = some 250 := by
    have hne : ¬ ("0" : String).toList.length = 0 := by decide
    simp only [retryAfter, hne, if_false, hp, jsMul, jsAdd, Option.map_some']
    have : (quickRetry 0).random = 1 / 4 := rfl
    rw [this]
    norm_num
  rw [hms] at hc0
  have hwake : sleepUntil (tryBlock svc (quickRetry 0) logEntry 0 1000).finish (some 250)
      (quickRetry 0).overrun = 1250 := by
    rw [ht0]
    have h1 : (quickRetry 0).overrun = 0 := rfl
    have h2 : (quickRetry 0).buildTime = 0 := rfl
    have h3 : (quickRetry 0).postTime = 0 := rfl
    simp only [sleepUntil, h1, h2, h3, Option.getD_some]
    norm_num
  have ht1 := tryBlock_posted svc (quickRetry 1) logEntry 1 1250 url (JsVal.object [])
    hurl rfl
  have hout1 : (tryBlock svc (quickRetry 1) logEntry 1 1250).outcome
      = Except.ok (JsVal.string "ok") := by
    rw [ht1]; rfl
  unfold dispatch
  rw [hstart, sendWithRetry_retry svc quickRetry logEntry 0 1000 _ _ hout0 hc0, hwake,
    sendWithRetry_ok svc quickRetry logEntry 1 1250 _ hout1, ht0, ht1]
  have h2 : (quickRetry 0).buildTime = 0 := rfl
  have h4 : (quickRetry 1).buildTime = 0 := rfl
  simp only [List.singleton_append, List.map_cons, List.map_nil, h2, h4]
  norm_num

theorem retryHistory_times :
    (run (Scheduler.start sampleService) retryHistory).posts.map Post.time
      = [1000, 1250] := by
  obtain ⟨logEntry, hl⟩ := mkLogEntry_empty 1000 (Scheduler.start sampleService).promises.length
  have h1 := log_idle (Scheduler.start sampleService) (JsVal.object []) 1000 logEntry
    (consistent_start sampleService) hl rfl
  show (resume (log (Scheduler.start sampleService) (JsVal.object []) 1000) quickRetry 0
    ).posts.map Post.time = [1000, 1250]
  rw [h1, resume_last _ quickRetry 0 logEntry 1000 rfl rfl]
  exact quickRetry_times _ logEntry "https://discord.com/api/webhooks/1/t" rfl
    (show 0 < 3 by decide) rfl rfl

theorem envWellTimed_quickRetry : envWellTimed quickRetry := by
  intro i
  unfold quickRetry
  split <;> simp [instantAttempt]

theorem wellTimed_retryHistory : wellTimed (Scheduler.start sampleService) retryHistory := by
  refine ⟨?_, ⟨le_refl _, envWellTimed_quickRetry⟩, trivial⟩
  show (0 : ℚ) ≤ 1000
  norm_num

/-- C4 as stated fails: with `minInterval = 500`, a 429 answered with `retry-after: 0`
and a jitter draw of 1/4 is retried 250 ms after the first attempt, so two consecutive
sink calls (the attempt and its retry) are less than `minInterval` apart on a
well-timed history. -/
theorem retry_not_paced_by_minInterval :
    wellTimed (Scheduler.start sampleService) retryHistory ∧
    (run (Scheduler.start sampleService) retryHistory).posts.map Post.time = [1000, 1250] ∧
    ¬ consecutivePaced sampleService.minInterval
      (run (Scheduler.start sampleService) retryHistory).posts := by
  refine ⟨wellTimed_retryHistory, retryHistory_times, ?_⟩
  have ht := retryHistory_times
  intro hp
  unfold consecutivePaced at hp
  cases hposts : (run (Scheduler.start sampleService) retryHistory).posts with
  | nil => rw [hposts] at ht; simp at ht
  | cons p rest =>
    cases rest with
    | nil => rw [hposts] at ht; simp at ht
    | cons q rest =>
      rw [hposts] at ht hp
      simp only [List.map_cons, List.cons.injEq] at ht
      have hpq := (List.chain'_cons.mp hp).1
      rw [ht.1, ht.2.1] at hpq
      have hm : sampleService.minInterval = 500 := rfl
      rw [hm] at hpq
      norm_num at hpq

theorem wellTimed_twoEntryHistory :
    wellTimed (Scheduler.start sampleService) twoEntryHistory := by
  obtain ⟨logEntry, hl⟩ := mkLogEntry_empty 1000 (Scheduler.start sampleService).promises.length
  have h1 := log_idle (Scheduler.start sampleService) (JsVal.object []) 1000 logEntry
    (consistent_start sampleService) hl rfl
  refine ⟨?_, ?_, ⟨le_refl _, envWellTimed_failsThenAccepts _ _⟩,
    ⟨le_refl _, envWellTimed_failsThenAccepts _ _⟩, trivial⟩
  · show (0 : ℚ) ≤ 1000
    norm_num
  · show (log (Scheduler.start sampleService) (JsVal.object []) 1000).svc.lastRequestTime
      ≤ 1000
    rw [h1]
    show (0 : ℚ) ≤ 1000
    norm_num

/-- Witness for C3: two entries logged back-to-back and drained. -/
theorem pacing_500_between_entries_witness :
    wellTimed (Scheduler.start sampleService) twoEntryHistory ∧
    (run (Scheduler.start sampleService) twoEntryHistory).posts.Pairwise
      (fun p q => p.entry ≠ q.entry → p.time + 500 ≤ q.time) :=
  ⟨wellTimed_twoEntryHistory,
    pacing_500_between_entries sampleService twoEntryHistory rfl wellTimed_twoEntryHistory⟩

/-- Witness for C4 (amended): the history with an immediate retry is paced pairwise. -/
theorem pacing_between_entries_witness :
    wellTimed (Scheduler.start sampleService) retryHistory ∧
    (run (Scheduler.start sampleService) retryHistory).posts.Pairwise
      (pacedPair sampleService.minInterval) :=
  ⟨wellTimed_retryHistory,
    pacing_between_entries sampleService retryHistory wellTimed_retryHistory⟩

/-! ## Settlement of the log promises -/

theorem mkLogEntry_of_isLogOptions (options : JsVal) (now : ℚ) (id : Nat)
    (h : isLogOptions options = true) :
    ∃ logEntry, mkLogEntry options now id = Except.ok logEntry := by
  cases hm : mkLogEntry options now id with
  | ok logEntry => exact ⟨logEntry, rfl⟩
  | error e =>
    exfalso
    cases options with
    | object props =>
      simp only [isLogOptions] at h
      split at h
      · rename_i hl
        simp [mkLogEntry, JsVal.getProp, hl, JsVal.orDefault] at hm
      · rename_i lv hl
        simp [mkLogEntry, JsVal.getProp, hl, JsVal.orDefault] at hm
      · cases h
    | _ => simp [isLogOptions] at h

theorem log_promises (s : Scheduler) (options : JsVal) (now : ℚ) :
    (log s options now).promises = s.promises ++
      [match mkLogEntry options now s.promises.length with
        | Except.ok _ => PromiseState.pending
        | Except.error e => PromiseState.rejected e] := by
  cases h : mkLogEntry options now s.promises.length with
  | error e => simp [log, h]
  | ok logEntry =>
    simp only [log, h, processQueue]
    split
    · rfl
    · simp only [loopHead]
      split <;> rfl

theorem resume_promises (s : Scheduler) (env : Nat → Attempt) (pacingOverrun : ℚ) :
    (resume s env pacingOverrun).promises =
      match s.inflight with
      | none => s.promises
      | some (logEntry, now) => resolvePromise s.promises logEntry.resolve
          (settlement (dispatch s.svc env pacingOverrun logEntry now)) := by
  unfold resume
  split
  · rfl
  · simp only [loopHead]
    split <;> rfl

theorem resolvePromise_fulfilled (promises : List PromiseState) (id j : Nat)
    (value v : DeliveryResult) (h : promises[id]? = some (PromiseState.fulfilled v)) :
    (resolvePromise promises j value)[id]? = some (PromiseState.fulfilled v) := by
  unfold resolvePromise
  split
  · rename_i hj
    by_cases hij : j = id
    · subst hij
      rw [h] at hj
      cases hj
    · rw [List.getElem?_set_ne hij]
      exact h
  · exact h

theorem step_fulfilled (s : Scheduler) (ev : Event) (id : Nat) (v : DeliveryResult)
    (h : s.promises[id]? = some (PromiseState.fulfilled v)) :
    (step s ev).promises[id]? = some (PromiseState.fulfilled v) := by
  cases ev with
  | log options now =>
    show (log s options now).promises[id]? = _
    rw [log_promises]
    have hlt : id < s.promises.length := by
      by_contra hge
      rw [List.getElem?_eq_none (by omega)] at h
      cases h
    rw [List.getElem?_append_left hlt]
    exact h
  | resume env pacingOverrun =>
    show (resume s env pacingOverrun).promises[id]? = _
    rw [resume_promises]
    split
    · exact h
    · exact resolvePromise_fulfilled _ _ _ _ _ h

theorem run_fulfilled (events : List Event) :
    ∀ (s : Scheduler) (id : Nat) (v : DeliveryResult),
      s.promises[id]? = some (PromiseState.fulfilled v) →
      (run s events).promises[id]? = some (PromiseState.fulfilled v) := by
  induction events with
  | nil => intro s id v h; exact h
  | cons ev rest ih =>
    intro s id v h
    rw [run_cons]
    exact ih _ id v (step_fulfilled s ev id v h)

theorem waiting_of_idle (s : Scheduler) (hc : Consistent s) (hi : s.inflight = none) :
    waiting s = [] := by
  simp [waiting, hi, hc.idle hi]

theorem waiting_of_inflight (s : Scheduler) (logEntry : LogEntry) (now : ℚ)
    (hi : s.inflight = some (logEntry, now)) :
    waiting s = logEntry :: s.svc.rateLimitQueue := by
  simp [waiting, hi]

theorem waiting_log (s : Scheduler) (options : JsVal) (now : ℚ) (logEntry : LogEntry)
    (hc : Consistent s) (h : mkLogEntry options now s.promises.length = Except.ok logEntry) :
    waiting (log s options now) = waiting s ++ [logEntry] ∧
    (log s options now).svc.rateLimitQueue.length = (waiting s).length := by
  cases hi : s.inflight with
  | none =>
    rw [log_idle s options now logEntry hc h hi, waiting_of_idle s hc hi]
    simp [waiting]
  | some x =>
    rw [log_busy s options now logEntry hc h (by rw [hi]; simp)]
    simp [waiting, hi]

theorem waiting_resume (s : Scheduler) (env : Nat → Attempt) (pacingOverrun : ℚ)
    (hc : Consistent s) : waiting (resume s env pacingOverrun) = (waiting s).tail := by
  cases hi : s.inflight with
  | none =>
    rw [resume_idle s env pacingOverrun hi, waiting_of_idle s hc hi]
    rfl
  | some x =>
    obtain ⟨logEntry, now⟩ := x
    rw [waiting_of_inflight s logEntry now hi]
    cases hq : s.svc.rateLimitQueue with
    | nil =>
      rw [resume_last s env pacingOverrun logEntry now hi hq]
      simp [waiting, hq]
    | cons next rest =>
      rw [resume_next s env pacingOverrun logEntry now next rest hi hq]
      simp [waiting, hq]

theorem pending_lt (s : Scheduler) (h : PromiseInv s) (e : LogEntry) (he : e ∈ waiting s) :
    e.resolve < s.promises.length := by
  have hp := h.pending e he
  by_contra hge
  rw [List.getElem?_eq_none (by omega)] at hp
  cases hp

theorem promiseInv_start (svc : DiscordWebhookService) : PromiseInv (Scheduler.start svc) :=
  ⟨by simp [waiting, Scheduler.start], by simp [waiting, Scheduler.start]⟩

theorem promiseInv_step (s : Scheduler) (ev : Event) (hc : Consistent s)
    (h : PromiseInv s) : PromiseInv (step s ev) := by
  cases ev with
  | log options now =>
    show PromiseInv (log s options now)
    cases hl : mkLogEntry options now s.promises.length with
    | error e =>
      rw [log_rejected s options now e hl]
      refine ⟨h.nodup, ?_⟩
      intro x hx
      show (s.promises ++ [PromiseState.rejected e])[x.resolve]? = _
      rw [List.getElem?_append_left (pending_lt s h x hx)]
      exact h.pending x hx
    | ok logEntry =>
      obtain ⟨hw, _⟩ := waiting_log s options now logEntry hc hl
      have hres := mkLogEntry_resolve options now _ logEntry hl
      constructor
      · rw [hw, List.map_append, List.nodup_append]
        refine ⟨h.nodup, by simp, ?_⟩
        intro a ha hb
        simp only [List.map_cons, List.map_nil, List.mem_singleton] at hb
        obtain ⟨x, hx, rfl⟩ := List.mem_map.mp ha
        have := pending_lt s h x hx
        omega
      · intro x hx
        rw [hw] at hx
        rw [log_promises, hl]
        rcases List.mem_append.mp hx with hx | hx
        · rw [List.getElem?_append_left (pending_lt s h x hx)]
          exact h.pending x hx
        · simp only [List.mem_singleton] at hx
          subst hx
          rw [hres]
          simp
  | resume env pacingOverrun =>
    show PromiseInv (resume s env pacingOverrun)
    cases hi : s.inflight with
    | none =>
      rw [resume_idle s env pacingOverrun hi]
      exact h
    | some x =>
      obtain ⟨logEntry, now⟩ := x
      have hw := waiting_resume s env pacingOverrun hc
      have hws := waiting_of_inflight s logEntry now hi
      have hnd := h.nodup
      rw [hws] at hw hnd
      simp only [List.tail_cons] at hw
      simp only [List.map_cons, List.nodup_cons] at hnd
      constructor
      · rw [hw]
        exact hnd.2
      · intro x hx
        rw [hw] at hx
        have hxw : x ∈ waiting s := by rw [hws]; exact List.mem_cons_of_mem _ hx
        have hne : logEntry.resolve ≠ x.resolve := by
          intro heq
          exact hnd.1 (heq ▸ List.mem_map_of_mem LogEntry.resolve hx)
        rw [resume_promises, hi]
        simp only [resolvePromise]
        split
        · rw [List.getElem?_set_ne hne]
          exact h.pending x hxw
        · exact h.pending x hxw

theorem tracked_run (events : List Event) :
    ∀ (s : Scheduler) (k : Nat) (e : LogEntry), Consistent s → PromiseInv s →
      (waiting s)[k]? = some e →
      ((run s events).promises[e.resolve]? = some PromiseState.pending ∨
        ∃ v, (run s events).promises[e.resolve]? = some (PromiseState.fulfilled v)) ∧
      (k < resumeCount events →
        ∃ v, (run s events).promises[e.resolve]? = some (PromiseState.fulfilled v)) := by
  induction events with
  | nil =>
    intro s k e _ hp hk
    refine ⟨Or.inl (hp.pending e (List.getElem?_mem hk)), ?_⟩
    intro h
    simp [resumeCount] at h
  | cons ev rest ih =>
    intro s k e hc hp hk
    have hc2 := consistent_step s ev hc
    have hp2 := promiseInv_step s ev hc hp
    rw [run_cons]
    cases ev with
    | log options now =>
      have hcount : resumeCount (Event.log options now :: rest) = resumeCount rest := by
        simp [resumeCount, Event.isResume]
      rw [hcount]
      have hk2 : (waiting (step s (Event.log options now)))[k]? = some e := by
        show (waiting (log s options now))[k]? = some e
        cases hl : mkLogEntry options now s.promises.length with
        | error err =>
          rw [log_rejected s options now err hl]
          exact hk
        | ok logEntry =>
          rw [(waiting_log s options now logEntry hc hl).1]
          have hlt : k < (waiting s).length := by
            by_contra hge
            rw [List.getElem?_eq_none (by omega)] at hk
            cases hk
          rw [List.getElem?_append_left hlt]
          exact hk
      exact ih _ k e hc2 hp2 hk2
    | resume env pacingOverrun =>
      have hcount : resumeCount (Event.resume env pacingOverrun :: rest)
          = resumeCount rest + 1 := by
        simp [resumeCount, Event.isResume]
      rw [hcount]
      have hw : waiting (step s (Event.resume env pacingOverrun)) = (waiting s).tail :=
        waiting_resume s env pacingOverrun hc
      cases k with
      | zero =>
        have hfil : ∃ v, (step s (Event.resume env pacingOverrun)).promises[e.resolve]?
            = some (PromiseState.fulfilled v) := by
          show ∃ v, (resume s env pacingOverrun).promises[e.resolve]? = _
          cases hi : s.inflight with
          | none =>
            rw [waiting_of_idle s hc hi] at hk
            cases hk
          | some x =>
            obtain ⟨logEntry, now⟩ := x
            rw [waiting_of_inflight s logEntry now hi] at hk
            simp only [List.getElem?_cons_zero, Option.some.injEq] at hk
            subst hk
            have hpend := hp.pending logEntry (by rw [waiting_of_inflight s logEntry now hi]; simp)
            have hlt := pending_lt s hp logEntry
              (by rw [waiting_of_inflight s logEntry now hi]; simp)
            refine ⟨settlement (dispatch s.svc env pacingOverrun logEntry now), ?_⟩
            rw [resume_promises, hi]
            simp only [resolvePromise, hpend]
            rw [List.getElem?_set_eq_of_lt _ hlt]
        obtain ⟨v, hv⟩ := hfil
        have := run_fulfilled rest _ e.resolve v hv
        exact ⟨Or.inr ⟨v, this⟩, fun _ => ⟨v, this⟩⟩
      | succ k =>
        have hk2 : (waiting (step s (Event.resume env pacingOverrun)))[k]? = some e := by
          rw [hw]
          cases hws : waiting s with
          | nil => rw [hws] at hk; cases hk
          | cons a w =>
            rw [hws] at hk
            simpa using hk
        obtain ⟨i1, i2⟩ := ih _ k e hc2 hp2 hk2
        exact ⟨i1, fun hlt => i2 (by omega)⟩

theorem promiseInv_run (events : List Event) :
    ∀ s : Scheduler, Consistent s → PromiseInv s → PromiseInv (run s events) := by
  induction events with
  | nil => intro s _ h; exact h
  | cons ev rest ih =>
    intro s hc h
    rw [run_cons]
    exact ih _ (consistent_step s ev hc) (promiseInv_step s ev hc h)

/-- C2 as stated fails: `log` called with `level: 42` returns a promise that is rejected
(`level.toUpperCase` is not a function), and nothing is enqueued. -/
theorem log_rejects_non_string_level :
    (log (Scheduler.start sampleService) badLevelOptions 0).promises[0]?
      = some (PromiseState.rejected (typeError "level.toUpperCase is not a function")) ∧
    (log (Scheduler.start sampleService) badLevelOptions 0).enqueued = [] := by
  constructor <;> rfl

/-- C2, amended: for every `options` object whose `level` is absent or a string, after
any history, whatever the sink and the payload builder do, the promise returned by `log`
is never rejected, and once the drain loop has finished the entries ahead of it and its
own (one drain step each) it is fulfilled with `success: true, result` or
`success: false, error`. -/
theorem log_promise_fulfilled (svc : DiscordWebhookService) (before after : List Event)
    (options : JsVal) (now : ℚ) (hopt : isLogOptions options = true) :
    (∀ reason,
      (run (log (run (Scheduler.start svc) before) options now) after).promises[
        (run (Scheduler.start svc) before).promises.length]?
        ≠ some (PromiseState.rejected reason)) ∧
    ((log (run (Scheduler.start svc) before) options now).svc.rateLimitQueue.length
        < resumeCount after →
      ∃ value,
        (run (log (run (Scheduler.start svc) before) options now) after).promises[
          (run (Scheduler.start svc) before).promises.length]?
          = some (PromiseState.fulfilled value)) := by
  have hc := consistent_run before (Scheduler.start svc) (consistent_start svc)
  have hp := promiseInv_run before (Scheduler.start svc) (consistent_start svc)
    (promiseInv_start svc)
  obtain ⟨logEntry, hl⟩ := mkLogEntry_of_isLogOptions options now
    (run (Scheduler.start svc) before).promises.length hopt
  have hres := mkLogEntry_resolve options now _ logEntry hl
  obtain ⟨hw, hq⟩ := waiting_log _ options now logEntry hc hl
  have hk : (waiting (log (run (Scheduler.start svc) before) options now))[
      (waiting (run (Scheduler.start svc) before)).length]? = some logEntry := by
    rw [hw]
    simp
  have hc2 : Consistent (log (run (Scheduler.start svc) before) options now) :=
    consistent_step _ (Event.log options now) hc
  have hp2 : PromiseInv (log (run (Scheduler.start svc) before) options now) :=
    promiseInv_step _ (Event.log options now) hc hp
  obtain ⟨t1, t2⟩ := tracked_run after _ _ logEntry hc2 hp2 hk
  rw [hres] at t1 t2
  constructor
  · intro reason hr
    rcases t1 with h | ⟨v, h⟩ <;> rw [h] at hr <;> cases hr
  · intro hlt
    exact t2 (by rw [← hq]; exact hlt)

/-- Witness for C2 (amended): `log({})` on a fresh service, then one drain step. -/
theorem log_promise_fulfilled_witness :
    ∃ value,
      (run (log (run (Scheduler.start sampleService) []) (JsVal.object []) 1000)
        [Event.resume quickRetry 0]).promises[
          (run (Scheduler.start sampleService) []).promises.length]?
        = some (PromiseState.fulfilled value) :=
  (log_promise_fulfilled sampleService [] [Event.resume quickRetry 0] (JsVal.object [])
    1000 rfl).2 (by decide)

/-! ## Claims on jitter, the overflow threshold and the health check -/

/-- C11 (the code departs from it): after a network fault (no response, any `code`) the
`catch` block gives the same answer for every random draw, so the delay has no jitter
term: it is exactly 1000 ms at `retryCount = 0` for ECONNRESET and 2000 ms at
`retryCount = 1` for ETIMEDOUT, whatever the draw. The 429 branch does add the draw
times 1000. -/
theorem network_fault_delay_without_jitter :
    (∀ (svc : DiscordWebhookService) (code : Option String) (message : Option String)
        (retryCount : Nat) (r₁ r₂ : ℚ),
      catchBlock svc ⟨none, code, message⟩ retryCount r₁
        = catchBlock svc ⟨none, code, message⟩ retryCount r₂) ∧
    (∀ r : ℚ, catchBlock sampleService (networkError "ECONNRESET") 0 r
      = CatchAction.sleepThenRetry (some 1000)) ∧
    (∀ r : ℚ, catchBlock sampleService (networkError "ETIMEDOUT") 1 r
      = CatchAction.sleepThenRetry (some 2000)) ∧
    (∀ r : ℚ, catchBlock sampleService (httpError 429 none) 0 r
      = CatchAction.sleepThenRetry (some (1000 + r * 1000))) := by
  refine ⟨fun _ _ _ _ _ _ => rfl, ?_, ?_, ?_⟩
  · intro r
    have h : (2 : ℚ) ^ 0 * 1000 = 1000 := by norm_num
    simp only [catchBlock, networkFaultBranch, networkError]
    rw [if_pos (by decide)]
    rw [h]
  · intro r
    have h : (2 : ℚ) ^ 1 * 1000 = 2000 := by norm_num
    simp only [catchBlock, networkFaultBranch, networkError]
    rw [if_pos (by decide)]
    rw [h]
  · intro r
    rw [catchBlock_rateLimited _ _ ⟨429, none⟩ 0 r rfl rfl (by decide)]
    simp only [retryAfter, jsAdd, Option.map_some']
    norm_num

theorem shouldUpload_string (rt : Runtime) (g : GitHubStorageService) (text : String) :
    shouldUploadToGitHub rt g (JsVal.string text) none
      = decide (text.length > g.contentThreshold) := rfl

theorem contentText_string (rt : Runtime) (text : String) :
    contentText rt (JsVal.string text) = text := rfl

/-- C12: for every threshold held by the service and every string content, a string one
character longer than `contentThreshold` makes `processContentForDiscord` call
`uploadToGitHub` (once, with that content), and a non-empty string of exactly
`contentThreshold` characters makes it call nothing. -/
theorem overflow_threshold (rt : Runtime) (g : GitHubStorageService) (env : StoreEnv)
    (over fits : String) (functionName fileName : JsVal) (type : String)
    (hover : over.length = g.contentThreshold + 1)
    (hfits : fits.length = g.contentThreshold) (hne : fits.length ≠ 0) :
    (processContentForDiscord rt g env (JsVal.string over) functionName fileName type
      ).uploadCalls = [⟨JsVal.string over, functionName, fileName, type⟩] ∧
    (processContentForDiscord rt g env (JsVal.string fits) functionName fileName type
      ).uploadCalls = [] ∧
    (processContentForDiscord rt g env (JsVal.string fits) functionName fileName type
      ).requests = [] := by
  have ho : (JsVal.string over).truthy = true := by
    simp [JsVal.truthy, hover]
  have hf : (JsVal.string fits).truthy = true := by
    simp [JsVal.truthy, hne]
  have hso : shouldUploadToGitHub rt g (JsVal.string over) none = true := by
    rw [shouldUpload_string]
    simp [hover]
  have hsf : shouldUploadToGitHub rt g (JsVal.string fits) none = false := by
    rw [shouldUpload_string]
    simp [hfits]
  refine ⟨?_, ?_, ?_⟩
  · simp only [processContentForDiscord, ho, contentText_string, hso]
    simp only [Bool.not_true, Bool.false_eq_true, if_false]
    split <;> rfl
  · simp [processContentForDiscord, hf, contentText_string, hsf, typeofObject]
  · simp [processContentForDiscord, hf, contentText_string, hsf, typeofObject]

/-- Witness for C12: threshold 2, the strings "abc" and "ab". -/
theorem overflow_threshold_witness :
    (processContentForDiscord sampleRuntime smallThresholdStorage acceptingStore
        (JsVal.string "abc") (JsVal.string "f") (JsVal.string "g") "data").uploadCalls
      = [⟨JsVal.string "abc", JsVal.string "f", JsVal.string "g", "data"⟩] ∧
    (processContentForDiscord sampleRuntime smallThresholdStorage acceptingStore
        (JsVal.string "ab") (JsVal.string "f") (JsVal.string "g") "data").uploadCalls = [] ∧
    (processContentForDiscord sampleRuntime smallThresholdStorage acceptingStore
        (JsVal.string "ab") (JsVal.string "f") (JsVal.string "g") "data").requests = [] :=
  overflow_threshold sampleRuntime smallThresholdStorage acceptingStore "abc" "ab"
    (JsVal.string "f") (JsVal.string "g") "data" (by decide) (by decide) (by decide)

/-- C16: the aggregate status of `LoggerService.healthCheck` is `error` exactly when one
of the two backend reports is `error`, `disabled` exactly when both are `disabled`, and
`healthy` in every other case; a logger without webhook URL and without token reports
`disabled` three times and sends no request, whatever the environment. -/
theorem health_aggregate (l : LoggerService) (env : HealthEnv)
    (discord : DiscordWebhookService) (github : GitHubStorageService) :
    ((l.healthCheck env).overall = HealthStatus.error ↔
      (l.healthCheck env).discord.status = HealthStatus.error ∨
      (l.healthCheck env).github.status = HealthStatus.error) ∧
    ((l.healthCheck env).overall = HealthStatus.disabled ↔
      (l.healthCheck env).discord.status = HealthStatus.disabled ∧
      (l.healthCheck env).github.status = HealthStatus.disabled) ∧
    ((l.healthCheck env).overall = HealthStatus.healthy ↔
      ¬ ((l.healthCheck env).discord.status = HealthStatus.error ∨
        (l.healthCheck env).github.status = HealthStatus.error) ∧
      ¬ ((l.healthCheck env).discord.status = HealthStatus.disabled ∧
        (l.healthCheck env).github.status = HealthStatus.disabled)) ∧
    ((⟨{ discord with webhookUrl := none }, { github with githubToken := none }⟩ :
        LoggerService).healthCheck env).discord.status = HealthStatus.disabled ∧
    ((⟨{ discord with webhookUrl := none }, { github with githubToken := none }⟩ :
        LoggerService).healthCheck env).github.status = HealthStatus.disabled ∧
    ((⟨{ discord with webhookUrl := none }, { github with githubToken := none }⟩ :
        LoggerService).healthCheck env).overall = HealthStatus.disabled ∧
    ((⟨{ discord with webhookUrl := none }, { github with githubToken := none }⟩ :
        LoggerService).healthCheck env).requests = [] := by
  have hagg : ∀ d g : HealthStatus,
      (overallStatus d g = HealthStatus.error ↔ d = HealthStatus.error ∨ g = HealthStatus.error) ∧
      (overallStatus d g = HealthStatus.disabled ↔
        d = HealthStatus.disabled ∧ g = HealthStatus.disabled) ∧
      (overallStatus d g = HealthStatus.healthy ↔
        ¬ (d = HealthStatus.error ∨ g = HealthStatus.error) ∧
        ¬ (d = HealthStatus.disabled ∧ g = HealthStatus.disabled)) := by
    intro d g
    cases d <;> cases g <;> simp [overallStatus]
  obtain ⟨h1, h2, h3⟩ := hagg (l.discord.healthCheck env.discordGet env.discordDate).report.status
    (l.github.healthCheck env.githubGet env.githubDate).report.status
  refine ⟨h1, h2, h3, rfl, rfl, rfl, rfl⟩

/-- C17 (the code departs from it): `configure` with both keys `null` changes nothing,
for every logger; a logger whose webhook URL was configured keeps it after the reset and
its health check does not report `disabled` for discord nor overall, and sends a
request. -/
theorem reset_keeps_configuration :
    (∀ l : LoggerService, l.configure resetConfig = (l, none)) ∧
    (configuredLogger.configure resetConfig).1.discord.webhookUrl = some mockWebhookUrl ∧
    (∀ env : HealthEnv,
      ((configuredLogger.configure resetConfig).1.healthCheck env).discord.status
        ≠ HealthStatus.disabled ∧
      ((configuredLogger.configure resetConfig).1.healthCheck env).overall
        ≠ HealthStatus.disabled ∧
      ((configuredLogger.configure resetConfig).1.healthCheck env).requests
        = [mockWebhookUrl]) := by
  refine ⟨fun _ => rfl, rfl, ?_⟩
  intro env
  have hd : ((configuredLogger.configure resetConfig).1.healthCheck env).discord.status
      ≠ HealthStatus.disabled := by
    show (configuredLogger.discord.healthCheck env.discordGet env.discordDate).report.status ≠ _
    unfold DiscordWebhookService.healthCheck
    rw [if_neg (by decide)]
    split
    · simp
    · split <;> simp
  refine ⟨hd, ?_, ?_⟩
  · intro h
    have hagg : ∀ d g : HealthStatus, overallStatus d g = HealthStatus.disabled →
        d = HealthStatus.disabled := by
      intro d g
      cases d <;> cases g <;> simp [overallStatus]
    exact hd (hagg _ _ h)
  · show (configuredLogger.discord.healthCheck env.discordGet env.discordDate).requests
      ++ (configuredLogger.github.healthCheck env.githubGet env.githubDate).requests = _
    have h1 : (configuredLogger.discord.healthCheck env.discordGet env.discordDate).requests
        = [mockWebhookUrl] := by
      unfold DiscordWebhookService.healthCheck
      rw [if_neg (by decide)]
      split
      · rfl
      · split <;> rfl
    have h2 : (configuredLogger.github.healthCheck env.githubGet env.githubDate).requests
        = [] := rfl
    rw [h1, h2]
    rfl

/-! ## Correctness of the matcher -/

theorem Regex.matches_never (cs : List Char) : ¬ Regex.Matches Regex.never cs := by
  intro h
  cases h

theorem Regex.matches_eps (cs : List Char) : Regex.Matches Regex.eps cs ↔ cs = [] := by
  constructor
  · intro h
    cases h
    rfl
  · intro h
    subst h
    exact Regex.Matches.eps

theorem Regex.matches_sym (p : Char → Bool) (cs : List Char) :
    Regex.Matches (Regex.sym p) cs ↔ ∃ c, cs = [c] ∧ p c = true := by
  constructor
  · intro h
    cases h with
    | sym _ c hc => exact ⟨c, rfl, hc⟩
  · rintro ⟨c, rfl, hc⟩
    exact Regex.Matches.sym p c hc

theorem Regex.matches_seq (r s : Regex) (cs : List Char) :
    Regex.Matches (Regex.seq r s) cs ↔
      ∃ a b, cs = a ++ b ∧ Regex.Matches r a ∧ Regex.Matches s b := by
  constructor
  · intro h
    cases h with
    | seq _ _ a b hr hs => exact ⟨a, b, rfl, hr, hs⟩
  · rintro ⟨a, b, rfl, hr, hs⟩
    exact Regex.Matches.seq r s a b hr hs

theorem Regex.matches_alt (r s : Regex) (cs : List Char) :
    Regex.Matches (Regex.alt r s) cs ↔ Regex.Matches r cs ∨ Regex.Matches s cs := by
  constructor
  · intro h
    cases h with
    | altLeft _ _ _ hr => exact Or.inl hr
    | altRight _ _ _ hs => exact Or.inr hs
  · rintro (h | h)
    · exact Regex.Matches.altLeft r s cs h
    · exact Regex.Matches.altRight r s cs h

theorem Regex.matches_star_cases (r : Regex) (cs : List Char)
    (h : Regex.Matches (Regex.star r) cs) :
    cs = [] ∨ ∃ a b, a ≠ [] ∧ cs = a ++ b ∧ Regex.Matches r a
      ∧ Regex.Matches (Regex.star r) b := by
  generalize hq : Regex.star r = q at h
  induction h with
  | eps => cases hq
  | sym => cases hq
  | seq => cases hq
  | altLeft => cases hq
  | altRight => cases hq
  | starNil => exact Or.inl rfl
  | starCons r2 a b hr hs _ ih2 =>
    cases hq
    cases a with
    | nil =>
      rcases ih2 rfl with h | h
      · left
        simpa using h
      · right
        simpa using h
    | cons c a =>
      right
      exact ⟨c :: a, b, by simp, rfl, hr, hs⟩

theorem Regex.nullable_iff (r : Regex) : r.nullable = true ↔ Regex.Matches r [] := by
  induction r with
  | never => simp [Regex.nullable, Regex.matches_never]
  | eps => simp [Regex.nullable, Regex.matches_eps]
  | sym p => simp [Regex.nullable, Regex.matches_sym]
  | seq r s ihr ihs =>
    simp only [Regex.nullable, Bool.and_eq_true, ihr, ihs, Regex.matches_seq]
    constructor
    · rintro ⟨h1, h2⟩
      exact ⟨[], [], rfl, h1, h2⟩
    · rintro ⟨a, b, hab, h1, h2⟩
      have ha : a = [] := (List.append_eq_nil.mp hab.symm).1
      have hb : b = [] := (List.append_eq_nil.mp hab.symm).2
      subst ha hb
      exact ⟨h1, h2⟩
  | alt r s ihr ihs =>
    simp only [Regex.nullable, Bool.or_eq_true, ihr, ihs, Regex.matches_alt]
  | star r _ =>
    simp only [Regex.nullable, true_iff]
    exact Regex.Matches.starNil r

theorem Regex.deriv_iff (r : Regex) : ∀ (c : Char) (cs : List Char),
    Regex.Matches (r.deriv c) cs ↔ Regex.Matches r (c :: cs) := by
  induction r with
  | never =>
    intro c cs
    simp [Regex.deriv, Regex.matches_never]
  | eps =>
    intro c cs
    simp [Regex.deriv, Regex.matches_never, Regex.matches_eps]
  | sym p =>
    intro c cs
    simp only [Regex.deriv, Regex.matches_sym]
    by_cases hp : p c = true
    · simp only [hp, if_true, Regex.matches_eps]
      constructor
      · intro h
        subst h
        exact ⟨c, rfl, hp⟩
      · rintro ⟨d, hd, _⟩
        exact (List.cons.inj hd).2
    · have hp2 : p c = false := by simpa using hp
      simp only [hp2, Bool.false_eq_true, if_false, Regex.matches_never, false_iff]
      rintro ⟨d, hd, hpd⟩
      have : c = d := (List.cons.inj hd).1
      subst this
      exact hp hpd
  | seq r s ihr ihs =>
    intro c cs
    have key : Regex.Matches (Regex.seq r s) (c :: cs) ↔
        (∃ a b, cs = a ++ b ∧ Regex.Matches r (c :: a) ∧ Regex.Matches s b) ∨
        (Regex.Matches r [] ∧ Regex.Matches s (c :: cs)) := by
      rw [Regex.matches_seq]
      constructor
      · rintro ⟨a, b, hab, hr, hs⟩
        cases a with
        | nil =>
          right
          simp only [List.nil_append] at hab
          subst hab
          exact ⟨hr, hs⟩
        | cons d a =>
          left
          simp only [List.cons_append, List.cons.injEq] at hab
          obtain ⟨hd, hab⟩ := hab
          subst hd
          exact ⟨a, b, hab, hr, hs⟩
      · rintro (⟨a, b, hab, hr, hs⟩ | ⟨hr, hs⟩)
        · exact ⟨c :: a, b, by simp [hab], hr, hs⟩
        · exact ⟨[], c :: cs, rfl, hr, hs⟩
    rw [key]
    simp only [Regex.deriv]
    by_cases hn : r.nullable = true
    · simp only [hn, if_true, Regex.matches_alt, Regex.matches_seq, ihr, ihs]
      have := (Regex.nullable_iff r).mp hn
      constructor
      · rintro (h | h)
        · exact Or.inl h
        · exact Or.inr ⟨this, h⟩
      · rintro (h | ⟨_, h⟩)
        · exact Or.inl h
        · exact Or.inr h
    · have hn2 : ¬ Regex.Matches r [] := fun h => hn ((Regex.nullable_iff r).mpr h)
      simp only [hn, Bool.false_eq_true, if_false, Regex.matches_seq, ihr]
      constructor
      · intro h
        exact Or.inl h
      · rintro (h | ⟨h, _⟩)
        · exact h
        · exact absurd h hn2
  | alt r s ihr ihs =>
    intro c cs
    simp only [Regex.deriv, Regex.matches_alt, ihr, ihs]
  | star r ihr =>
    intro c cs
    simp only [Regex.deriv, Regex.matches_seq, ihr]
    constructor
    · rintro ⟨a, b, hab, hr, hs⟩
      have := Regex.Matches.starCons r (c :: a) b hr hs
      simpa [hab] using this
    · intro h
      rcases Regex.matches_star_cases r (c :: cs) h with h | ⟨a, b, hne, hab, hr, hs⟩
      · cases h
      · cases a with
        | nil => exact absurd rfl hne
        | cons d a =>
          simp only [List.cons_append, List.cons.injEq] at hab
          obtain ⟨hd, hab⟩ := hab
          subst hd
          exact ⟨a, b, hab, hr, hs⟩

theorem Regex.test_iff (cs : List Char) : ∀ r : Regex,
    r.test cs = true ↔ Regex.Matches r cs := by
  induction cs with
  | nil =>
    intro r
    exact Regex.nullable_iff r
  | cons c cs ih =>
    intro r
    simp only [Regex.test]
    rw [ih, Regex.deriv_iff]

/-! ## The language of the webhook pattern -/

theorem classDigit_eq (c : Char) : classDigit c = c.isDigit := by
  unfold classDigit Char.isDigit Char.toNat
  rw [Bool.eq_iff_iff]
  simp only [Bool.and_eq_true, decide_eq_true_eq, ge_iff_le, UInt32.le_def]
  rfl

theorem char_eq_of_toNat (c d : Char) (h : c.toNat = d.toNat) : c = d := by
  rw [← Char.ofNat_toNat c, ← Char.ofNat_toNat d, h]

theorem char_eq_iff_toNat (c d : Char) : c = d ↔ c.toNat = d.toNat :=
  ⟨fun h => by rw [h], char_eq_of_toNat c d⟩

theorem isAlphanum_iff (c : Char) :
    c.isAlphanum = true ↔
      (97 ≤ c.toNat ∧ c.toNat ≤ 122) ∨ (65 ≤ c.toNat ∧ c.toNat ≤ 90)
        ∨ (48 ≤ c.toNat ∧ c.toNat ≤ 57) := by
  unfold Char.isAlphanum Char.isAlpha Char.isUpper Char.isLower Char.isDigit Char.toNat
  simp only [Bool.or_eq_true, Bool.and_eq_true, decide_eq_true_eq, ge_iff_le, UInt32.le_def]
  constructor
  · rintro ((h | h) | h)
    · exact Or.inr (Or.inl h)
    · exact Or.inl h
    · exact Or.inr (Or.inr h)
  · rintro (h | h | h)
    · exact Or.inl (Or.inr h)
    · exact Or.inl (Or.inl h)
    · exact Or.inr h

theorem classWord_iff (c : Char) :
    (classWord c || c == '-') = true ↔ (c.isAlphanum = true ∨ c = '_' ∨ c = '-') := by
  rw [isAlphanum_iff, char_eq_iff_toNat c '_', char_eq_iff_toNat c '-']
  have h1 : ('_' : Char).toNat = 95 := rfl
  have h2 : ('-' : Char).toNat = 45 := rfl
  rw [h1, h2]
  unfold classWord
  simp only [Bool.or_eq_true, Bool.and_eq_true, decide_eq_true_eq, beq_iff_eq]
  rw [char_eq_iff_toNat c '-', h2]
  constructor
  · rintro ((((h | h) | h) | h) | h)
    · exact Or.inl (Or.inl h)
    · exact Or.inl (Or.inr (Or.inl h))
    · exact Or.inl (Or.inr (Or.inr h))
    · exact Or.inr (Or.inl h)
    · exact Or.inr (Or.inr h)
  · rintro ((h | h | h) | h | h)
    · exact Or.inl (Or.inl (Or.inl (Or.inl h)))
    · exact Or.inl (Or.inl (Or.inl (Or.inr h)))
    · exact Or.inl (Or.inl (Or.inr h))
    · exact Or.inl (Or.inr h)
    · exact Or.inr h

theorem Regex.matches_lit_chars (text : List Char) : ∀ cs : List Char,
    Regex.Matches
      (text.foldr (fun c r => Regex.seq (Regex.sym (fun x => x == c)) r) Regex.eps) cs
      ↔ cs = text := by
  induction text with
  | nil =>
    intro cs
    simp [Regex.matches_eps]
  | cons c text ih =>
    intro cs
    simp only [List.foldr_cons, Regex.matches_seq, Regex.matches_sym, ih]
    constructor
    · rintro ⟨a, b, hab, ⟨d, hd, hdc⟩, hb⟩
      have : d = c := by simpa using hdc
      subst this hd hb
      simpa using hab
    · intro h
      exact ⟨[c], text, by simp [h], ⟨c, rfl, by simp⟩, rfl⟩

theorem Regex.matches_lit (text : String) (cs : List Char) :
    Regex.Matches (Regex.lit text) cs ↔ cs = text.toList :=
  Regex.matches_lit_chars text.toList cs

theorem Regex.matches_star_sym (p : Char → Bool) (cs : List Char) :
    Regex.Matches (Regex.star (Regex.sym p)) cs ↔ ∀ c ∈ cs, p c = true := by
  constructor
  · intro h
    generalize hq : Regex.star (Regex.sym p) = q at h
    induction h with
    | eps => cases hq
    | sym => cases hq
    | seq => cases hq
    | altLeft => cases hq
    | altRight => cases hq
    | starNil => simp
    | starCons r a b hr _ _ ih2 =>
      cases hq
      obtain ⟨d, hd, hpd⟩ := (Regex.matches_sym p a).mp hr
      subst hd
      intro c hc
      rcases List.mem_append.mp hc with hc | hc
      · simp only [List.mem_singleton] at hc
        subst hc
        exact hpd
      · exact ih2 rfl c hc
  · intro h
    induction cs with
    | nil => exact Regex.Matches.starNil _
    | cons c cs ih =>
      have h1 := Regex.Matches.sym p c (h c (List.mem_cons_self _ _))
      have h2 := ih (fun d hd => h d (List.mem_cons_of_mem _ hd))
      exact Regex.Matches.starCons _ [c] cs h1 h2

theorem Regex.matches_plus_sym (p : Char → Bool) (cs : List Char) :
    Regex.Matches (Regex.plus (Regex.sym p)) cs ↔ cs ≠ [] ∧ ∀ c ∈ cs, p c = true := by
  unfold Regex.plus
  simp only [Regex.matches_seq, Regex.matches_sym, Regex.matches_star_sym]
  constructor
  · rintro ⟨a, b, hab, ⟨d, hd, hpd⟩, hb⟩
    subst hd hab
    refine ⟨by simp, ?_⟩
    intro c hc
    rcases List.mem_append.mp hc with hc | hc
    · simp only [List.mem_singleton] at hc
      subst hc
      exact hpd
    · exact hb c hc
  · rintro ⟨hne, h⟩
    cases cs with
    | nil => exact absurd rfl hne
    | cons c cs =>
      exact ⟨[c], cs, rfl, ⟨c, rfl, h c (List.mem_cons_self _ _)⟩,
        fun d hd => h d (List.mem_cons_of_mem _ hd)⟩

theorem webhookRegex_matches (cs : List Char) :
    Regex.Matches webhookRegex cs ↔
      ∃ host id token : List Char,
        (host = "discord.com".toList ∨ host = "discordapp.com".toList) ∧
        (id ≠ [] ∧ ∀ c ∈ id, classDigit c = true) ∧
        (token ≠ [] ∧ ∀ c ∈ token, (classWord c || c == '-') = true) ∧
        cs = "https://".toList ++ (host ++ ("/api/webhooks/".toList ++ (id ++
          ("/".toList ++ token)))) := by
  unfold webhookRegex
  simp only [Regex.matches_seq, Regex.matches_alt, Regex.matches_lit, Regex.matches_plus_sym]
  constructor
  · rintro ⟨a1, b1, h1, ha1, a2, b2, h2, ha2, a3, b3, h3, ha3, a4, b4, h4, ha4,
      a5, b5, h5, ha5, hb5⟩
    subst ha1 ha3 ha5
    refine ⟨a2, a4, b5, ha2, ha4, hb5, ?_⟩
    rw [h1, h2, h3, h4, h5]
  · rintro ⟨host, id, token, hh, hi, ht, hcs⟩
    exact ⟨_, _, hcs, rfl, host, _, rfl, hh, _, _, rfl, rfl, id, _, rfl, hi, _, token, rfl,
      rfl, ht⟩

theorem validateWebhookUrl_iff (url : String) :
    validateWebhookUrl url = true ↔ IsWebhookUrlForm url := by
  unfold validateWebhookUrl IsWebhookUrlForm
  constructor
  · intro h
    split_ifs at h with h0
    rw [Regex.test_iff, webhookRegex_matches] at h
    obtain ⟨host, id, token, hh, ⟨hi1, hi2⟩, ⟨ht1, ht2⟩, hcs⟩ := h
    refine ⟨String.mk host, String.mk id, String.mk token, ?_, ?_, ?_, ?_, ?_, ?_⟩
    · rcases hh with hh | hh
      · left
        subst hh
        rfl
      · right
        subst hh
        rfl
    · show id.length ≠ 0
      exact fun h => hi1 (List.length_eq_zero.mp h)
    · intro c hc
      rw [← classDigit_eq]
      exact hi2 c hc
    · show token.length ≠ 0
      exact fun h => ht1 (List.length_eq_zero.mp h)
    · intro c hc
      exact (classWord_iff c).mp (ht2 c hc)
    · apply String.ext
      simp only [String.data_append]
      rw [show url.data = url.toList from rfl, hcs]
      simp only [List.append_assoc]
      rfl
  · rintro ⟨host, id, token, hh, hi1, hi2, ht1, ht2, hurl⟩
    have hlen : ¬ url.length = 0 := by
      rw [hurl]
      simp only [String.length_append]
      omega
    rw [if_neg hlen, Regex.test_iff, webhookRegex_matches]
    refine ⟨host.toList, id.toList, token.toList, ?_, ⟨?_, ?_⟩, ⟨?_, ?_⟩, ?_⟩
    · rcases hh with hh | hh
      · left
        rw [hh]
      · right
        rw [hh]
    · intro h
      apply hi1
      show id.data.length = 0
      rw [show id.data = id.toList from rfl, h]
      rfl
    · intro c hc
      rw [classDigit_eq]
      exact hi2 c hc
    · intro h
      apply ht1
      show token.data.length = 0
      rw [show token.data = token.toList from rfl, h]
      rfl
    · intro c hc
      exact (classWord_iff c).mpr (ht2 c hc)
    · rw [hurl]
      show (_ : String).data = _
      simp only [String.data_append, List.append_assoc]
      rfl

/-! ## Claims on configuration -/

theorem configure_url (l : LoggerService) (url : String) (hne : url.length ≠ 0) :
    l.configure ⟨some url, none⟩ =
      if validateWebhookUrl url = true then
        ({ l with discord := { l.discord with webhookUrl := some url } }, none)
      else (l, some (mkError "Invalid Discord webhook URL format")) := by
  by_cases hv : validateWebhookUrl url = true
  · simp [LoggerService.configure, DiscordWebhookService.setWebhookUrl, hv, truthyText, hne]
  · simp [LoggerService.configure, DiscordWebhookService.setWebhookUrl, hv, truthyText, hne]

/-- C15: for every logger and every non-empty string `url`,
`configure({discordWebhookUrl: url})` throws the error with message 'Invalid Discord
webhook URL format' if and only if `url` is not of the form
`https://(discord.com|discordapp.com)/api/webhooks/<digits>/<word characters or
hyphens>`; when it throws, the logger (its webhook URL included) is as before the call,
and otherwise nothing is thrown and `webhookUrl` is `url`. The call does not touch the
queue, which is not part of what `configure` reads or writes. -/
theorem configure_webhook_validation (l : LoggerService) (url : String)
    (hne : url.length ≠ 0) :
    ((l.configure ⟨some url, none⟩).2 = some (mkError "Invalid Discord webhook URL format")
      ↔ ¬ IsWebhookUrlForm url) ∧
    (¬ IsWebhookUrlForm url → (l.configure ⟨some url, none⟩).1 = l) ∧
    (IsWebhookUrlForm url →
      (l.configure ⟨some url, none⟩).2 = none ∧
      (l.configure ⟨some url, none⟩).1.discord.webhookUrl = some url ∧
      (l.configure ⟨some url, none⟩).1
        = { l with discord := { l.discord with webhookUrl := some url } }) := by
  rw [configure_url l url hne, ← validateWebhookUrl_iff]
  by_cases hv : validateWebhookUrl url = true
  · simp [hv]
  · simp [hv]

/-- Witness for C15: the URL of the test suite is accepted, on a logger without
configuration. -/
theorem configure_webhook_validation_witness :
    mockWebhookUrl.length ≠ 0 ∧
    ((freshLogger.configure ⟨some mockWebhookUrl, none⟩).2
        = some (mkError "Invalid Discord webhook URL format")
      ↔ ¬ IsWebhookUrlForm mockWebhookUrl) ∧
    (¬ IsWebhookUrlForm mockWebhookUrl →
      (freshLogger.configure ⟨some mockWebhookUrl, none⟩).1 = freshLogger) ∧
    (IsWebhookUrlForm mockWebhookUrl →
      (freshLogger.configure ⟨some mockWebhookUrl, none⟩).2 = none ∧
      (freshLogger.configure ⟨some mockWebhookUrl, none⟩).1.discord.webhookUrl
        = some mockWebhookUrl ∧
      (freshLogger.configure ⟨some mockWebhookUrl, none⟩).1
        = { freshLogger with
            discord := { freshLogger.discord with webhookUrl := some mockWebhookUrl } }) :=
  ⟨by decide, configure_webhook_validation freshLogger mockWebhookUrl (by decide)⟩

/-- The URL of the test suite has the form, and 'invalid-url' has not. -/
theorem webhook_form_examples :
    IsWebhookUrlForm mockWebhookUrl ∧ ¬ IsWebhookUrlForm "invalid-url" := by
  constructor
  · rw [← validateWebhookUrl_iff]
    decide
  · rw [← validateWebhookUrl_iff]
    decide

/-! ## The text of a field whose upload failed -/

theorem escapeChar_of_not_mem (target : Char) (text : List Char) (h : target ∉ text) :
    escapeChar target text = text := by
  unfold escapeChar
  induction text with
  | nil => rfl
  | cons c rest ih =>
    have hc : c ≠ target := fun hEq => h (hEq ▸ List.mem_cons_self _ _)
    have hrest : target ∉ rest := fun hm => h (List.mem_cons_of_mem _ hm)
    rw [List.flatMap_cons, ih hrest, if_neg hc]
    rfl

theorem replaceTripleBackticks_of_not_mem (text : List Char) (h : backtick ∉ text) :
    replaceTripleBackticks 0 text = text := by
  induction text with
  | nil => rfl
  | cons c rest ih =>
    have hc : c ≠ backtick := fun hEq => h (hEq ▸ List.mem_cons_self _ _)
    have hrest : backtick ∉ rest := fun hm => h (List.mem_cons_of_mem _ hm)
    have hno : ¬ (c :: rest).take 3 = [backtick, backtick, backtick] := by
      intro hEq
      rw [List.take_succ_cons] at hEq
      exact hc (List.cons.inj hEq).1
    rw [replaceTripleBackticks, if_neg hno, ih hrest]

theorem escapeMarkdown_of_markdownFree (text : List Char) (h : markdownFree text) :
    escapeMarkdown text = text := by
  unfold escapeMarkdown
  rw [replaceTripleBackticks_of_not_mem text (fun hm => (h _ hm).1 rfl),
    escapeChar_of_not_mem backtick text (fun hm => (h _ hm).1 rfl),
    escapeChar_of_not_mem '*' text (fun hm => (h _ hm).2.1 rfl),
    escapeChar_of_not_mem '_' text (fun hm => (h _ hm).2.2.1 rfl),
    escapeChar_of_not_mem '~' text (fun hm => (h _ hm).2.2.2.1 rfl),
    escapeChar_of_not_mem '|' text (fun hm => (h _ hm).2.2.2.2 rfl)]

theorem jsToString_string (rt : Runtime) (text : String) :
    jsToString rt (JsVal.string text) = text := by
  simp [jsToString]

theorem processContentForDiscord_failed (rt : Runtime) (g : GitHubStorageService)
    (env : StoreEnv) (text : String) (functionName fileName : JsVal) (type : String)
    (e : JsError) (hlen : text.length > g.contentThreshold)
    (hfail : (uploadToGitHub rt g env (JsVal.string text) functionName fileName type).result
      = Except.error e) :
    (processContentForDiscord rt g env (JsVal.string text) functionName fileName type
      ).decision.text
      = sanitizeForDiscord
          (String.mk (text.toList.take 1500) ++ "... " ++ failureMarker) 2000 ∧
    (processContentForDiscord rt g env (JsVal.string text) functionName fileName type
      ).decision.inline = true := by
  have ht : (JsVal.string text).truthy = true := by
    have : text.length ≠ 0 := by omega
    simp [JsVal.truthy, this]
  have hs : shouldUploadToGitHub rt g (JsVal.string text) none = true := by
    rw [shouldUpload_string]
    simpa using hlen
  constructor <;>
    simp only [processContentForDiscord, ht, contentText_string, hs, Bool.not_true,
      Bool.false_eq_true, if_false, hfail, typeofObject, jsToString_string]

theorem fallback_length (text : String) (hlen : text.length ≥ 1500) :
    (String.mk (text.toList.take 1500) ++ "... " ++ failureMarker).length = 1531 := by
  have h : (text.toList.take 1500).length = 1500 := by
    rw [List.length_take]
    exact Nat.min_eq_left hlen
  simp only [String.length_append]
  show (text.toList.take 1500).length + 4 + 27 = 1531
  rw [h]

theorem fallback_sanitized (text : String) (hlen : text.length ≥ 1500)
    (hfree : markdownFree text.toList) :
    sanitizeForDiscord (String.mk (text.toList.take 1500) ++ "... " ++ failureMarker) 2000
      = String.mk (text.toList.take 1500) ++ "... " ++ failureMarker := by
  have hl := fallback_length text hlen
  have hfree2 : markdownFree
      (String.mk (text.toList.take 1500) ++ "... " ++ failureMarker).toList := by
    intro c hc
    have hc2 : c ∈ text.toList.take 1500 ++ ("... " ++ failureMarker).toList := by
      have hd : (String.mk (text.toList.take 1500) ++ "... " ++ failureMarker).toList
          = text.toList.take 1500 ++ ("... " ++ failureMarker).toList := by
        show (String.mk (text.toList.take 1500) ++ "... " ++ failureMarker).data = _
        simp only [String.data_append, List.append_assoc]
        rfl
      rw [← hd]
      exact hc
    rcases List.mem_append.mp hc2 with h1 | h2
    · exact hfree c (List.mem_of_mem_take h1)
    · have hall : ∀ d ∈ ("... " ++ failureMarker).toList,
          d ≠ backtick ∧ d ≠ '*' ∧ d ≠ '_' ∧ d ≠ '~' ∧ d ≠ '|' := by decide
      exact hall c h2
  unfold sanitizeForDiscord
  rw [if_neg (by omega), escapeMarkdown_of_markdownFree _ hfree2]
  show truncateText (String.mk (text.toList.take 1500) ++ "... " ++ failureMarker) 2000 = _
  unfold truncateText
  rw [if_pos (Or.inr (by omega))]

theorem fallback_truncated (text : String) (hlen : text.length ≥ 1500) :
    truncateText (String.mk (text.toList.take 1500) ++ "... " ++ failureMarker) 1024
      = String.mk (text.toList.take 1021) ++ "..." := by
  have hl := fallback_length text hlen
  unfold truncateText
  rw [if_neg (by omega)]
  have hd : (String.mk (text.toList.take 1500) ++ "... " ++ failureMarker).toList
      = text.toList.take 1500 ++ ("... " ++ failureMarker).toList := by
    show (String.mk (text.toList.take 1500) ++ "... " ++ failureMarker).data = _
    simp only [String.data_append, List.append_assoc]
    rfl
  have h : (text.toList.take 1500).length = 1500 := by
    rw [List.length_take]
    exact Nat.min_eq_left hlen
  rw [hd, List.take_append_of_le_length (by omega), List.take_take]
  rfl

theorem truncateTextVal_string (text : String) (maxLength : Nat) :
    ∃ d, truncateTextVal (JsVal.string text) maxLength = Except.ok d := by
  unfold truncateTextVal
  split_ifs
  · exact ⟨_, rfl⟩
  · exact ⟨_, rfl⟩

/-- C13 (the code departs from it): under the default `contentThreshold` (1800) and
`limits.fieldValue` (1024), when the upload of a string `data` of more than 1800
characters fails, the text `processContentForDiscord` returns does end with the marker,
but the value of the data field in the embed is the first 1021 characters of the content
followed by '...': for content without markdown characters and without '[', the marker
'[TRUNCATED - Upload failed]' is not in the delivered field. -/
theorem upload_failure_marker_cut (rt : Runtime) (svc : DiscordWebhookService)
    (g : GitHubStorageService) (stores : String → StoreEnv) (entry : LogEntry)
    (text message : String) (e : JsError)
    (hlim : svc.limits.fieldValue = 1024) (hthr : g.contentThreshold = 1800)
    (hmsg : entry.message = JsVal.string message)
    (hdata : entry.data = JsVal.string text) (hlen : text.length > 1800)
    (hfree : markdownFree text.toList) (hbracket : '[' ∉ text.toList)
    (hfail : (uploadToGitHub rt g (stores "data") (JsVal.string text) entry.functionName
      entry.fileName "data").result = Except.error e) :
    (processContentForDiscord rt g (stores "data") (JsVal.string text) entry.functionName
      entry.fileName "data").decision.text
      = String.mk (text.toList.take 1500) ++ "... " ++ failureMarker ∧
    (∃ embed, (createEmbed rt svc (some g) stores entry).result = Except.ok embed ∧
      ⟨"📊 Data", String.mk (text.toList.take 1021) ++ "...", false⟩ ∈ embed.fields) ∧
    ¬ (failureMarker.toList <:+: (String.mk (text.toList.take 1021) ++ "...").toList) := by
  have hlen2 : text.length ≥ 1500 := by omega
  obtain ⟨h1, h2⟩ := processContentForDiscord_failed rt g (stores "data") text
    entry.functionName entry.fileName "data" e (by omega) hfail
  rw [fallback_sanitized text hlen2 hfree] at h1
  refine ⟨h1, ?_, ?_⟩
  · obtain ⟨d, hd⟩ := truncateTextVal_string message svc.limits.embedDescription
    have hfield : contentField svc "📊 Data" "📊 Data (GitHub)"
        (processContentField rt (some g) (stores "data") (JsVal.string text)
          entry.functionName entry.fileName "data")
        = ⟨"📊 Data", String.mk (text.toList.take 1021) ++ "...", false⟩ := by
      unfold contentField processContentField
      simp only [h1, h2, hlim, if_true, fallback_truncated text hlen2]
    simp only [createEmbed, hmsg, hd, hdata, isNullish]
    refine ⟨_, rfl, ?_⟩
    simp only [Bool.not_false, if_true, List.map_cons, List.map_nil, hfield]
    simp
  · intro hin
    have hm : '[' ∈ failureMarker.toList := by decide
    have hv : '[' ∈ (String.mk (text.toList.take 1021) ++ "...").toList := hin.subset hm
    have hd : (String.mk (text.toList.take 1021) ++ "...").toList
        = text.toList.take 1021 ++ ['.', '.', '.'] := by
      show (String.mk (text.toList.take 1021) ++ "...").data = _
      simp only [String.data_append]
    rw [hd] at hv
    rcases List.mem_append.mp hv with h | h
    · exact hbracket (List.mem_of_mem_take h)
    · revert h
      decide

/-- Witness for C13: the sample entry with 1801 letters as `data`, and a storage service
without token, whose upload fails with 'GitHub token not configured'. -/
theorem upload_failure_marker_cut_witness :
    (uploadToGitHub sampleRuntime defaultStorage acceptingStore (JsVal.string longText)
      longDataEntry.functionName longDataEntry.fileName "data").result
      = Except.error (mkError "GitHub token not configured") ∧
    (processContentForDiscord sampleRuntime defaultStorage acceptingStore
      (JsVal.string longText) longDataEntry.functionName longDataEntry.fileName "data"
      ).decision.text
      = String.mk (longText.toList.take 1500) ++ "... " ++ failureMarker ∧
    (∃ embed, (createEmbed sampleRuntime sampleService (some defaultStorage)
        (fun _ => acceptingStore) longDataEntry).result = Except.ok embed ∧
      ⟨"📊 Data", String.mk (longText.toList.take 1021) ++ "...", false⟩ ∈ embed.fields) ∧
    ¬ (failureMarker.toList <:+: (String.mk (longText.toList.take 1021) ++ "...").toList) :=
  by
  have hlen : longText.length > 1800 := by
    unfold longText
    show (List.replicate 1801 'a').length > 1800
    rw [List.length_replicate]
    decide
  have hfree : markdownFree longText.toList := by
    unfold longText
    intro c hc
    have h : c = 'a' := List.eq_of_mem_replicate hc
    subst h
    decide
  have hbracket : '[' ∉ longText.toList := by
    unfold longText
    intro hc
    have h : '[' = 'a' := List.eq_of_mem_replicate hc
    revert h
    decide
  have hfail : (uploadToGitHub sampleRuntime defaultStorage acceptingStore
      (JsVal.string longText) longDataEntry.functionName longDataEntry.fileName "data").result
      = Except.error (mkError "GitHub token not configured") := rfl
  have hlim : sampleService.limits.fieldValue = 1024 := rfl
  have hthr : defaultStorage.contentThreshold = 1800 := rfl
  have hmsg : longDataEntry.message = JsVal.string "No message provided" := rfl
  have hdata : longDataEntry.data = JsVal.string longText := rfl
  have h := upload_failure_marker_cut sampleRuntime sampleService defaultStorage
    (fun _ => acceptingStore) longDataEntry longText "No message provided"
    (mkError "GitHub token not configured") hlim hthr hmsg hdata hlen hfree hbracket hfail
  exact ⟨hfail, h⟩

/-! ## Failures of the overflow store are not escalated -/

theorem createEmbed_string_message (rt : Runtime) (svc : DiscordWebhookService)
    (storage : Option GitHubStorageService) (stores : String → StoreEnv) (entry : LogEntry)
    (message : String) (hmsg : entry.message = JsVal.string message) :
    ∃ embed, (createEmbed rt svc storage stores entry).result = Except.ok embed := by
  obtain ⟨d, hd⟩ := truncateTextVal_string message svc.limits.embedDescription
  simp only [createEmbed, hmsg, hd]
  exact ⟨_, rfl⟩

theorem createPayload_string_message (rt : Runtime) (svc : DiscordWebhookService)
    (storage : Option GitHubStorageService) (stores : String → StoreEnv) (entry : LogEntry)
    (message : String) (hmsg : entry.message = JsVal.string message) :
    ∃ payload, (createPayload rt svc storage stores entry).result = Except.ok payload := by
  obtain ⟨embed, he⟩ := createEmbed_string_message rt svc storage stores entry message hmsg
  unfold createPayload
  simp only [he]
  exact ⟨_, rfl⟩

/-- C14: for every entry whose message is a string, every storage service (or none) and
every behaviour of the overflow store (missing credentials, size limit, rejected or
failed PUT), `createPayload` returns a payload; when a webhook URL is configured and the
sink accepts the call, the entry is posted once, with that payload, and its promise is
fulfilled with `{ success: true, result }`. -/
theorem overflow_failure_not_escalated (rt : Runtime) (svc : DiscordWebhookService)
    (storage : Option GitHubStorageService) (stores : String → StoreEnv)
    (env : Nat → Attempt) (pacingOverrun : ℚ) (entry : LogEntry) (now : ℚ)
    (message url : String) (reply : JsVal)
    (hmsg : entry.message = JsVal.string message)
    (hurl : svc.webhookUrl = some url)
    (hpay : (env 0).payload
      = (createPayload rt svc storage stores entry).result.map Payload.toJson)
    (hreply : (env 0).reply = Except.ok reply) :
    (∃ payload, (createPayload rt svc storage stores entry).result = Except.ok payload ∧
      (dispatch svc env pacingOverrun entry now).posts.map (fun p => p.payload)
        = [payload.toJson]) ∧
    settlement (dispatch svc env pacingOverrun entry now) = DeliveryResult.success reply := by
  obtain ⟨payload, hp⟩ := createPayload_string_message rt svc storage stores entry message hmsg
  have hp2 : (env 0).payload = Except.ok payload.toJson := by
    rw [hpay, hp]
    rfl
  have ht := tryBlock_posted svc (env 0) entry 0 (dispatchStart svc pacingOverrun now)
    url payload.toJson hurl hp2
  have hout : (tryBlock svc (env 0) entry 0 (dispatchStart svc pacingOverrun now)).outcome
      = Except.ok reply := by
    rw [ht]
    exact hreply
  have hs := sendWithRetry_ok svc env entry 0 (dispatchStart svc pacingOverrun now) reply hout
  refine ⟨⟨payload, hp, ?_⟩, ?_⟩
  · unfold dispatch
    rw [hs, ht]
    rfl
  · unfold dispatch
    rw [hs]
    rfl

/-- Witness for C14: the entry with 1801 letters as `data`, a storage service without
token (the upload fails), and a sink that accepts. -/
theorem overflow_failure_not_escalated_witness :
    (uploadToGitHub sampleRuntime defaultStorage acceptingStore longDataEntry.data
      longDataEntry.functionName longDataEntry.fileName "data").result
      = Except.error (mkError "GitHub token not configured") ∧
    (∃ payload, (createPayload sampleRuntime sampleService (some defaultStorage)
        (fun _ => acceptingStore) longDataEntry).result = Except.ok payload ∧
      (dispatch sampleService builtAttempt 0 longDataEntry 0).posts.map (fun p => p.payload)
        = [payload.toJson]) ∧
    settlement (dispatch sampleService builtAttempt 0 longDataEntry 0)
      = DeliveryResult.success JsVal.null :=
  ⟨rfl,
    overflow_failure_not_escalated sampleRuntime sampleService (some defaultStorage)
      (fun _ => acceptingStore) builtAttempt 0 longDataEntry 0 "No message provided"
      "https://discord.com/api/webhooks/1/t" JsVal.null rfl rfl rfl rfl⟩

/-! ## The size check of `uploadToGitHub` -/

/-- C18 (the code departs from it): the size check compares the number of characters
(`jsonContent.length`) with `maxFileSize`, not the number of bytes. With token and
repository configured and `maxFileSize = 4`, the content 'ééé' serializes to 6 bytes of
UTF-8, yet the PUT request is issued and the upload succeeds; 'abcde' (5 characters) fails
without request. Without token, owner or repository name the call fails before any
request, for every content. -/
theorem size_check_counts_characters :
    tinyStorage.maxFileSize = 4 ∧
    (contentText sampleRuntime (JsVal.string "ééé")).utf8ByteSize = 6 ∧
    (contentText sampleRuntime (JsVal.string "ééé")).length = 3 ∧
    (uploadToGitHub sampleRuntime tinyStorage acceptingStore (JsVal.string "ééé")
      (JsVal.string "f") (JsVal.string "g") "logs").requests.map (fun r => r.content)
      = ["ééé"] ∧
    (∃ result, (uploadToGitHub sampleRuntime tinyStorage acceptingStore (JsVal.string "ééé")
      (JsVal.string "f") (JsVal.string "g") "logs").result = Except.ok result) ∧
    uploadToGitHub sampleRuntime tinyStorage acceptingStore (JsVal.string "abcde")
      (JsVal.string "f") (JsVal.string "g") "logs"
      = ⟨Except.error (mkError ("GitHub upload failed: Content size (5 Bytes) exceeds "
          ++ "maximum allowed size (4 Bytes)")), []⟩ ∧
    (∀ (rt : Runtime) (g : GitHubStorageService) (env : StoreEnv)
        (content functionName fileName : JsVal) (directory : String),
      uploadToGitHub rt { g with githubToken := none } env content functionName fileName
        directory = ⟨Except.error (mkError "GitHub token not configured"), []⟩) ∧
    (∀ (rt : Runtime) (g : GitHubStorageService) (env : StoreEnv)
        (content functionName fileName : JsVal) (directory : String),
      uploadToGitHub rt { g with githubToken := some "t", repoOwner := none } env content
        functionName fileName directory
        = ⟨Except.error (mkError "GitHub repository owner and name must be configured"),
          []⟩) ∧
    (∀ (rt : Runtime) (g : GitHubStorageService) (env : StoreEnv)
        (content functionName fileName : JsVal) (directory : String),
      uploadToGitHub rt { g with githubToken := some "t", repoName := none } env content
        functionName fileName directory
        = ⟨Except.error (mkError "GitHub repository owner and name must be configured"),
          []⟩) := by
  refine ⟨rfl, by decide, by decide, rfl, ⟨_, rfl⟩, ?_, fun _ _ _ _ _ _ _ => rfl, ?_, ?_⟩
  · rfl
  · intro rt g env content functionName fileName directory
    rfl
  · intro rt g env content functionName fileName directory
    have ht : ¬ ("t".length = 0) := by decide
    simp [uploadToGitHub, truthyText, ht]

theorem uploadToGitHub_size_check (rt : Runtime) (g : GitHubStorageService) (env : StoreEnv)
    (content : JsVal) (functionName fileName directory : String)
    (htoken : truthyText g.githubToken = true) (howner : truthyText g.repoOwner = true)
    (hrepo : truthyText g.repoName = true) :
    ((contentText rt content).length > g.maxFileSize →
      (uploadToGitHub rt g env content (JsVal.string functionName) (JsVal.string fileName)
        directory).requests = [] ∧
      ∃ e, (uploadToGitHub rt g env content (JsVal.string functionName)
        (JsVal.string fileName) directory).result = Except.error e) ∧
    ((contentText rt content).length ≤ g.maxFileSize →
      (uploadToGitHub rt g env content (JsVal.string functionName) (JsVal.string fileName)
        directory).requests.length = 1) := by
  constructor
  · intro h
    simp only [uploadToGitHub, htoken, howner, hrepo, uploadAttempt, h, if_true,
      Bool.not_true, Bool.false_eq_true, if_false, Bool.or_self]
    exact ⟨trivial, _, rfl⟩
  · intro h
    have h2 : ¬ (contentText rt content).length > g.maxFileSize := by omega
    simp only [uploadToGitHub, htoken, howner, hrepo, uploadAttempt, h2, if_false,
      Bool.not_true, Bool.false_eq_true, Bool.or_self]
    rcases env.put with e | (_ | answer) <;> rfl

/-! ## The path of an uploaded object -/

theorem toDigitsCore_length_ge (fuel : Nat) :
    ∀ (n : Nat) (ds : List Char), ds.length ≤ (Nat.toDigitsCore 10 fuel n ds).length := by
  induction fuel with
  | zero =>
    intro n ds
    simp [Nat.toDigitsCore]
  | succ fuel ih =>
    intro n ds
    simp only [Nat.toDigitsCore]
    split_ifs with h0
    · simp
    · have h := ih (n / 10) (Nat.digitChar (n % 10) :: ds)
      simp only [List.length_cons] at h
      omega

theorem toString_length_two (n : Nat) (h : 10 ≤ n) : 2 ≤ (toString n).length := by
  show 2 ≤ (Nat.toDigitsCore 10 (n + 1) n []).length
  obtain ⟨m, rfl⟩ : ∃ m, n = m + 1 := ⟨n - 1, by omega⟩
  have h0 : ¬ (m + 1) / 10 = 0 := by omega
  simp only [Nat.toDigitsCore, h0, if_false]
  split_ifs with h1
  · simp
  · have h2 := toDigitsCore_length_ge m ((m + 1) / 10 / 10)
      [Nat.digitChar ((m + 1) / 10 % 10), Nat.digitChar ((m + 1) % 10)]
    simpa using h2

theorem toString_length_one (n : Nat) (h : n < 10) : (toString n).length = 1 := by
  interval_cases n <;> rfl

theorem padStart_twoDigits (n : Nat) : padStart (toString n) 2 '0' = twoDigits n := by
  unfold padStart twoDigits
  split_ifs with h
  · rw [toString_length_one n h]
    rfl
  · have h2 := toString_length_two n (by omega)
    have h3 : 2 - (toString n).length = 0 := by omega
    rw [h3]
    apply String.ext
    simp

theorem generateDailyFolder_inWords (g : GitHubStorageService) (now : DateReading)
    (folder : String) (h : folderInWords g now = some folder) :
    generateDailyFolder g now = folder := by
  unfold folderInWords at h
  unfold generateDailyFolder
  simp only [padStart_twoDigits]
  split_ifs at h with h1 h2 h3 h4
  · simp only [h1, Bool.not_false, if_true]
    exact Option.some.inj h
  · have h1b : g.useTimestampFolders = true := by simpa using h1
    simp only [h1b, Bool.not_true, Bool.false_eq_true, if_false, h2, if_true]
    exact Option.some.inj h
  · have h1b : g.useTimestampFolders = true := by simpa using h1
    simp only [h1b, Bool.not_true, Bool.false_eq_true, if_false, h2, h3, if_true]
    exact Option.some.inj h
  · have h1b : g.useTimestampFolders = true := by simpa using h1
    simp only [h1b, Bool.not_true, Bool.false_eq_true, if_false, h2, h3, h4, if_true]
    exact Option.some.inj h

theorem classWord_true_iff (c : Char) :
    classWord c = true ↔ (c.isAlphanum = true ∨ c = '_') := by
  rw [isAlphanum_iff, char_eq_iff_toNat c '_']
  have h1 : ('_' : Char).toNat = 95 := rfl
  rw [h1]
  unfold classWord
  simp only [Bool.or_eq_true, Bool.and_eq_true, decide_eq_true_eq, beq_iff_eq]
  constructor
  · rintro (((h | h) | h) | h)
    · exact Or.inl (Or.inl h)
    · exact Or.inl (Or.inr (Or.inl h))
    · exact Or.inl (Or.inr (Or.inr h))
    · exact Or.inr h
  · rintro ((h | h | h) | h)
    · exact Or.inl (Or.inl (Or.inl h))
    · exact Or.inl (Or.inl (Or.inr h))
    · exact Or.inl (Or.inr h)
    · exact Or.inr h

theorem classFunctionName_iff (c : Char) :
    classFunctionName c = true ↔ (c.isAlphanum = true ∨ c = '_' ∨ c = '-') := by
  unfold classFunctionName
  rw [Bool.or_eq_true, classWord_true_iff, beq_iff_eq]
  tauto

theorem classFileName_iff (c : Char) :
    classFileName c = true ↔ (c.isAlphanum = true ∨ c = '_' ∨ c = '.' ∨ c = '-') := by
  unfold classFileName
  rw [Bool.or_eq_true, Bool.or_eq_true, classWord_true_iff, beq_iff_eq, beq_iff_eq]
  tauto

theorem generateFileName_inWords (g : GitHubStorageService) (functionName fileName : String)
    (now : DateReading) :
    generateFileName g functionName fileName none now
      = fileNameInWords g functionName fileName now := by
  unfold generateFileName fileNameInWords replaceOutside replaceColonDot
  have h1 : (fun c => if classFunctionName c = true then c else '_')
      = (fun c => if c.isAlphanum = true ∨ c = '_' ∨ c = '-' then c else '_') := by
    funext c
    exact if_congr (classFunctionName_iff c) rfl rfl
  have h2 : (fun c => if classFileName c = true then c else '_')
      = (fun c => if c.isAlphanum = true ∨ c = '_' ∨ c = '.' ∨ c = '-' then c else '_') := by
    funext c
    exact if_congr (classFileName_iff c) rfl rfl
  simp only [h1, h2, truthyText, Bool.false_eq_true, if_false]

/-- C19: with token and repository configured, content within the size limit and a PUT
that is answered, `uploadToGitHub` issues one request and returns an object whose
`filePath` is `<directory>/<folder>/<name>`, where `folder` is the folder the claim
describes for the date read by `generateDailyFolder` and `name` the file name it
describes for the date read by `generateFileName`; `rawUrl` and the URL of the request
end with that path. -/
theorem upload_path (rt : Runtime) (g : GitHubStorageService) (env : StoreEnv)
    (content : JsVal) (functionName fileName directory folder token owner repo : String)
    (answer : PutContent)
    (htoken : g.githubToken = some token) (htokenFilled : token.length ≠ 0)
    (howner : g.repoOwner = some owner) (hownerFilled : owner.length ≠ 0)
    (hrepo : g.repoName = some repo) (hrepoFilled : repo.length ≠ 0)
    (hsize : (contentText rt content).length ≤ g.maxFileSize)
    (hput : env.put = Except.ok (some answer))
    (hfolder : folderInWords g env.folderDate = some folder) :
    ∃ result request,
      uploadToGitHub rt g env content (JsVal.string functionName) (JsVal.string fileName)
        directory = ⟨Except.ok result, [request]⟩ ∧
      result.filePath = directory ++ "/" ++ folder ++ "/"
        ++ fileNameInWords g functionName fileName env.fileDate ∧
      result.rawUrl = g.baseRawUrl ++ "/" ++ owner ++ "/" ++ repo ++ "/" ++ g.branch ++ "/"
        ++ result.filePath ∧
      request.url = g.baseApiUrl ++ "/repos/" ++ owner ++ "/" ++ repo ++ "/contents/"
        ++ result.filePath := by
  have h2 : ¬ (contentText rt content).length > g.maxFileSize := by omega
  simp only [uploadToGitHub, htoken, howner, hrepo, truthyText, htokenFilled, hownerFilled,
    hrepoFilled, uploadAttempt, h2, hput, generateDailyFolder_inWords g env.folderDate folder
    hfolder, generateFileName_inWords, Option.getD_some, ne_eq, not_false_eq_true,
    decide_True, Bool.not_true, Bool.false_eq_true, if_false, Bool.or_self]
  exact ⟨_, _, rfl, rfl, rfl, rfl⟩

/-- Witness for C19: the function name 'my func' and the file 'src/a.js' uploaded on
5 March 2024 under the directory 'data'. -/
theorem upload_path_witness :
    folderInWords configuredStorage acceptingStore.folderDate = some "2024-03-05" ∧
    fileNameInWords configuredStorage "my func" "src/a.js" acceptingStore.fileDate
      = "my_func-src_a.js-2024-03-05T10-20-30-456Z.json" ∧
    ∃ result request,
      uploadToGitHub sampleRuntime configuredStorage acceptingStore (JsVal.string "abc")
        (JsVal.string "my func") (JsVal.string "src/a.js") "data"
        = ⟨Except.ok result, [request]⟩ ∧
      result.filePath = "data" ++ "/" ++ "2024-03-05" ++ "/"
        ++ fileNameInWords configuredStorage "my func" "src/a.js" acceptingStore.fileDate ∧
      result.rawUrl = configuredStorage.baseRawUrl ++ "/" ++ "owner" ++ "/" ++ "repo" ++ "/"
        ++ configuredStorage.branch ++ "/" ++ result.filePath ∧
      request.url = configuredStorage.baseApiUrl ++ "/repos/" ++ "owner" ++ "/" ++ "repo"
        ++ "/contents/" ++ result.filePath :=
  ⟨rfl, by decide,
    upload_path sampleRuntime configuredStorage acceptingStore (JsVal.string "abc")
      "my func" "src/a.js" "data" "2024-03-05" "ghp_mock_github_token_for_testing" "owner"
      "repo" ⟨"https://github.com/o/r/blob/main/f", "abc"⟩ rfl (by decide) rfl (by decide)
      rfl (by decide) (by decide) rfl rfl⟩

/-! ## The record built from an error -/

/-- C20 (the code departs from it): `processError` routes, for an `Error`, the record
with the error's `name`, `message` and `stack` and with `cause` holding the cause as it
is; a non-`Error` object is routed unchanged and a primitive `p` as
`{ message: String(p) }`. The cause is not extracted: when it is an `Error`, it is
serialized as an empty object, so the text that is routed is the same whatever the name,
message, stack and cause of the cause are; for
`new Error('outer', { cause: new Error('inner') })` the text does not contain
'inner'. -/
theorem error_cause_serialized_empty :
    (∀ (rt : Runtime) (storage : Option GitHubStorageService) (env : StoreEnv)
        (error functionName fileName : JsVal),
      processError rt storage env error functionName fileName
        = processContentField rt storage env (errorData rt error) functionName fileName
            "error") ∧
    (∀ (rt : Runtime) (name message stack : String) (cause : JsVal),
      errorData rt (JsVal.error name message stack cause)
        = JsVal.object [("name", JsVal.string name), ("message", JsVal.string message),
            ("stack", JsVal.string stack), ("cause", cause)]) ∧
    (∀ (rt : Runtime) (props : List (String × JsVal)),
      errorData rt (JsVal.object props) = JsVal.object props) ∧
    (∀ (rt : Runtime) (items : List JsVal),
      errorData rt (JsVal.array items) = JsVal.array items) ∧
    (∀ (rt : Runtime) (text : String),
      errorData rt (JsVal.string text) = JsVal.object [("message", JsVal.string text)]) ∧
    (∀ (rt : Runtime) (n : ℚ),
      errorData rt (JsVal.number n)
        = JsVal.object [("message", JsVal.string (numberToString rt n))]) ∧
    (∀ (rt : Runtime) (b : Bool),
      errorData rt (JsVal.bool b)
        = JsVal.object [("message", JsVal.string (if b then "true" else "false"))]) ∧
    (∀ (rt : Runtime) (name message stack : String)
        (name₁ message₁ stack₁ : String) (cause₁ : JsVal)
        (name₂ message₂ stack₂ : String) (cause₂ : JsVal),
      contentText rt (errorData rt
          (JsVal.error name message stack (JsVal.error name₁ message₁ stack₁ cause₁)))
        = contentText rt (errorData rt
          (JsVal.error name message stack (JsVal.error name₂ message₂ stack₂ cause₂)))) ∧
    contentText sampleRuntime (errorData sampleRuntime nestedError)
      = "\x7b\n  \"name\": \"Error\",\n  \"message\": \"outer\",\n"
        ++ "  \"stack\": \"Error: outer\\n    at f\",\n  \"cause\": \x7b\x7d\n\x7d" ∧
    ¬ ("inner".toList <:+: (contentText sampleRuntime (errorData sampleRuntime nestedError)
      ).toList) := by
  refine ⟨fun _ _ _ _ _ _ => rfl, fun _ _ _ _ _ => rfl, fun _ _ => rfl, fun _ _ => rfl,
    ?_, ?_, ?_, ?_, ?_, ?_⟩
  · intro rt text
    simp [errorData, typeofObject, jsToString]
  · intro rt n
    simp [errorData, typeofObject, jsToString]
  · intro rt b
    simp [errorData, typeofObject, jsToString]
  · intro rt name message stack name₁ message₁ stack₁ cause₁ name₂ message₂ stack₂ cause₂
    simp [contentText, errorData, typeofObject, jsonStringify, serializeJson,
      serializeJsonProps]
  · decide
  · intro h
    have hi : 'i' ∈ (contentText sampleRuntime (errorData sampleRuntime nestedError)).toList :=
      h.subset (by decide)
    revert hi
    decide

/-! ## Limits of the embed -/

theorem truncateText_length_le (text : String) (maxLength : Nat) (h : 3 ≤ maxLength) :
    (truncateText text maxLength).length ≤ maxLength := by
  unfold truncateText
  split_ifs with hc
  · rcases hc with h0 | hle
    · omega
    · exact hle
  · rw [String.length_append]
    show (text.toList.take (maxLength - 3)).length + 3 ≤ maxLength
    rw [List.length_take]
    omega

theorem truncateTextVal_string_length (text : String) (maxLength : Nat) (h : 3 ≤ maxLength) :
    ∃ d, truncateTextVal (JsVal.string text) maxLength = Except.ok (JsVal.string d) ∧
      d.length ≤ maxLength := by
  unfold truncateTextVal
  split_ifs with ht
  · refine ⟨text, rfl, ?_⟩
    have h0 : text.length = 0 := by simpa [JsVal.truthy] using ht
    omega
  · exact ⟨_, rfl, truncateText_length_le text maxLength h⟩

theorem contentField_value_length (svc : DiscordWebhookService) (name remoteName : String)
    (r : Routed) (h : 3 ≤ svc.limits.fieldValue) :
    (contentField svc name remoteName r).value.length ≤ svc.limits.fieldValue :=
  truncateText_length_le _ _ h

theorem contentField_inline (svc : DiscordWebhookService) (name remoteName : String)
    (r : Routed) : (contentField svc name remoteName r).inline = false := rfl

/-- C21: for every entry whose message is a string (level, function name and file name
are then any values), every storage service and every behaviour of the overflow store,
under the default limits `createEmbed` returns an embed whose title has at most 256
characters, whose description is a string of at most 4096 characters, which has at most
25 fields (at most 5), and in which every field other than the environment field (the
only one with `inline: true`) has a value of at most 1024 characters. -/
theorem embed_within_limits (rt : Runtime) (svc : DiscordWebhookService)
    (storage : Option GitHubStorageService) (stores : String → StoreEnv) (entry : LogEntry)
    (message : String) (hlim : svc.limits = {}) (hmsg : entry.message = JsVal.string message) :
    ∃ embed description,
      (createEmbed rt svc storage stores entry).result = Except.ok embed ∧
      embed.title.length ≤ 256 ∧
      embed.description = JsVal.string description ∧ description.length ≤ 4096 ∧
      embed.fields.length ≤ 25 ∧
      ∀ field ∈ embed.fields, field.inline = false → field.value.length ≤ 1024 := by
  have h1 : svc.limits.embedTitle = 256 := by rw [hlim]
  have h2 : svc.limits.embedDescription = 4096 := by rw [hlim]
  have h3 : svc.limits.fieldValue = 1024 := by rw [hlim]
  obtain ⟨d, hd, hdl⟩ := truncateTextVal_string_length message svc.limits.embedDescription
    (by omega)
  simp only [createEmbed, hmsg, hd]
  refine ⟨_, d, rfl, ?_, rfl, by omega, ?_, ?_⟩
  · show (truncateText _ svc.limits.embedTitle).length ≤ 256
    rw [h1]
    exact truncateText_length_le _ 256 (by omega)
  · simp only [List.length_append, List.length_map]
    split_ifs <;> simp
  · intro field hf hin
    simp only [List.mem_append, List.mem_map] at hf
    rcases hf with (((⟨r, _, rfl⟩ | ⟨r, _, rfl⟩) | ⟨r, _, rfl⟩) | ⟨r, _, rfl⟩) | hf
    · have := contentField_value_length svc "📋 Metadata" "📋 Metadata" r (by omega)
      omega
    · have := contentField_value_length svc "📊 Data" "📊 Data (GitHub)" r (by omega)
      omega
    · have := contentField_value_length svc "📤 Response" "📤 Response (GitHub)" r (by omega)
      omega
    · have := contentField_value_length svc "❌ Error" "❌ Error (GitHub)" r (by omega)
      omega
    · split_ifs at hf
      · simp only [List.mem_singleton] at hf
        subst hf
        cases hin
      · cases hf

/-- Witness for C21: the sample entry on the sample service. -/
theorem embed_within_limits_witness :
    ∃ embed description,
      (createEmbed sampleRuntime sampleService (some defaultStorage) (fun _ => acceptingStore)
        sampleEntry).result = Except.ok embed ∧
      embed.title.length ≤ 256 ∧
      embed.description = JsVal.string description ∧ description.length ≤ 4096 ∧
      embed.fields.length ≤ 25 ∧
      ∀ field ∈ embed.fields, field.inline = false → field.value.length ≤ 1024 :=
  embed_within_limits sampleRuntime sampleService (some defaultStorage)
    (fun _ => acceptingStore) sampleEntry "No message provided" rfl rfl

/-! ## The documents posted to the sink -/

/-- C23 (the code departs from it): the document `sendNotification` posts has exactly
the keys `username`, `avatar_url` and `embeds` (one embed): it has no `allowed_mentions`,
for every service, URL and notification. The document `createPayload` builds does carry
`allowed_mentions` with an empty `parse` list, next to `username`, `avatar_url` and one
embed. -/
theorem notification_without_mention_flag :
    (∀ (svc : DiscordWebhookService) (url : String) (data : NotificationData)
        (now : DateReading) (reply : Except JsError JsVal),
      (sendNotification { svc with webhookUrl := some url } data now reply).posts
        = [(url, notificationPayload { svc with webhookUrl := some url } data now)]) ∧
    (∀ (svc : DiscordWebhookService) (data : NotificationData) (now : DateReading),
      (notificationPayload svc data now).getProp "allowed_mentions" = JsVal.undefined ∧
      notificationPayload svc data now
        = JsVal.object
            [("username", (notificationPayload svc data now).getProp "username"),
              ("avatar_url", (notificationPayload svc data now).getProp "avatar_url"),
              ("embeds", JsVal.array [notificationEmbed svc data now])]) ∧
    (∀ (rt : Runtime) (svc : DiscordWebhookService) (storage : Option GitHubStorageService)
        (stores : String → StoreEnv) (entry : LogEntry),
      match (createPayload rt svc storage stores entry).result with
      | Except.ok payload =>
        payload.toJson.getProp "allowed_mentions"
          = JsVal.object [("parse", JsVal.array [])] ∧
        payload.toJson.getProp "username"
          = JsVal.string (truncateText svc.serviceName svc.limits.username) ∧
        payload.toJson.getProp "avatar_url" = JsVal.string svc.avatarUrl ∧
        payload.embeds.length = 1
      | Except.error _ => True) := by
  refine ⟨fun _ _ _ _ _ => rfl, fun _ _ _ => ⟨rfl, rfl⟩, ?_⟩
  intro rt svc storage stores entry
  cases h : (createEmbed rt svc storage stores entry).result with
  | error e =>
    simp only [createPayload, h]
  | ok embed =>
    simp only [createPayload, h]
    exact ⟨rfl, rfl, rfl, rfl⟩

/-! ## Escaping of markdown characters -/

theorem replaceTripleBackticks_of_no_triple (text : List Char)
    (h : ¬ [backtick, backtick, backtick] <:+: text) :
    replaceTripleBackticks 0 text = text := by
  induction text with
  | nil => rfl
  | cons c rest ih =>
    have hno : ¬ (c :: rest).take 3 = [backtick, backtick, backtick] := by
      intro hEq
      apply h
      rw [← hEq]
      exact (List.take_prefix 3 (c :: rest)).isInfix
    have hrest : ¬ [backtick, backtick, backtick] <:+: rest := by
      intro hin
      exact h (hin.trans (List.suffix_cons c rest).isInfix)
    rw [replaceTripleBackticks, if_neg hno, ih hrest]

theorem escapeChar_cons (target c : Char) (rest : List Char) :
    escapeChar target (c :: rest)
      = (if c = target then [backslash, c] else [c]) ++ escapeChar target rest := by
  unfold escapeChar
  rw [List.flatMap_cons]

theorem escapeChar_append (target : Char) (a b : List Char) :
    escapeChar target (a ++ b) = escapeChar target a ++ escapeChar target b := by
  unfold escapeChar
  rw [List.flatMap_append]

theorem escapeChain_eq_inWords (text : List Char) :
    escapeChar '|' (escapeChar '~' (escapeChar '_' (escapeChar '*'
      (escapeChar backtick text)))) = escapeInWords text := by
  induction text with
  | nil => rfl
  | cons c rest ih =>
    have hcons : escapeInWords (c :: rest)
        = (if c = backtick ∨ c = '*' ∨ c = '_' ∨ c = '~' ∨ c = '|' then [backslash, c]
            else [c]) ++ escapeInWords rest := by
      unfold escapeInWords
      rw [List.flatMap_cons]
    rw [hcons, ← ih, escapeChar_cons, escapeChar_append, escapeChar_append,
      escapeChar_append, escapeChar_append]
    congr 1
    by_cases h1 : c = backtick
    · subst h1
      decide
    by_cases h2 : c = '*'
    · subst h2
      decide
    by_cases h3 : c = '_'
    · subst h3
      decide
    by_cases h4 : c = '~'
    · subst h4
      decide
    by_cases h5 : c = '|'
    · subst h5
      decide
    simp [escapeChar, h1, h2, h3, h4, h5]

theorem sanitizeForDiscord_of_no_triple (text : String) (maxLength : Nat)
    (h : ¬ [backtick, backtick, backtick] <:+: text.toList)
    (hfit : (escapeInWords text.toList).length ≤ maxLength) :
    sanitizeForDiscord text maxLength = String.mk (escapeInWords text.toList) := by
  unfold sanitizeForDiscord
  split_ifs with h0
  · have : text.toList = [] := List.length_eq_zero.mp h0
    rw [this]
    rfl
  · unfold escapeMarkdown
    rw [replaceTripleBackticks_of_no_triple _ h, escapeChain_eq_inWords]
    unfold truncateText
    rw [if_pos (Or.inr (show (String.mk (escapeInWords text.toList)).length ≤ maxLength
      from hfit))]

/-- C27 (the code departs from it): three backticks in a row come out with two
backslashes before each backtick (the first `replace` escapes the run and the second
escapes its backticks again), where the claim gives one backslash; a single backtick and
an asterisk do get one backslash. -/
theorem triple_backtick_escaped_twice :
    sanitizeForDiscord (String.mk [backtick, backtick, backtick]) 2000
      = String.mk [backslash, backslash, backtick, backslash, backslash, backtick,
          backslash, backslash, backtick] ∧
    String.mk (escapeInWords [backtick, backtick, backtick])
      = String.mk [backslash, backtick, backslash, backtick, backslash, backtick] ∧
    sanitizeForDiscord (String.mk [backtick, backtick, backtick]) 2000
      ≠ String.mk (escapeInWords [backtick, backtick, backtick]) ∧
    sanitizeForDiscord (String.mk [backtick]) 2000 = String.mk [backslash, backtick] ∧
    sanitizeForDiscord "a*b" 2000 = String.mk ['a', backslash, '*', 'b'] := by
  refine ⟨by decide, by decide, by decide, by decide, by decide⟩

/-! ## Configuring the number of retries -/

/-- C28 (the code departs from it): `rateLimit.maxRetries: 0` is read as absent. The
constructor gives `maxRetries = 3` for it, whatever the rest of the `config`, and
`configure` leaves `maxRetries` as it was; a positive value is taken over by both. A
service built with a webhook URL and `maxRetries: 0` calls a sink that always answers 429
four times for one entry. -/
theorem zero_retries_not_configurable :
    (∀ (config : DiscordConfig) (rateLimit : RateLimitOptions),
      (DiscordWebhookService.constructor
        { config with rateLimit := some { rateLimit with maxRetries := some 0 } }).maxRetries
        = 3) ∧
    (∀ (svc : DiscordWebhookService) (rateLimit : RateLimitOptions),
      (svc.configure { rateLimit := some { rateLimit with maxRetries := some 0 } }).map
        (fun after => after.maxRetries) = Except.ok svc.maxRetries) ∧
    (∀ (config : DiscordConfig) (rateLimit : RateLimitOptions) (n : Nat),
      (DiscordWebhookService.constructor
        { config with rateLimit := some { rateLimit with maxRetries := some (n + 1) } }
        ).maxRetries = n + 1) ∧
    (∀ (svc : DiscordWebhookService) (rateLimit : RateLimitOptions) (n : Nat),
      (svc.configure { rateLimit := some { rateLimit with maxRetries := some (n + 1) } }).map
        (fun after => after.maxRetries) = Except.ok (n + 1)) ∧
    zeroRetriesService.maxRetries = 3 ∧
    (sendWithRetry zeroRetriesService (alwaysFails (httpError 429 none)) sampleEntry 0 0
      ).posts.length = 4 := by
  refine ⟨fun _ _ => rfl, fun _ _ => rfl, ?_, ?_, rfl, ?_⟩
  · intro config rateLimit n
    simp [DiscordWebhookService.constructor, orCount]
  · intro svc rateLimit n
    simp [DiscordWebhookService.configure, orCount, truthyText, Except.map]
  · have h := sendWithRetry_always_rateLimited zeroRetriesService
      (alwaysFails (httpError 429 none)) sampleEntry mockWebhookUrl rfl
      (fun _ => ⟨_, rfl⟩) (fun _ => ⟨_, rfl, ⟨429, none⟩, rfl, rfl⟩) 3 0 0 rfl
    exact h.2

/-! ## Falsy content -/

/-- C29 (the code departs from it): `processContentForDiscord` answers
'No content provided' for the contents 0, false and the empty string, for every storage
service; `createEmbed` does push a data field for `data: 0`, and with a storage service
linked its value is 'No content provided', while without one it is '0'. -/
theorem falsy_content_reported_missing :
    (∀ (rt : Runtime) (g : GitHubStorageService) (env : StoreEnv)
        (functionName fileName : JsVal) (type : String),
      (processContentForDiscord rt g env (JsVal.number 0) functionName fileName type
        ).decision.text = "No content provided" ∧
      (processContentForDiscord rt g env (JsVal.bool false) functionName fileName type
        ).decision.text = "No content provided" ∧
      (processContentForDiscord rt g env (JsVal.string "") functionName fileName type
        ).decision.text = "No content provided") ∧
    (∀ (rt : Runtime) (g : GitHubStorageService) (stores : String → StoreEnv),
      (createEmbed rt sampleService (some g) stores zeroDataEntry).result.map
        (fun embed => embed.fields) = Except.ok [⟨"📊 Data", "No content provided", false⟩]) ∧
    (∀ (rt : Runtime) (stores : String → StoreEnv),
      (createEmbed rt sampleService none stores zeroDataEntry).result.map
        (fun embed => embed.fields) = Except.ok [⟨"📊 Data", "0", false⟩]) := by
  refine ⟨fun _ _ _ _ _ _ => ⟨rfl, rfl, rfl⟩, ?_, ?_⟩
  · intro rt g stores
    rfl
  · intro rt stores
    have h0 : numberToString rt 0 = "0" := by
      simp [numberToString]
      rfl
    have hc : contentText rt (JsVal.number 0) = "0" := by
      simp [contentText, typeofObject, jsToString, h0]
    have hp : ∀ (env : StoreEnv) (functionName fileName : JsVal) (type : String),
        processContentField rt none env (JsVal.number 0) functionName fileName type
          = ⟨⟨true, "0", some 1, none, none⟩, [], []⟩ := by
      intro env functionName fileName type
      unfold processContentField
      simp only [hc]
      rfl
    simp only [createEmbed, zeroDataEntry, sampleEntry, hp]
    rfl

/-! ## Inline routing of short strings -/

theorem processContentForDiscord_inline (rt : Runtime) (g : GitHubStorageService)
    (env : StoreEnv) (text : String) (functionName fileName : JsVal) (type : String)
    (hne : text.length ≠ 0) (hle : text.length ≤ g.contentThreshold) :
    processContentForDiscord rt g env (JsVal.string text) functionName fileName type
      = ⟨⟨true, sanitizeForDiscord text 1000, some text.length, none, none⟩, [], []⟩ := by
  have ht : (JsVal.string text).truthy = true := by simp [JsVal.truthy, hne]
  have hs : shouldUploadToGitHub rt g (JsVal.string text) none = false := by
    rw [shouldUpload_string]
    simpa using hle
  simp [processContentForDiscord, ht, contentText_string, hs, typeofObject]

theorem sanitizeForDiscord_plain (text : String) (maxLength : Nat)
    (hfree : markdownFree text.toList) :
    sanitizeForDiscord text maxLength = truncateText text maxLength := by
  unfold sanitizeForDiscord
  split_ifs with h0
  · unfold truncateText
    rw [if_pos (Or.inl h0)]
    exact String.ext (List.length_eq_zero.mp h0).symm
  · rw [escapeMarkdown_of_markdownFree _ hfree]
    rfl

theorem truncateText_fits (text : String) (maxLength : Nat) (h : text.length ≤ maxLength) :
    truncateText text maxLength = text := by
  unfold truncateText
  rw [if_pos (Or.inr h)]

theorem truncateText_cut (text : String) (maxLength : Nat) (h : maxLength < text.length) :
    truncateText text maxLength = String.mk (text.toList.take (maxLength - 3)) ++ "..." := by
  unfold truncateText
  rw [if_neg (by omega)]

theorem processContentField_plain (rt : Runtime) (storage : Option GitHubStorageService)
    (env : StoreEnv) (text : String) (functionName fileName : JsVal) (type : String)
    (hne : text.length ≠ 0) (hlen : text.length ≤ 1000) (hfree : markdownFree text.toList)
    (hthr : ∀ g, storage = some g → 1000 ≤ g.contentThreshold) :
    (processContentField rt storage env (JsVal.string text) functionName fileName type
      ).decision = ⟨true, text, some text.length, none, none⟩ := by
  cases storage with
  | some g =>
    have h := hthr g rfl
    show (processContentForDiscord rt g env (JsVal.string text) functionName fileName type
      ).decision = _
    rw [processContentForDiscord_inline rt g env text functionName fileName type hne
      (by omega), sanitizeForDiscord_plain text 1000 hfree, truncateText_fits text 1000 hlen]
  | none =>
    unfold processContentField
    simp only [contentText_string, hlen, if_true, typeofObject, Bool.false_eq_true, if_false]
    rw [sanitizeForDiscord_plain text 2000 hfree, truncateText_fits text 2000 (by omega)]

/-! ## The total number of characters -/

/-- C22 (the code departs from it): under the default limits, for an entry with a
message of 4096 characters and plain strings of 1000 characters as `data` and as
`response` (with no storage service, or one whose threshold is at least 1000),
`createEmbed` returns an embed with the whole message as description and both strings as
field values: it holds more than 6000 characters. The limit `totalCharacters` is never
read. -/
theorem total_characters_exceed_limit (rt : Runtime) (svc : DiscordWebhookService)
    (storage : Option GitHubStorageService) (stores : String → StoreEnv) (entry : LogEntry)
    (message data response : String)
    (hlim : svc.limits = {})
    (hthr : ∀ g, storage = some g → 1000 ≤ g.contentThreshold)
    (hmsg : entry.message = JsVal.string message) (hmlen : message.length = 4096)
    (hdata : entry.data = JsVal.string data) (hdlen : data.length = 1000)
    (hdfree : markdownFree data.toList)
    (hresp : entry.response = JsVal.string response) (hrlen : response.length = 1000)
    (hrfree : markdownFree response.toList) :
    ∃ embed, (createEmbed rt svc storage stores entry).result = Except.ok embed ∧
      embed.description = JsVal.string message ∧
      ⟨"📊 Data", data, false⟩ ∈ embed.fields ∧
      ⟨"📤 Response", response, false⟩ ∈ embed.fields ∧
      6000 < embed.totalCharacters ∧
      svc.limits.totalCharacters = 6000 := by
  have h2 : svc.limits.embedDescription = 4096 := by rw [hlim]
  have h3 : svc.limits.fieldValue = 1024 := by rw [hlim]
  have hd : truncateTextVal (JsVal.string message) svc.limits.embedDescription
      = Except.ok (JsVal.string message) := by
    unfold truncateTextVal
    split_ifs
    · rfl
    · show Except.ok (JsVal.string (truncateText message svc.limits.embedDescription)) = _
      rw [truncateText_fits message svc.limits.embedDescription (by omega)]
  have hfd : contentField svc "📊 Data" "📊 Data (GitHub)"
      (processContentField rt storage (stores "data") (JsVal.string data)
        entry.functionName entry.fileName "data") = ⟨"📊 Data", data, false⟩ := by
    unfold contentField
    rw [processContentField_plain rt storage (stores "data") data entry.functionName
      entry.fileName "data" (by omega) (by omega) hdfree hthr]
    simp only [if_true]
    rw [truncateText_fits data _ (by omega)]
  have hfr : contentField svc "📤 Response" "📤 Response (GitHub)"
      (processContentField rt storage (stores "response") (JsVal.string response)
        entry.functionName entry.fileName "response") = ⟨"📤 Response", response, false⟩ := by
    unfold contentField
    rw [processContentField_plain rt storage (stores "response") response entry.functionName
      entry.fileName "response" (by omega) (by omega) hrfree hthr]
    simp only [if_true]
    rw [truncateText_fits response _ (by omega)]
  simp only [createEmbed, hmsg, hd, hdata, hresp, isNullish, Bool.not_false, if_true,
    List.map_cons, List.map_nil, hfd, hfr]
  refine ⟨_, rfl, rfl, by simp, by simp, ?_, by rw [hlim]⟩
  simp only [Embed.totalCharacters, textLength, List.map_append, List.sum_append,
    List.map_cons, List.map_nil, List.sum_cons, List.sum_nil, hmlen, hdlen, hrlen]
  omega

theorem replicate_markdownFree (n : Nat) (c : Char)
    (h : c ≠ backtick ∧ c ≠ '*' ∧ c ≠ '_' ∧ c ≠ '~' ∧ c ≠ '|') :
    markdownFree (List.replicate n c) := by
  intro x hx
  rw [List.eq_of_mem_replicate hx]
  exact h

/-- Witness for C22: the sample service without storage service, and the entry with
4096 letters as message and 1000 letters as `data` and as `response`. -/
theorem total_characters_exceed_limit_witness :
    ∃ embed, (createEmbed sampleRuntime sampleService none (fun _ => acceptingStore)
        crowdedEntry).result = Except.ok embed ∧
      embed.description = JsVal.string fullMessage ∧
      ⟨"📊 Data", thousandText, false⟩ ∈ embed.fields ∧
      ⟨"📤 Response", thousandText, false⟩ ∈ embed.fields ∧
      6000 < embed.totalCharacters ∧
      sampleService.limits.totalCharacters = 6000 := by
  have hm : fullMessage.length = 4096 := by
    unfold fullMessage
    show (List.replicate 4096 'm').length = 4096
    rw [List.length_replicate]
  have ht : thousandText.length = 1000 := by
    unfold thousandText
    show (List.replicate 1000 'a').length = 1000
    rw [List.length_replicate]
  have hf : markdownFree thousandText.toList := by
    unfold thousandText
    exact replicate_markdownFree 1000 'a' (by decide)
  have hlim : sampleService.limits = {} := rfl
  have hmsg : crowdedEntry.message = JsVal.string fullMessage := rfl
  have hdata : crowdedEntry.data = JsVal.string thousandText := rfl
  have hresp : crowdedEntry.response = JsVal.string thousandText := rfl
  exact total_characters_exceed_limit sampleRuntime sampleService none
    (fun _ => acceptingStore) crowdedEntry fullMessage thousandText thousandText hlim
    (fun g h => by cases h) hmsg hm hdata ht hf hresp ht hf

/-! ## The limit applied to inline text -/

theorem inline_text_cut_at_1000 (rt : Runtime) (svc : DiscordWebhookService)
    (g : GitHubStorageService) (stores : String → StoreEnv) (entry : LogEntry)
    (text message : String)
    (hlim : svc.limits.fieldValue = 1024) (hthr : text.length ≤ g.contentThreshold)
    (hmsg : entry.message = JsVal.string message)
    (hdata : entry.data = JsVal.string text)
    (hlong : 1000 < text.length) (hshort : text.length ≤ svc.limits.fieldValue)
    (hfree : markdownFree text.toList) :
    (processContentForDiscord rt g (stores "data") (JsVal.string text) entry.functionName
      entry.fileName "data").decision.text = String.mk (text.toList.take 997) ++ "..." ∧
    (∃ embed, (createEmbed rt svc (some g) stores entry).result = Except.ok embed ∧
      ⟨"📊 Data", String.mk (text.toList.take 997) ++ "...", false⟩ ∈ embed.fields) ∧
    String.mk (text.toList.take 997) ++ "..." ≠ text := by
  have hcut : sanitizeForDiscord text 1000 = String.mk (text.toList.take 997) ++ "..." := by
    rw [sanitizeForDiscord_plain text 1000 hfree, truncateText_cut text 1000 hlong]
  have hlen : (String.mk (text.toList.take 997) ++ "...").length = 1000 := by
    rw [String.length_append]
    show (text.toList.take 997).length + 3 = 1000
    rw [List.length_take]
    have : text.toList.length = text.length := rfl
    omega
  have hp := processContentForDiscord_inline rt g (stores "data") text entry.functionName
    entry.fileName "data" (by omega) hthr
  rw [hcut] at hp
  refine ⟨by rw [hp], ?_, ?_⟩
  · obtain ⟨d, hd⟩ := truncateTextVal_string message svc.limits.embedDescription
    have hfield : contentField svc "📊 Data" "📊 Data (GitHub)"
        (processContentField rt (some g) (stores "data") (JsVal.string text)
          entry.functionName entry.fileName "data")
        = ⟨"📊 Data", String.mk (text.toList.take 997) ++ "...", false⟩ := by
      unfold contentField processContentField
      simp only [hp, if_true]
      rw [truncateText_fits _ _ (by omega)]
    simp only [createEmbed, hmsg, hd, hdata, isNullish, Bool.not_false, if_true,
      List.map_cons, List.map_nil, hfield]
    exact ⟨_, rfl, by simp⟩
  · intro heq
    rw [heq] at hlen
    omega

/-- C26 as stated fails: under the default limits (`limits.fieldValue = 1024`,
`contentThreshold = 1800`) a string of 1010 letters, which has no markdown character and
is within both, does not reach the data field unchanged: the inline text and the field
value are its first 997 characters followed by '...'. -/
theorem inline_text_cut_below_field_limit :
    borderText.length = 1010 ∧ markdownFree borderText.toList ∧
    sampleService.limits.fieldValue = 1024 ∧ defaultStorage.contentThreshold = 1800 ∧
    (processContentForDiscord sampleRuntime defaultStorage acceptingStore
      (JsVal.string borderText) borderDataEntry.functionName borderDataEntry.fileName "data"
      ).decision.text = String.mk (borderText.toList.take 997) ++ "..." ∧
    (∃ embed, (createEmbed sampleRuntime sampleService (some defaultStorage)
        (fun _ => acceptingStore) borderDataEntry).result = Except.ok embed ∧
      ⟨"📊 Data", String.mk (borderText.toList.take 997) ++ "...", false⟩ ∈ embed.fields) ∧
    String.mk (borderText.toList.take 997) ++ "..." ≠ borderText := by
  have hl : borderText.length = 1010 := by
    unfold borderText
    show (List.replicate 1010 'a').length = 1010
    rw [List.length_replicate]
  have hf : markdownFree borderText.toList := by
    unfold borderText
    exact replicate_markdownFree 1010 'a' (by decide)
  have hlim : sampleService.limits.fieldValue = 1024 := rfl
  have hthr : defaultStorage.contentThreshold = 1800 := rfl
  have hmsg : borderDataEntry.message = JsVal.string "No message provided" := rfl
  have hdata : borderDataEntry.data = JsVal.string borderText := rfl
  exact ⟨hl, hf, hlim, hthr,
    inline_text_cut_at_1000 sampleRuntime sampleService defaultStorage
      (fun _ => acceptingStore) borderDataEntry borderText "No message provided" hlim
      (by omega) hmsg hdata (by omega) (by omega) hf⟩

/-- C26 (amended): for every non-empty string within the threshold, every storage
service, limits and store behaviour, `processContentForDiscord` returns an inline
decision without upload whose text is the content after the chain of `replace` calls of
`sanitizeForDiscord`, truncated by `truncateText` to 1000 characters, and the data field
of the embed holds that text truncated to `limits.fieldValue`. A string without markdown
characters that has at most 1000 and at most `limits.fieldValue` characters reaches the
data field unchanged. -/
theorem inline_text_truncated_to_constant (rt : Runtime) (svc : DiscordWebhookService)
    (g : GitHubStorageService) (stores : String → StoreEnv) (entry : LogEntry)
    (text message : String)
    (hne : text.length ≠ 0) (hthr : text.length ≤ g.contentThreshold)
    (hmsg : entry.message = JsVal.string message)
    (hdata : entry.data = JsVal.string text) :
    (∀ (env : StoreEnv) (functionName fileName : JsVal) (type : String),
      processContentForDiscord rt g env (JsVal.string text) functionName fileName type
        = ⟨⟨true, truncateText (String.mk (escapeMarkdown text.toList)) 1000,
            some text.length, none, none⟩, [], []⟩) ∧
    (∃ embed, (createEmbed rt svc (some g) stores entry).result = Except.ok embed ∧
      ⟨"📊 Data",
        truncateText (truncateText (String.mk (escapeMarkdown text.toList)) 1000)
          svc.limits.fieldValue, false⟩ ∈ embed.fields) ∧
    (markdownFree text.toList → text.length ≤ 1000 → text.length ≤ svc.limits.fieldValue →
      truncateText (truncateText (String.mk (escapeMarkdown text.toList)) 1000)
        svc.limits.fieldValue = text) := by
  have hs : sanitizeForDiscord text 1000
      = truncateText (String.mk (escapeMarkdown text.toList)) 1000 := by
    unfold sanitizeForDiscord
    rw [if_neg hne]
  have hp : ∀ (env : StoreEnv) (functionName fileName : JsVal) (type : String),
      processContentForDiscord rt g env (JsVal.string text) functionName fileName type
        = ⟨⟨true, truncateText (String.mk (escapeMarkdown text.toList)) 1000,
            some text.length, none, none⟩, [], []⟩ := by
    intro env functionName fileName type
    rw [processContentForDiscord_inline rt g env text functionName fileName type hne hthr, hs]
  refine ⟨hp, ?_, ?_⟩
  · obtain ⟨d, hd⟩ := truncateTextVal_string message svc.limits.embedDescription
    have hfield : contentField svc "📊 Data" "📊 Data (GitHub)"
        (processContentField rt (some g) (stores "data") (JsVal.string text)
          entry.functionName entry.fileName "data")
        = ⟨"📊 Data",
            truncateText (truncateText (String.mk (escapeMarkdown text.toList)) 1000)
              svc.limits.fieldValue, false⟩ := by
      unfold contentField processContentField
      simp only [hp, if_true]
    simp only [createEmbed, hmsg, hd, hdata, isNullish, Bool.not_false, if_true,
      List.map_cons, List.map_nil, hfield]
    exact ⟨_, rfl, by simp⟩
  · intro hfree h1000 hfield
    rw [escapeMarkdown_of_markdownFree _ hfree]
    show truncateText (truncateText text 1000) svc.limits.fieldValue = text
    rw [truncateText_fits text 1000 h1000, truncateText_fits text _ hfield]

/-- Witness for the amended C26: on the sample service with a default storage service,
the data 'a*b' reaches the data field with its asterisk escaped, and the data 'abc'
reaches it unchanged. -/
theorem inline_text_truncated_to_constant_witness :
    (∃ embed, (createEmbed sampleRuntime sampleService (some defaultStorage)
        (fun _ => acceptingStore) starDataEntry).result = Except.ok embed ∧
      ⟨"📊 Data",
        truncateText (truncateText (String.mk (escapeMarkdown "a*b".toList)) 1000)
          sampleService.limits.fieldValue, false⟩ ∈ embed.fields) ∧
    truncateText (truncateText (String.mk (escapeMarkdown "a*b".toList)) 1000)
      sampleService.limits.fieldValue = String.mk ['a', backslash, '*', 'b'] ∧
    (∃ embed, (createEmbed sampleRuntime sampleService (some defaultStorage)
        (fun _ => acceptingStore) plainDataEntry).result = Except.ok embed ∧
      ⟨"📊 Data",
        truncateText (truncateText (String.mk (escapeMarkdown "abc".toList)) 1000)
          sampleService.limits.fieldValue, false⟩ ∈ embed.fields) ∧
    truncateText (truncateText (String.mk (escapeMarkdown "abc".toList)) 1000)
      sampleService.limits.fieldValue = "abc" :=
  ⟨(inline_text_truncated_to_constant sampleRuntime sampleService defaultStorage
      (fun _ => acceptingStore) starDataEntry "a*b" "No message provided" (by decide)
      (by decide) rfl rfl).2.1,
    by decide,
    (inline_text_truncated_to_constant sampleRuntime sampleService defaultStorage
      (fun _ => acceptingStore) plainDataEntry "abc" "No message provided" (by decide)
      (by decide) rfl rfl).2.1,
    (inline_text_truncated_to_constant sampleRuntime sampleService defaultStorage
      (fun _ => acceptingStore) plainDataEntry "abc" "No message provided" (by decide)
      (by decide) rfl rfl).2.2
      (show ∀ c ∈ "abc".toList, c ≠ backtick ∧ c ≠ '*' ∧ c ≠ '_' ∧ c ≠ '~' ∧ c ≠ '|' by
        decide)
      (by decide) (by decide)⟩

/-! ## Uploads of a logger without webhook URL -/

theorem processContentForDiscord_requests (rt : Runtime) (g : GitHubStorageService)
    (env : StoreEnv) (text : String) (functionName fileName : JsVal) (type : String)
    (hlen : text.length > g.contentThreshold) :
    (processContentForDiscord rt g env (JsVal.string text) functionName fileName type
      ).requests
      = (uploadToGitHub rt g env (JsVal.string text) functionName fileName type).requests := by
  have ht : (JsVal.string text).truthy = true := by
    have : text.length ≠ 0 := by omega
    simp [JsVal.truthy, this]
  have hs : shouldUploadToGitHub rt g (JsVal.string text) none = true := by
    rw [shouldUpload_string]
    simpa using hlen
  simp only [processContentForDiscord, ht, contentText_string, hs, Bool.not_true,
    Bool.false_eq_true, if_false]
  split <;> rfl

/-- C30 (the code departs from it): `sendWithRetry` builds the payload before it tests
the webhook URL. With no webhook URL and a storage service that has token and
repository, an entry whose string `data` is longer than the threshold (and within the
size limit) makes `createPayload` issue a PUT request to the overflow store; the entry
is then not posted and its promise is fulfilled with `{ success: true, result:
{ disabled: true, message: 'Webhook URL not configured' } }`. -/
theorem upload_without_webhook (rt : Runtime) (svc : DiscordWebhookService)
    (g : GitHubStorageService) (stores : String → StoreEnv) (env : Nat → Attempt)
    (pacingOverrun : ℚ) (entry : LogEntry) (now : ℚ)
    (text message functionName fileName : String)
    (hurl : svc.webhookUrl = none)
    (htoken : truthyText g.githubToken = true) (howner : truthyText g.repoOwner = true)
    (hrepo : truthyText g.repoName = true)
    (hmsg : entry.message = JsVal.string message)
    (hfn : entry.functionName = JsVal.string functionName)
    (hfile : entry.fileName = JsVal.string fileName)
    (hdata : entry.data = JsVal.string text)
    (hlen : text.length > g.contentThreshold) (hsize : text.length ≤ g.maxFileSize)
    (hpay : (env 0).payload
      = (createPayload rt svc (some g) stores entry).result.map Payload.toJson) :
    (∃ request, request ∈ (createPayload rt svc (some g) stores entry).requests ∧
      request.content = text ∧ request.token = g.githubToken.getD "") ∧
    (dispatch svc env pacingOverrun entry now).posts = [] ∧
    settlement (dispatch svc env pacingOverrun entry now)
      = DeliveryResult.success disabledResult := by
  constructor
  · have hreq := processContentForDiscord_requests rt g (stores "data") text
      entry.functionName entry.fileName "data" hlen
    have h2 : ¬ (contentText rt (JsVal.string text)).length > g.maxFileSize := by
      rw [contentText_string]
      omega
    have hup : ∃ request, (uploadToGitHub rt g (stores "data") (JsVal.string text)
        entry.functionName entry.fileName "data").requests = [request] ∧
        request.content = text ∧ request.token = g.githubToken.getD "" := by
      rw [hfn, hfile]
      simp only [uploadToGitHub, htoken, howner, hrepo, uploadAttempt, h2, if_false,
        Bool.not_true, Bool.false_eq_true, Bool.or_self]
      rcases (stores "data").put with e | (_ | answer)
      · exact ⟨_, rfl, rfl, rfl⟩
      · exact ⟨_, rfl, rfl, rfl⟩
      · exact ⟨_, rfl, rfl, rfl⟩
    obtain ⟨request, hr, hc, ht⟩ := hup
    rw [← hreq] at hr
    refine ⟨request, ?_, hc, ht⟩
    obtain ⟨d, hd⟩ := truncateTextVal_string message svc.limits.embedDescription
    simp only [createPayload, createEmbed, hmsg, hd, hdata, isNullish, Bool.not_false,
      if_true, processContentField]
    have hmem : request ∈ (processContentForDiscord rt g (stores "data") (JsVal.string text)
        entry.functionName entry.fileName "data").requests := by
      rw [hr]
      exact List.mem_singleton.mpr rfl
    simp only [List.flatMap_append, List.flatMap_cons, List.flatMap_nil, List.append_nil,
      List.mem_append]
    exact Or.inl (Or.inl (Or.inr hmem))
  · obtain ⟨payload, hp⟩ := createPayload_string_message rt svc (some g) stores entry
      message hmsg
    have hp2 : (env 0).payload = Except.ok payload.toJson := by
      rw [hpay, hp]
      rfl
    have ht : tryBlock svc (env 0) entry 0 (dispatchStart svc pacingOverrun now)
        = ⟨Except.ok disabledResult, [], dispatchStart svc pacingOverrun now
            + (env 0).buildTime⟩ := by
      simp [tryBlock, hurl, hp2]
    have hout : (tryBlock svc (env 0) entry 0 (dispatchStart svc pacingOverrun now)).outcome
        = Except.ok disabledResult := by
      rw [ht]
    have hs := sendWithRetry_ok svc env entry 0 (dispatchStart svc pacingOverrun now)
      disabledResult hout
    unfold dispatch
    rw [hs, ht]
    exact ⟨rfl, rfl⟩

/-- Witness for C30: the entry with 1801 letters as `data`, the sample service without
webhook URL and a storage service with token and repository. -/
theorem upload_without_webhook_witness :
    (∃ request, request ∈ (createPayload sampleRuntime unconfiguredService
        (some configuredStorage) (fun _ => acceptingStore) longDataEntry).requests ∧
      request.content = longText ∧
      request.token = configuredStorage.githubToken.getD "") ∧
    (dispatch unconfiguredService builtUnconfigured 0 longDataEntry 0).posts = [] ∧
    settlement (dispatch unconfiguredService builtUnconfigured 0 longDataEntry 0)
      = DeliveryResult.success disabledResult := by
  have hl : longText.length = 1801 := by
    unfold longText
    show (List.replicate 1801 'a').length = 1801
    rw [List.length_replicate]
  have hthr : configuredStorage.contentThreshold = 1800 := rfl
  have hmax : configuredStorage.maxFileSize = 25 * 1024 * 1024 := rfl
  have hurl : unconfiguredService.webhookUrl = none := rfl
  have hmsg : longDataEntry.message = JsVal.string "No message provided" := rfl
  have hfn : longDataEntry.functionName = JsVal.string "unknown" := rfl
  have hfile : longDataEntry.fileName = JsVal.string "unknown" := rfl
  have hdata : longDataEntry.data = JsVal.string longText := rfl
  have hpay : (builtUnconfigured 0).payload
      = (createPayload sampleRuntime unconfiguredService (some configuredStorage)
          (fun _ => acceptingStore) longDataEntry).result.map Payload.toJson := rfl
  exact upload_without_webhook sampleRuntime unconfiguredService configuredStorage
    (fun _ => acceptingStore) builtUnconfigured 0 longDataEntry 0 longText
    "No message provided" "unknown" "unknown" hurl (by decide) (by decide) (by decide)
    hmsg hfn hfile hdata (by omega) (by omega) hpay

/-! ## The drain loop: one invocation, head-first, every handle resolved -/

theorem processQueue_enqueued (s : Scheduler) (now : ℚ) :
    (processQueue s now).enqueued = s.enqueued ∧
    (processQueue s now).promises = s.promises := by
  unfold processQueue
  split_ifs
  · exact ⟨rfl, rfl⟩
  · unfold loopHead
    split <;> exact ⟨rfl, rfl⟩

theorem log_enqueued (s : Scheduler) (options : JsVal) (now : ℚ) (logEntry : LogEntry)
    (h : mkLogEntry options now s.promises.length = Except.ok logEntry) :
    (log s options now).enqueued = s.enqueued ++ [logEntry] := by
  simp only [log, h]
  rw [(processQueue_enqueued _ now).1]

theorem resume_enqueued (s : Scheduler) (env : Nat → Attempt) (pacingOverrun : ℚ) :
    (resume s env pacingOverrun).enqueued = s.enqueued := by
  unfold resume
  split
  · rfl
  · simp only [loopHead]
    split <;> rfl

theorem resolvePromise_pending (promises : List PromiseState) (id : Nat)
    (value : DeliveryResult) (h : promises[id]? = some PromiseState.pending) :
    (resolvePromise promises id value)[id]? = some (PromiseState.fulfilled value) := by
  have hlt : id < promises.length := by
    by_contra hge
    rw [List.getElem?_eq_none (by omega)] at h
    cases h
  simp only [resolvePromise, h]
  rw [List.getElem?_set_self hlt]

theorem settledInv_step (s : Scheduler) (ev : Event) (hc : Consistent s)
    (hp : PromiseInv s) (h : SettledInv s) : SettledInv (step s ev) := by
  obtain ⟨done, henq, hdone⟩ := h
  have hkeep : ∀ e ∈ done,
      ∃ v, (step s ev).promises[e.resolve]? = some (PromiseState.fulfilled v) := by
    intro e he
    obtain ⟨v, hv⟩ := hdone e he
    exact ⟨v, step_fulfilled s ev e.resolve v hv⟩
  cases ev with
  | log options now =>
    cases hl : mkLogEntry options now s.promises.length with
    | error e =>
      refine ⟨done, ?_, hkeep⟩
      show (log s options now).enqueued = done ++ waiting (log s options now)
      rw [log_rejected s options now e hl]
      exact henq
    | ok logEntry =>
      refine ⟨done, ?_, hkeep⟩
      show (log s options now).enqueued = done ++ waiting (log s options now)
      rw [log_enqueued s options now logEntry hl,
        (waiting_log s options now logEntry hc hl).1, henq, List.append_assoc]
  | resume env pacingOverrun =>
    cases hi : s.inflight with
    | none =>
      refine ⟨done, ?_, hkeep⟩
      show (resume s env pacingOverrun).enqueued = done ++ waiting (resume s env pacingOverrun)
      rw [resume_idle s env pacingOverrun hi]
      exact henq
    | some x =>
      obtain ⟨logEntry, now⟩ := x
      have hws := waiting_of_inflight s logEntry now hi
      have hw := waiting_resume s env pacingOverrun hc
      rw [hws, List.tail_cons] at hw
      refine ⟨done ++ [logEntry], ?_, ?_⟩
      · show (resume s env pacingOverrun).enqueued
          = done ++ [logEntry] ++ waiting (resume s env pacingOverrun)
        rw [resume_enqueued, hw, henq, hws]
        simp
      · intro e he
        rcases List.mem_append.mp he with he | he
        · exact hkeep e he
        · simp only [List.mem_singleton] at he
          subst he
          have hpend := hp.pending e (by rw [hws]; exact List.mem_cons_self _ _)
          refine ⟨settlement (dispatch s.svc env pacingOverrun e now), ?_⟩
          show (resume s env pacingOverrun).promises[e.resolve]? = _
          rw [resume_promises, hi]
          exact resolvePromise_pending _ _ _ hpend

theorem settledInv_run (events : List Event) :
    ∀ s : Scheduler, Consistent s → PromiseInv s → SettledInv s →
      SettledInv (run s events) := by
  induction events with
  | nil => intro s _ _ h; exact h
  | cons ev rest ih =>
    intro s hc hp h
    rw [run_cons]
    exact ih _ (consistent_step s ev hc) (promiseInv_step s ev hc hp)
      (settledInv_step s ev hc hp h)

theorem queue_step (s : Scheduler) (ev : Event) (hc : Consistent s) :
    (step s ev).svc.rateLimitQueue = s.svc.rateLimitQueue ∨
    (∃ e, (step s ev).svc.rateLimitQueue = s.svc.rateLimitQueue ++ [e]) ∨
    (∃ head, s.svc.rateLimitQueue = head :: (step s ev).svc.rateLimitQueue ∧
      (step s ev).inflight.map Prod.fst = some head) := by
  cases ev with
  | log options now =>
    have hstep : step s (Event.log options now) = log s options now := rfl
    rw [hstep]
    cases hl : mkLogEntry options now s.promises.length with
    | error e =>
      rw [log_rejected s options now e hl]
      exact Or.inl rfl
    | ok logEntry =>
      cases hi : s.inflight with
      | none =>
        rw [log_idle s options now logEntry hc hl hi]
        exact Or.inl (hc.idle hi).symm
      | some x =>
        rw [log_busy s options now logEntry hc hl (by rw [hi]; simp)]
        exact Or.inr (Or.inl ⟨logEntry, rfl⟩)
  | resume env pacingOverrun =>
    have hstep : step s (Event.resume env pacingOverrun) = resume s env pacingOverrun := rfl
    rw [hstep]
    cases hi : s.inflight with
    | none =>
      rw [resume_idle s env pacingOverrun hi]
      exact Or.inl rfl
    | some x =>
      obtain ⟨logEntry, now⟩ := x
      cases hq : s.svc.rateLimitQueue with
      | nil =>
        rw [resume_last s env pacingOverrun logEntry now hi hq]
        exact Or.inl hq
      | cons next rest =>
        rw [resume_next s env pacingOverrun logEntry now next rest hi hq]
        exact Or.inr (Or.inr ⟨next, rfl, rfl⟩)

/-- C25: in every state a service reaches through `log` calls and drain progress, the
flag `isProcessingQueue` is set exactly while the one drain invocation the state can
hold is suspended in the loop, and a further `processQueue()` then returns at once; each
event leaves the queue as it is, pushes one entry at its end, or takes its head, which
becomes the entry in work. When no invocation is in the loop the queue is empty and the
promise of every entry pushed so far is fulfilled. The pushed entries have pairwise
distinct completion handles; they are the settled entries, whose promises are fulfilled,
followed by the waiting ones, whose promises are pending. -/
theorem drain_invariants (svc : DiscordWebhookService) (events : List Event) :
    (run (Scheduler.start svc) events).svc.isProcessingQueue
      = (run (Scheduler.start svc) events).inflight.isSome ∧
    (∀ now, (run (Scheduler.start svc) events).svc.isProcessingQueue = true →
      processQueue (run (Scheduler.start svc) events) now
        = run (Scheduler.start svc) events) ∧
    (∀ ev,
      (step (run (Scheduler.start svc) events) ev).svc.rateLimitQueue
        = (run (Scheduler.start svc) events).svc.rateLimitQueue ∨
      (∃ e, (step (run (Scheduler.start svc) events) ev).svc.rateLimitQueue
        = (run (Scheduler.start svc) events).svc.rateLimitQueue ++ [e]) ∨
      (∃ head, (run (Scheduler.start svc) events).svc.rateLimitQueue
          = head :: (step (run (Scheduler.start svc) events) ev).svc.rateLimitQueue ∧
        (step (run (Scheduler.start svc) events) ev).inflight.map Prod.fst = some head)) ∧
    ((run (Scheduler.start svc) events).svc.isProcessingQueue = false →
      (run (Scheduler.start svc) events).svc.rateLimitQueue = [] ∧
      ∀ e ∈ (run (Scheduler.start svc) events).enqueued,
        ∃ v, (run (Scheduler.start svc) events).promises[e.resolve]?
          = some (PromiseState.fulfilled v)) ∧
    ((run (Scheduler.start svc) events).enqueued.map LogEntry.resolve).Nodup ∧
    (∃ done : List LogEntry,
      (run (Scheduler.start svc) events).enqueued
        = done ++ waiting (run (Scheduler.start svc) events) ∧
      (∀ e ∈ done, ∃ v, (run (Scheduler.start svc) events).promises[e.resolve]?
        = some (PromiseState.fulfilled v)) ∧
      ∀ e ∈ waiting (run (Scheduler.start svc) events),
        (run (Scheduler.start svc) events).promises[e.resolve]?
          = some PromiseState.pending) := by
  have hc := consistent_run events (Scheduler.start svc) (consistent_start svc)
  have hp := promiseInv_run events (Scheduler.start svc) (consistent_start svc)
    (promiseInv_start svc)
  have hh := handleInv_run events (Scheduler.start svc) (consistent_start svc)
    ⟨List.Pairwise.nil, (fun e he => by cases he)⟩
  have hs := settledInv_run events (Scheduler.start svc) (consistent_start svc)
    (promiseInv_start svc) ⟨[], rfl, fun e he => by cases he⟩
  obtain ⟨done, henq, hdone⟩ := hs
  refine ⟨hc.flag, ?_, fun ev => queue_step _ ev hc, ?_, ?_, ⟨done, henq, hdone, hp.pending⟩⟩
  · intro now hflag
    unfold processQueue
    rw [hflag]
    rfl
  · intro hflag
    have hi : (run (Scheduler.start svc) events).inflight = none := by
      have h := hc.flag
      rw [hflag] at h
      cases hin : (run (Scheduler.start svc) events).inflight with
      | none => rfl
      | some x =>
        rw [hin] at h
        cases h
    refine ⟨hc.idle hi, ?_⟩
    intro e he
    rw [henq, waiting_of_idle _ hc hi, List.append_nil] at he
    exact hdone e he
  · exact (hh.increasing.imp (fun h => Nat.ne_of_lt h))

/-- Witness for C25: after one `log` call and one drain step on the sample service, no
invocation is in the loop, the queue is empty and the promise of the entry is
fulfilled. -/
theorem drain_invariants_witness :
    (run (Scheduler.start sampleService)
      [Event.log (JsVal.object []) 1000, Event.resume quickRetry 0]).svc.rateLimitQueue
      = [] ∧
    ∀ e ∈ (run (Scheduler.start sampleService)
        [Event.log (JsVal.object []) 1000, Event.resume quickRetry 0]).enqueued,
      ∃ v, (run (Scheduler.start sampleService)
        [Event.log (JsVal.object []) 1000, Event.resume quickRetry 0]).promises[e.resolve]?
        = some (PromiseState.fulfilled v) :=
  (drain_invariants sampleService
    [Event.log (JsVal.object []) 1000, Event.resume quickRetry 0]).2.2.2.1 rfl

/-! ## Batches -/

theorem lookupProp_setProp_self (key : String) (v : JsVal) (props : List (String × JsVal)) :
    lookupProp key (setProp key v props) = v := by
  induction props with
  | nil => simp [setProp, lookupProp]
  | cons p rest ih =>
    obtain ⟨k, w⟩ := p
    simp only [setProp]
    split_ifs with h
    · simp [lookupProp, h]
    · simp [lookupProp, h, ih]

theorem lookupProp_setProp_ne (key other : String) (v : JsVal)
    (props : List (String × JsVal)) (h : key ≠ other) :
    lookupProp other (setProp key v props) = lookupProp other props := by
  induction props with
  | nil => simp [setProp, lookupProp, h]
  | cons p rest ih =>
    obtain ⟨k, w⟩ := p
    simp only [setProp]
    split_ifs with hk
    · subst hk
      simp [lookupProp, h]
    · simp only [lookupProp, ih]

theorem setProp_keys (key : String) (v : JsVal) (props : List (String × JsVal))
    (k : String) (hk : k ∈ props.map Prod.fst) : k ∈ (setProp key v props).map Prod.fst := by
  induction props with
  | nil => cases hk
  | cons p rest ih =>
    obtain ⟨k', w⟩ := p
    simp only [setProp]
    simp only [List.map_cons, List.mem_cons] at hk
    split_ifs with h
    · simp only [List.map_cons, List.mem_cons]
      exact hk
    · simp only [List.map_cons, List.mem_cons]
      rcases hk with hk | hk
      · exact Or.inl hk
      · exact Or.inr (ih hk)

theorem batchMetadata_props (commonMetadata : List (String × JsVal)) (batchId : String)
    (index total : Nat) :
    lookupProp "batch_id" (batchMetadata commonMetadata batchId index total)
      = JsVal.string batchId ∧
    lookupProp "batch_index" (batchMetadata commonMetadata batchId index total)
      = JsVal.number index ∧
    lookupProp "batch_total" (batchMetadata commonMetadata batchId index total)
      = JsVal.number total ∧
    (∀ k ∈ commonMetadata.map Prod.fst,
      k ∈ (batchMetadata commonMetadata batchId index total).map Prod.fst) ∧
    (∀ k, k ≠ "batch_id" → k ≠ "batch_index" → k ≠ "batch_total" →
      lookupProp k (batchMetadata commonMetadata batchId index total)
        = lookupProp k commonMetadata) := by
  unfold batchMetadata
  refine ⟨?_, ?_, ?_, ?_, ?_⟩
  · rw [lookupProp_setProp_ne _ _ _ _ (by decide), lookupProp_setProp_ne _ _ _ _ (by decide),
      lookupProp_setProp_self]
  · rw [lookupProp_setProp_ne _ _ _ _ (by decide), lookupProp_setProp_self]
  · rw [lookupProp_setProp_self]
  · intro k hk
    exact setProp_keys _ _ _ k (setProp_keys _ _ _ k (setProp_keys _ _ _ k hk))
  · intro k h1 h2 h3
    rw [lookupProp_setProp_ne _ _ _ _ (Ne.symm h3), lookupProp_setProp_ne _ _ _ _ (Ne.symm h2),
      lookupProp_setProp_ne _ _ _ _ (Ne.symm h1)]

theorem mkLogEntry_fields (options : JsVal) (now : ℚ) (id : Nat) (logEntry : LogEntry)
    (h : mkLogEntry options now id = Except.ok logEntry) :
    logEntry.resolve = id ∧
    logEntry.metadata = (options.getProp "metadata").orDefault (JsVal.object []) ∧
    logEntry.message
      = (options.getProp "message").orDefault (JsVal.string "No message provided") ∧
    logEntry.data = (options.getProp "data").orDefault JsVal.null := by
  unfold mkLogEntry at h
  split at h
  · cases h
  · cases h
  · split at h
    · cases h
      exact ⟨rfl, rfl, rfl, rfl⟩
    · cases h

theorem loggerLog_options (caller : Caller) (given : List (String × JsVal)) (now : ℚ) :
    ∃ options : List (String × JsVal),
      (∀ s : Scheduler,
        LoggerService.log s caller given now = log s (JsVal.object options) now) ∧
      ∀ key, key ≠ "functionName" → key ≠ "fileName" →
        lookupProp key options = lookupProp key given := by
  refine ⟨_, fun _ => rfl, ?_⟩
  intro key h1 h2
  split_ifs <;>
    first
    | rfl
    | rw [lookupProp_setProp_ne "fileName" key _ _ (Ne.symm h2),
        lookupProp_setProp_ne "functionName" key _ _ (Ne.symm h1)]

theorem loggerLog_entry (caller : Caller) (commonMetadata : List (String × JsVal))
    (batchId : String) (total : Nat) (now : ℚ) (item : JsVal) (index id : Nat)
    (hitem : isLogOptions item = true) :
    ∃ options logEntry,
      (∀ s : Scheduler, LoggerService.log s caller
        (batchOptions commonMetadata batchId total item index) now
          = log s (JsVal.object options) now) ∧
      mkLogEntry (JsVal.object options) now id = Except.ok logEntry ∧
      logEntry.resolve = id ∧
      logEntry.metadata = JsVal.object (batchMetadata commonMetadata batchId index total) ∧
      logEntry.message
        = (item.getProp "message").orDefault (JsVal.string "No message provided") ∧
      logEntry.data = (item.getProp "data").orDefault JsVal.null := by
  cases item with
  | object props =>
    have hlevel : ∀ options : List (String × JsVal),
        lookupProp "level" options = lookupProp "level" props →
        lookupProp "metadata" options
          = JsVal.object (batchMetadata commonMetadata batchId index total) →
        lookupProp "message" options = lookupProp "message" props →
        lookupProp "data" options = lookupProp "data" props →
        ∃ logEntry, mkLogEntry (JsVal.object options) now id = Except.ok logEntry ∧
          logEntry.resolve = id ∧
          logEntry.metadata
            = JsVal.object (batchMetadata commonMetadata batchId index total) ∧
          logEntry.message
            = ((JsVal.object props).getProp "message").orDefault
                (JsVal.string "No message provided") ∧
          logEntry.data = ((JsVal.object props).getProp "data").orDefault JsVal.null := by
      intro options h1 h2 h3 h4
      have hopt : isLogOptions (JsVal.object options) = true := by
        simp only [isLogOptions, h1]
        simpa only [isLogOptions] using hitem
      obtain ⟨logEntry, hm⟩ := mkLogEntry_of_isLogOptions (JsVal.object options) now id hopt
      obtain ⟨f1, f2, f3, f4⟩ := mkLogEntry_fields (JsVal.object options) now id logEntry hm
      refine ⟨logEntry, hm, f1, ?_, ?_, ?_⟩
      · rw [f2]
        simp [JsVal.getProp, h2, JsVal.orDefault]
      · rw [f3]
        simp [JsVal.getProp, h3]
      · rw [f4]
        simp [JsVal.getProp, h4]
    have hbase : ∀ key, key ≠ "metadata" →
        lookupProp key (batchOptions commonMetadata batchId total (JsVal.object props) index)
          = lookupProp key props := by
      intro key hkey
      unfold batchOptions
      rw [lookupProp_setProp_ne _ _ _ _ (Ne.symm hkey)]
      rfl
    have hmeta : lookupProp "metadata"
        (batchOptions commonMetadata batchId total (JsVal.object props) index)
          = JsVal.object (batchMetadata commonMetadata batchId index total) := by
      unfold batchOptions
      rw [lookupProp_setProp_self]
    obtain ⟨options, hopt, hlook⟩ := loggerLog_options caller
      (batchOptions commonMetadata batchId total (JsVal.object props) index) now
    obtain ⟨logEntry, h⟩ := hlevel options
      (by rw [hlook "level" (by decide) (by decide), hbase "level" (by decide)])
      (by rw [hlook "metadata" (by decide) (by decide), hmeta])
      (by rw [hlook "message" (by decide) (by decide), hbase "message" (by decide)])
      (by rw [hlook "data" (by decide) (by decide), hbase "data" (by decide)])
    exact ⟨options, logEntry, hopt, h⟩
  | undefined => cases hitem
  | null => cases hitem
  | bool b => cases hitem
  | number n => cases hitem
  | string s => cases hitem
  | array items => cases hitem
  | error name message stack cause => cases hitem

theorem log_promises_length (s : Scheduler) (options : JsVal) (now : ℚ) :
    (log s options now).promises.length = s.promises.length + 1 := by
  rw [log_promises]
  simp

theorem batchFrom_spec (caller : Caller) (commonMetadata : List (String × JsVal))
    (batchId : String) (total : Nat) (now : ℚ) (logs : List JsVal) :
    ∀ (s : Scheduler) (index : Nat), Consistent s →
      (∀ item ∈ logs, isLogOptions item = true) →
      ∃ entries : List LogEntry,
        (batchFrom caller commonMetadata batchId total now s index logs).1.enqueued
          = s.enqueued ++ entries ∧
        waiting (batchFrom caller commonMetadata batchId total now s index logs).1
          = waiting s ++ entries ∧
        (∃ events, (batchFrom caller commonMetadata batchId total now s index logs).1
          = run s events) ∧
        (batchFrom caller commonMetadata batchId total now s index logs).2
          = List.range' s.promises.length logs.length ∧
        entries.length = logs.length ∧
        ∀ i item, logs[i]? = some item →
          ∃ e, entries[i]? = some e ∧ e.resolve = s.promises.length + i ∧
            e.metadata
              = JsVal.object (batchMetadata commonMetadata batchId (index + i) total) ∧
            e.message
              = (item.getProp "message").orDefault (JsVal.string "No message provided") ∧
            e.data = (item.getProp "data").orDefault JsVal.null := by
  induction logs with
  | nil =>
    intro s index _ _
    refine ⟨[], by simp [batchFrom], by simp [batchFrom], ⟨[], rfl⟩, rfl, rfl, ?_⟩
    intro i item h
    simp at h
  | cons item rest ih =>
    intro s index hc hitems
    obtain ⟨options, e, hopt, hm, hres, hmeta, hmsg, hdata⟩ :=
      loggerLog_entry caller commonMetadata batchId total now item index s.promises.length
        (hitems item (List.mem_cons_self _ _))
    have hc1 : Consistent (log s (JsVal.object options) now) :=
      consistent_step s (Event.log (JsVal.object options) now) hc
    obtain ⟨entries, h1, h2, ⟨events, h3⟩, h4, h5, h6⟩ :=
      ih (log s (JsVal.object options) now) (index + 1) hc1
        (fun x hx => hitems x (List.mem_cons_of_mem _ hx))
    have hstep : batchFrom caller commonMetadata batchId total now s index (item :: rest)
        = ((batchFrom caller commonMetadata batchId total now
              (log s (JsVal.object options) now) (index + 1) rest).1,
            s.promises.length :: (batchFrom caller commonMetadata batchId total now
              (log s (JsVal.object options) now) (index + 1) rest).2) := by
      simp only [batchFrom, hopt]
    rw [hstep]
    refine ⟨e :: entries, ?_, ?_, ⟨Event.log (JsVal.object options) now :: events, ?_⟩,
      ?_, ?_, ?_⟩
    · show (batchFrom caller commonMetadata batchId total now
        (log s (JsVal.object options) now) (index + 1) rest).1.enqueued = _
      rw [h1, log_enqueued s (JsVal.object options) now e hm]
      simp
    · show waiting (batchFrom caller commonMetadata batchId total now
        (log s (JsVal.object options) now) (index + 1) rest).1 = _
      rw [h2, (waiting_log s (JsVal.object options) now e hc hm).1]
      simp
    · show (batchFrom caller commonMetadata batchId total now
        (log s (JsVal.object options) now) (index + 1) rest).1 = _
      rw [h3, run_cons]
      rfl
    · show s.promises.length :: (batchFrom caller commonMetadata batchId total now
        (log s (JsVal.object options) now) (index + 1) rest).2 = _
      rw [h4, log_promises_length, List.length_cons, List.range'_succ]
    · simp [h5]
    · intro i x hx
      cases i with
      | zero =>
        simp only [List.getElem?_cons_zero, Option.some.injEq] at hx
        subst hx
        exact ⟨e, by simp, by simpa using hres, by simpa using hmeta, hmsg, hdata⟩
      | succ j =>
        simp only [List.getElem?_cons_succ] at hx
        obtain ⟨e', g1, g2, g3, g4, g5⟩ := h6 j x hx
        refine ⟨e', by simpa using g1, ?_, ?_, g4, g5⟩
        · rw [g2, log_promises_length]
          omega
        · rw [g3]
          congr 2
          omega

/-- C24: on a service in any state it reaches, for every list of log items (objects
whose `level` is absent or a string), every `commonMetadata` and every batch id,
`batch` pushes one entry per item, in list order, and hands `Promise.all` one promise
per item, in list order, the promise of item `i` being the completion handle of entry
`i`. Entry `i` has the message and data of item `i` and a metadata object in which
`batch_id` is the batch id, `batch_index` is `i`, `batch_total` is the number of items,
and every key of `commonMetadata` is present. Once the drain loop has taken as many
steps as entries are waiting, each of these promises is fulfilled. -/
theorem batch_enqueues_in_order (svc : DiscordWebhookService) (before : List Event)
    (s : Scheduler) (caller : Caller) (logs : List JsVal)
    (commonMetadata : List (String × JsVal)) (batchId : String) (now : ℚ)
    (hs : s = run (Scheduler.start svc) before)
    (hitems : ∀ item ∈ logs, isLogOptions item = true) :
    ∃ entries : List LogEntry,
      (LoggerService.batch s caller logs commonMetadata batchId now).1.enqueued
        = s.enqueued ++ entries ∧
      entries.length = logs.length ∧
      (LoggerService.batch s caller logs commonMetadata batchId now).2
        = List.range' s.promises.length logs.length ∧
      (∀ i item, logs[i]? = some item →
        ∃ e metadata, entries[i]? = some e ∧ e.resolve = s.promises.length + i ∧
          e.message
            = (item.getProp "message").orDefault (JsVal.string "No message provided") ∧
          e.data = (item.getProp "data").orDefault JsVal.null ∧
          e.metadata = JsVal.object metadata ∧
          lookupProp "batch_id" metadata = JsVal.string batchId ∧
          lookupProp "batch_index" metadata = JsVal.number i ∧
          lookupProp "batch_total" metadata = JsVal.number logs.length ∧
          ∀ k ∈ commonMetadata.map Prod.fst, k ∈ metadata.map Prod.fst) ∧
      (∀ after : List Event,
        (waiting (LoggerService.batch s caller logs commonMetadata batchId now).1).length
          ≤ resumeCount after →
        ∀ h ∈ (LoggerService.batch s caller logs commonMetadata batchId now).2,
          ∃ v, (run (LoggerService.batch s caller logs commonMetadata batchId now).1
            after).promises[h]? = some (PromiseState.fulfilled v)) := by
  have hc : Consistent s := by
    rw [hs]
    exact consistent_run before (Scheduler.start svc) (consistent_start svc)
  have hp : PromiseInv s := by
    rw [hs]
    exact promiseInv_run before (Scheduler.start svc) (consistent_start svc)
      (promiseInv_start svc)
  obtain ⟨entries, h1, h2, ⟨events, h3⟩, h4, h5, h6⟩ :=
    batchFrom_spec caller commonMetadata batchId logs.length now logs s 0 hc hitems
  refine ⟨entries, h1, h5, h4, ?_, ?_⟩
  · intro i item hi
    obtain ⟨e, g1, g2, g3, g4, g5⟩ := h6 i item hi
    obtain ⟨m1, m2, m3, m4, _⟩ := batchMetadata_props commonMetadata batchId (0 + i) logs.length
    rw [Nat.zero_add] at m1 m2 m3 m4 g3
    exact ⟨e, _, g1, g2, g4, g5, g3, m1, m2, m3, m4⟩
  · intro after hlen h hh
    have hc' : Consistent (LoggerService.batch s caller logs commonMetadata batchId now).1 := by
      show Consistent (batchFrom caller commonMetadata batchId logs.length now s 0 logs).1
      rw [h3]
      exact consistent_run events s hc
    have hp' : PromiseInv (LoggerService.batch s caller logs commonMetadata batchId now).1 := by
      show PromiseInv (batchFrom caller commonMetadata batchId logs.length now s 0 logs).1
      rw [h3]
      exact promiseInv_run events s hc hp
    have hh2 : h ∈ List.range' s.promises.length logs.length := by
      rw [← h4]
      exact hh
    obtain ⟨hge, hlt⟩ := List.mem_range'_1.mp hh2
    obtain ⟨i, rfl⟩ : ∃ i, h = s.promises.length + i := ⟨h - s.promises.length, by omega⟩
    have hi : i < logs.length := by omega
    obtain ⟨e, g1, g2, _⟩ := h6 i logs[i] (List.getElem?_eq_getElem hi)
    have hw : (waiting (LoggerService.batch s caller logs commonMetadata batchId now).1)[
        (waiting s).length + i]? = some e := by
      show (waiting (batchFrom caller commonMetadata batchId logs.length now s 0 logs).1)[
        (waiting s).length + i]? = some e
      rw [h2, List.getElem?_append_right (by omega)]
      simpa using g1
    have hlen2 : (waiting s).length + i < resumeCount after := by
      have : (waiting (LoggerService.batch s caller logs commonMetadata batchId now).1).length
          = (waiting s).length + logs.length := by
        show (waiting (batchFrom caller commonMetadata batchId logs.length now s 0 logs).1
          ).length = _
        rw [h2, List.length_append, h5]
      omega
    have ht := (tracked_run after _ _ e hc' hp' hw).2 hlen2
    rw [g2] at ht
    exact ht

/-- Witness for C24: the three items of the test suite with
`commonMetadata = { batchId: 'batch_001' }`, on a fresh sample service. -/
theorem batch_enqueues_in_order_witness :
    ∃ entries : List LogEntry,
      (LoggerService.batch (Scheduler.start sampleService) testCaller batchItems
        [("batchId", JsVal.string "batch_001")] "1700000000000_k3j9x0a1b" 1000).1.enqueued
        = (Scheduler.start sampleService).enqueued ++ entries ∧
      entries.length = batchItems.length ∧
      (LoggerService.batch (Scheduler.start sampleService) testCaller batchItems
        [("batchId", JsVal.string "batch_001")] "1700000000000_k3j9x0a1b" 1000).2
        = List.range' (Scheduler.start sampleService).promises.length batchItems.length ∧
      (∀ i item, batchItems[i]? = some item →
        ∃ e metadata, entries[i]? = some e ∧
          e.resolve = (Scheduler.start sampleService).promises.length + i ∧
          e.message
            = (item.getProp "message").orDefault (JsVal.string "No message provided") ∧
          e.data = (item.getProp "data").orDefault JsVal.null ∧
          e.metadata = JsVal.object metadata ∧
          lookupProp "batch_id" metadata = JsVal.string "1700000000000_k3j9x0a1b" ∧
          lookupProp "batch_index" metadata = JsVal.number i ∧
          lookupProp "batch_total" metadata = JsVal.number batchItems.length ∧
          ∀ k ∈ [("batchId", JsVal.string "batch_001")].map Prod.fst,
            k ∈ metadata.map Prod.fst) ∧
      (∀ after : List Event,
        (waiting (LoggerService.batch (Scheduler.start sampleService) testCaller batchItems
          [("batchId", JsVal.string "batch_001")] "1700000000000_k3j9x0a1b" 1000).1).length
          ≤ resumeCount after →
        ∀ h ∈ (LoggerService.batch (Scheduler.start sampleService) testCaller batchItems
          [("batchId", JsVal.string "batch_001")] "1700000000000_k3j9x0a1b" 1000).2,
          ∃ v, (run (LoggerService.batch (Scheduler.start sampleService) testCaller batchItems
            [("batchId", JsVal.string "batch_001")] "1700000000000_k3j9x0a1b" 1000).1
            after).promises[h]? = some (PromiseState.fulfilled v)) :=
  batch_enqueues_in_order sampleService [] (Scheduler.start sampleService) testCaller
    batchItems [("batchId", JsVal.string "batch_001")] "1700000000000_k3j9x0a1b" 1000 rfl
    (by
      intro item h
      simp only [batchItems, List.mem_cons, List.mem_singleton, List.not_mem_nil,
        or_false] at h
      rcases h with rfl | rfl | rfl <;> rfl)

end DiscordLogger
